import Mathlib

/-!
# Instruction scheduler of the optimizing compiler (`compiler/optimizing/scheduler.h`)

A shallow embedding of the block-local instruction scheduler.

* A `SchedulingNode*` is a handle: the index of the node in the arena that owns
  every node of one block (`ScopedArenaAllocator`).  An `HInstruction*` is an
  instruction id.
* `uint32_t` fields are natural numbers below `2^32`; `++`, `--` and `+` on them
  wrap modulo `2^32`.
* Methods that write through two node pointers (`AddDataPredecessor`,
  `AddOtherPredecessor`) take the arena and return the updated arena.
* Code that aborts (`CHECK_EQ`, `LOG(FATAL)`) returns `none`.
* The header declares more than it defines: the bodies of `scheduler.cc` are not part of
  the sources.  A definition that stands for one of them follows the specification and
  says so at the start of its doc comment; every other definition follows the header.
-/

namespace Art

/-! ## Machine integers -/

/-- The modulus of `uint32_t` arithmetic, `2^32`. -/
def kUint32Modulus : Nat := 4294967296

/-- Typically used as a default instruction latency (`kGenericInstructionLatency`). -/
def kGenericInstructionLatency : Nat := 1

/-! ## `SchedulingNode` -/

/-- A node representing an `HInstruction` in the `SchedulingGraph`
(`class SchedulingNode`, fields in declaration order). -/
structure SchedulingNode where
  latency_ : Nat
  internal_latency_ : Nat
  critical_path_ : Nat
  instruction_ : Nat
  is_scheduling_barrier_ : Bool
  data_predecessors_ : List Nat
  other_predecessors_ : List Nat
  num_unscheduled_successors_ : Nat
deriving DecidableEq, Repr, Inhabited

/-- The constructor `SchedulingNode(instr, allocator, is_scheduling_barrier)`. -/
def SchedulingNode.new (instr : Nat) (is_scheduling_barrier : Bool) : SchedulingNode :=
  { latency_ := 0
    internal_latency_ := 0
    critical_path_ := 0
    instruction_ := instr
    is_scheduling_barrier_ := is_scheduling_barrier
    data_predecessors_ := []
    other_predecessors_ := []
    num_unscheduled_successors_ := 0 }

/-- Embeds `HasDataDependency(node)`: `ContainsElement(data_predecessors_, node)`. -/
def SchedulingNode.HasDataDependency (self : SchedulingNode) (node : Nat) : Bool :=
  decide (node ∈ self.data_predecessors_)

/-- Embeds `HasOtherDependency(node)`: `ContainsElement(other_predecessors_, node)`. -/
def SchedulingNode.HasOtherDependency (self : SchedulingNode) (node : Nat) : Bool :=
  decide (node ∈ self.other_predecessors_)

/-- Embeds `HasUnscheduledSuccessors()`: `num_unscheduled_successors_ != 0`. -/
def SchedulingNode.HasUnscheduledSuccessors (self : SchedulingNode) : Bool :=
  decide (self.num_unscheduled_successors_ ≠ 0)

/-- Embeds `DecrementNumberOfUnscheduledSuccessors()`: `num_unscheduled_successors_--` on a
`uint32_t`. -/
def SchedulingNode.DecrementNumberOfUnscheduledSuccessors (self : SchedulingNode) :
    SchedulingNode :=
  { self with
    num_unscheduled_successors_ :=
      (self.num_unscheduled_successors_ + (kUint32Modulus - 1)) % kUint32Modulus }

/-- Embeds `MaybeUpdateCriticalPath(other_critical_path)`:
`critical_path_ = std::max(critical_path_, other_critical_path)`. -/
def SchedulingNode.MaybeUpdateCriticalPath (self : SchedulingNode) (other_critical_path : Nat) :
    SchedulingNode :=
  { self with critical_path_ := max self.critical_path_ other_critical_path }

/-- Embeds `SetLatency(latency)`. -/
def SchedulingNode.SetLatency (self : SchedulingNode) (latency : Nat) : SchedulingNode :=
  { self with latency_ := latency }

/-- Embeds `SetInternalLatency(internal_latency)`. -/
def SchedulingNode.SetInternalLatency (self : SchedulingNode) (internal_latency : Nat) :
    SchedulingNode :=
  { self with internal_latency_ := internal_latency }

/-- The `num_unscheduled_successors_++` statement on a `uint32_t`. -/
def SchedulingNode.IncrementNumberOfUnscheduledSuccessors (self : SchedulingNode) :
    SchedulingNode :=
  { self with
    num_unscheduled_successors_ := (self.num_unscheduled_successors_ + 1) % kUint32Modulus }

/-- The `data_predecessors_.push_back(predecessor)` statement. -/
def SchedulingNode.pushDataPredecessor (self : SchedulingNode) (predecessor : Nat) :
    SchedulingNode :=
  { self with data_predecessors_ := self.data_predecessors_ ++ [predecessor] }

/-- The `other_predecessors_.push_back(predecessor)` statement. -/
def SchedulingNode.pushOtherPredecessor (self : SchedulingNode) (predecessor : Nat) :
    SchedulingNode :=
  { self with other_predecessors_ := self.other_predecessors_ ++ [predecessor] }

/-! ## The arena of nodes -/

/-- Dereference of a `SchedulingNode*`. -/
def nodeAt (arena : List SchedulingNode) (handle : Nat) : SchedulingNode :=
  (arena[handle]?).getD default

/-- Embeds `self->AddDataPredecessor(predecessor)`. -/
def AddDataPredecessor (arena : List SchedulingNode) (self predecessor : Nat) :
    List SchedulingNode :=
  if (nodeAt arena self).HasDataDependency predecessor then
    arena
  else
    List.modify SchedulingNode.IncrementNumberOfUnscheduledSuccessors predecessor
      (List.modify (fun n => n.pushDataPredecessor predecessor) self arena)

/-- Embeds `self->AddOtherPredecessor(predecessor)`. -/
def AddOtherPredecessor (arena : List SchedulingNode) (self predecessor : Nat) :
    List SchedulingNode :=
  if (nodeAt arena self).HasOtherDependency predecessor
      || (nodeAt arena self).HasDataDependency predecessor then
    arena
  else
    List.modify SchedulingNode.IncrementNumberOfUnscheduledSuccessors predecessor
      (List.modify (fun n => n.pushOtherPredecessor predecessor) self arena)

/-! ## The IR seen by the scheduler -/

/-- Modelled from the spec: the host compiler's IR (`nodes.h`, not part of the sources), as
the scheduler consumes it: per instruction (an id) its owning block, its ordered data
inputs, the values its environment refers to, its side-effect descriptor
(may-read-heap, may-write-heap, may-throw), the alias query of the heap-location
collector ("may these two accesses overlap"), the cross-iteration pattern of a loop
header phi, and the materialized-condition pattern used by the critical-path selector. -/
structure HGraph where
  GetBlock : Nat → Nat
  GetInputs : Nat → List Nat
  GetEnvInputs : Nat → List Nat
  DoesAnyRead : Nat → Bool
  DoesAnyWrite : Nat → Bool
  CanThrow : Nat → Bool
  MayAlias : Nat → Nat → Bool
  IsCrossIterationUse : Nat → Nat → Bool
  IsMaterializedConditionOf : Nat → Nat → Bool

/-- A basic block: its id and its instruction list in program order
(`block->GetInstructions()`). -/
structure HBasicBlock where
  block_id : Nat
  instructions : List Nat
deriving DecidableEq, Repr

/-! ## `SideEffectDependencyAnalysis` -/

/-- Modelled from the spec: `MemoryDependencyAnalysis::HasMemoryDependency` is only declared
in the header.  "Both instructions access heap memory, at least one is a write, and the
external alias oracle cannot prove the accessed locations are always disjoint." -/
def HasMemoryDependency (ir : HGraph) (instr1 instr2 : Nat) : Bool :=
  (ir.DoesAnyRead instr1 || ir.DoesAnyWrite instr1)
    && (ir.DoesAnyRead instr2 || ir.DoesAnyWrite instr2)
    && (ir.DoesAnyWrite instr1 || ir.DoesAnyWrite instr2)
    && ir.MayAlias instr1 instr2

/-- Modelled from the spec: `HasExceptionDependency` is only declared in the header.
"One instruction can throw and the other writes to memory (or vice versa)." -/
def HasExceptionDependency (ir : HGraph) (instr1 instr2 : Nat) : Bool :=
  (ir.CanThrow instr2 && ir.DoesAnyWrite instr1)
    || (ir.DoesAnyWrite instr2 && ir.CanThrow instr1)

/-- Embeds `SideEffectDependencyAnalysis::HasSideEffectDependency(instr1, instr2)`. -/
def HasSideEffectDependency (ir : HGraph) (instr1 instr2 : Nat) : Bool :=
  if HasMemoryDependency ir instr1 instr2 then
    true
  else if HasExceptionDependency ir instr1 instr2 then
    true
  else
    false

/-! ## `SchedulingGraph` -/

/-- The class `SchedulingGraph`: the nodes it owns (`arena`, handle = index),
`contains_scheduling_barrier_`, and `nodes_map_` from instruction to node. -/
structure SchedulingGraph where
  arena : List SchedulingNode
  contains_scheduling_barrier_ : Bool
  nodes_map_ : List (Nat × Nat)
deriving DecidableEq, Repr

/-- The constructor `SchedulingGraph(allocator, heap_location_collector)`. -/
def SchedulingGraph.new : SchedulingGraph :=
  { arena := [], contains_scheduling_barrier_ := false, nodes_map_ := [] }

/-- Embeds `GetNode(instr)`: `nodes_map_.find(instr)`, `nullptr` when absent. -/
def SchedulingGraph.GetNode (g : SchedulingGraph) (instr : Nat) : Option Nat :=
  (g.nodes_map_.find? (fun kv => kv.1 == instr)).map (fun kv => kv.2)

/-- Embeds `Size()`: `nodes_map_.size()`. -/
def SchedulingGraph.Size (g : SchedulingGraph) : Nat :=
  g.nodes_map_.length

/-- Embeds `nodes_map_.insert(std::make_pair(instr, node))`: a key already present keeps its
value. -/
def SchedulingGraph.insertNode (g : SchedulingGraph) (instr node : Nat) : SchedulingGraph :=
  match g.GetNode instr with
  | some _ => g
  | none => { g with nodes_map_ := g.nodes_map_ ++ [(instr, node)] }

/-- Modelled from the spec: `SchedulingGraph::AddDependency` is only declared in the header.
The edge is recorded in `node`, the successor, as a predecessor entry for `dependency`:
in `data_predecessors_` when `is_data_dependency`, else in `other_predecessors_`. -/
def AddDependency (arena : List SchedulingNode) (node dependency : Nat)
    (is_data_dependency : Bool) : List SchedulingNode :=
  if is_data_dependency then
    AddDataPredecessor arena node dependency
  else
    AddOtherPredecessor arena node dependency

/-- Embeds `AddDataDependency(node, dependency)`. -/
def AddDataDependency (arena : List SchedulingNode) (node dependency : Nat) :
    List SchedulingNode :=
  AddDependency arena node dependency true

/-- Embeds `AddOtherDependency(node, dependency)`. -/
def AddOtherDependency (arena : List SchedulingNode) (node dependency : Nat) :
    List SchedulingNode :=
  AddDependency arena node dependency false

/-- Modelled from the spec: the dependency-edge construction of `AddDependencies` (declared in
the header, body not in the sources) for the newly added node `node` against one
already-present node `other`.  Nodes are added in reverse program order, so `other` is a
potential successor of `node` and every edge makes `node` a predecessor of `other`:
1. a data edge for each data input of `other` that is the instruction of `node`;
2. a barrier edge when `node` is a scheduling barrier or `other` is one;
3. an edge for an environment use and for the cross-iteration (loop phi) pattern;
4. an edge when the side-effect analysis reports a dependency.
Steps 2 to 4 go through `AddOtherDependency`, which adds nothing when a data edge exists. -/
def AddDependenciesAgainst (ir : HGraph) (arena : List SchedulingNode) (node other : Nat)
    (is_scheduling_barrier : Bool) : List SchedulingNode :=
  let instruction := (nodeAt arena node).instruction_
  let other_instruction := (nodeAt arena other).instruction_
  let a1 := (ir.GetInputs other_instruction).foldl
    (fun a input => if input = instruction then AddDataDependency a other node else a) arena
  let a2 :=
    if is_scheduling_barrier || (nodeAt a1 other).is_scheduling_barrier_ then
      AddOtherDependency a1 other node
    else a1
  let a3 :=
    if decide (instruction ∈ ir.GetEnvInputs other_instruction)
        || ir.IsCrossIterationUse instruction other_instruction then
      AddOtherDependency a2 other node
    else a2
  if HasSideEffectDependency ir other_instruction instruction then
    AddOtherDependency a3 other node
  else a3

/-- Modelled from the spec: `SchedulingGraph::AddDependencies(node, is_scheduling_barrier)`,
"run once per newly added node against every already-present node"; the already-present
nodes are the handles allocated before `node`. -/
def SchedulingGraph.AddDependencies (ir : HGraph) (g : SchedulingGraph) (node : Nat)
    (is_scheduling_barrier : Bool) : SchedulingGraph :=
  { g with
    arena := (List.range node).foldl
      (fun a other => AddDependenciesAgainst ir a node other is_scheduling_barrier) g.arena }

/-- Embeds `AddNode(instr, is_scheduling_barrier)`: allocates the node, inserts it in
`nodes_map_`, updates `contains_scheduling_barrier_`, adds its dependencies and returns
its handle. -/
def SchedulingGraph.AddNode (ir : HGraph) (g : SchedulingGraph) (instr : Nat)
    (is_scheduling_barrier : Bool) : SchedulingGraph × Nat :=
  let result := g.arena.length
  let g1 : SchedulingGraph :=
    { g with arena := g.arena ++ [SchedulingNode.new instr is_scheduling_barrier] }
  let g2 := g1.insertNode instr result
  let g3 : SchedulingGraph :=
    { g2 with
      contains_scheduling_barrier_ := g2.contains_scheduling_barrier_ || is_scheduling_barrier }
  (g3.AddDependencies ir result is_scheduling_barrier, result)

/-! ## `SchedulingLatencyVisitor` -/

/-- The fields of `SchedulingLatencyVisitor`. -/
structure SchedulingLatencyVisitor where
  last_visited_latency_ : Nat
  last_visited_internal_latency_ : Nat
deriving DecidableEq, Repr

/-- The constructor `SchedulingLatencyVisitor()`. -/
def SchedulingLatencyVisitor.new : SchedulingLatencyVisitor :=
  { last_visited_latency_ := 0, last_visited_internal_latency_ := 0 }

/-- The generic `VisitInstruction` of the base class: `LOG(FATAL)`, it never returns. -/
def SchedulingLatencyVisitor.VisitInstruction (_self : SchedulingLatencyVisitor)
    (_instruction : Nat) : Option SchedulingLatencyVisitor :=
  none

/-- Embeds `CalculateLatency(node)`: clears the internal latency, then `Visit(node->GetInstruction())`;
`Accept` is the virtual dispatch `instruction->Accept(this)` of the concrete visitor. -/
def SchedulingLatencyVisitor.CalculateLatency
    (Accept : Nat → SchedulingLatencyVisitor → Option SchedulingLatencyVisitor)
    (self : SchedulingLatencyVisitor) (node : SchedulingNode) :
    Option SchedulingLatencyVisitor :=
  Accept node.instruction_ { self with last_visited_internal_latency_ := 0 }

/-! ## `SchedulingNodeSelector` and its two implementations -/

/-- The interface `SchedulingNodeSelector`, for a selector whose fields have type `σ`:
`Reset()` and `PopHighestPriorityNode(nodes, graph)`, which returns the selected node,
the updated candidate vector and the updated selector. -/
structure SchedulingNodeSelector (σ : Type) where
  Reset : σ → σ
  PopHighestPriorityNode : σ → List Nat → SchedulingGraph → Nat × List Nat × σ

/-- Embeds `DeleteNodeAtIndex(nodes, index)`: `(*nodes)[index] = nodes->back(); nodes->pop_back()`. -/
def DeleteNodeAtIndex (nodes : List Nat) (index : Nat) : List Nat :=
  (nodes.set index (nodes.getLastD 0)).dropLast

/-- Embeds `RandomSchedulingNodeSelector`: its field is `seed_`; `rand_r` is the C library
function, returning the draw and the updated seed. -/
def RandomSchedulingNodeSelector (rand_r : Nat → Nat × Nat) : SchedulingNodeSelector Nat :=
  { Reset := fun seed_ => seed_
    PopHighestPriorityNode := fun seed_ nodes _graph =>
      let draw := rand_r seed_
      let select := draw.1 % nodes.length
      let select_node := nodes.getD select 0
      (select_node, DeleteNodeAtIndex nodes select, draw.2) }

/-- Modelled from the spec: the tie-break (b) of the critical-path selector; `node` is "the
condition operand of a materialized boolean value adjacent to its consumer" when the
consumer is the previous pick, the instruction placed right after it. -/
def IsMaterializedCondition (ir : HGraph) (graph : SchedulingGraph) (prev_select_ : Option Nat)
    (node : Nat) : Bool :=
  match prev_select_ with
  | none => false
  | some prev =>
    ir.IsMaterializedConditionOf (nodeAt graph.arena node).instruction_
      (nodeAt graph.arena prev).instruction_

/-- Modelled from the spec: the distance of `node` to the previous pick in original program
order, for tie-break (c).  Handles are allocated in reverse program order, so the
distance in program order is the difference of the handles. -/
def DistanceToPreviousPick (prev_select_ : Option Nat) (node : Nat) : Nat :=
  match prev_select_ with
  | none => 0
  | some prev => if node ≤ prev then prev - node else node - prev

/-- Modelled from the spec: `GetHigherPrioritySchedulingNode(candidate, check)` is only declared
in the header.  Priority order: (a) higher `critical_path` wins; (b) a materialized
condition of the previous pick wins; (c) the node closest to the previous pick in
original program order wins; otherwise `candidate` is kept. -/
def GetHigherPrioritySchedulingNode (ir : HGraph) (graph : SchedulingGraph)
    (prev_select_ : Option Nat) (candidate check : Nat) : Nat :=
  let candidate_path := (nodeAt graph.arena candidate).critical_path_
  let check_path := (nodeAt graph.arena check).critical_path_
  if check_path ≠ candidate_path then
    if candidate_path < check_path then check else candidate
  else if IsMaterializedCondition ir graph prev_select_ check
      ≠ IsMaterializedCondition ir graph prev_select_ candidate then
    if IsMaterializedCondition ir graph prev_select_ check then check else candidate
  else if DistanceToPreviousPick prev_select_ check
      < DistanceToPreviousPick prev_select_ candidate then
    check
  else
    candidate

/-- Modelled from the spec: `CriticalPathSchedulingNodeSelector` (its
`PopHighestPriorityNode` is only declared in the header).  Its field is `prev_select_`,
null after `Reset()`.  The pop scans the candidates for the highest priority, removes the
selected one and stores it in `prev_select_` before returning it. -/
def CriticalPathSchedulingNodeSelector (ir : HGraph) : SchedulingNodeSelector (Option Nat) :=
  { Reset := fun _ => none
    PopHighestPriorityNode := fun prev_select_ nodes graph =>
      let select := (List.range nodes.length).foldl
        (fun select i =>
          if GetHigherPrioritySchedulingNode ir graph prev_select_
              (nodes.getD select 0) (nodes.getD i 0) = nodes.getD select 0 then
            select
          else i) 0
      let select_node := nodes.getD select 0
      (select_node, DeleteNodeAtIndex nodes select, some select_node) }

/-! ## `HScheduler` -/

/-- The class `HScheduler` for a selector with fields `σ`: `selector_`,
`only_optimize_loop_blocks_`, the virtual `IsSchedulingBarrier`, and the latency visitor
that the virtual `BuildSchedulingGraph` of the target passes to the template
(`instruction->Accept(&latency_visitor)`). -/
structure HScheduler (σ : Type) where
  selector_ : SchedulingNodeSelector σ
  only_optimize_loop_blocks_ : Bool
  IsSchedulingBarrier : Nat → Bool
  Accept : Nat → SchedulingLatencyVisitor → Option SchedulingLatencyVisitor

/-- The constructor `HScheduler(selector)`: `only_optimize_loop_blocks_(true)`; the two
virtual members are those of the target's subclass. -/
def HScheduler.new {σ : Type} (selector : SchedulingNodeSelector σ)
    (IsSchedulingBarrier : Nat → Bool)
    (Accept : Nat → SchedulingLatencyVisitor → Option SchedulingLatencyVisitor) :
    HScheduler σ :=
  { selector_ := selector
    only_optimize_loop_blocks_ := true
    IsSchedulingBarrier := IsSchedulingBarrier
    Accept := Accept }

/-- The setter `SetOnlyOptimizeLoopBlocks(loop_only)`. -/
def HScheduler.SetOnlyOptimizeLoopBlocks {σ : Type} (self : HScheduler σ) (loop_only : Bool) :
    HScheduler σ :=
  { self with only_optimize_loop_blocks_ := loop_only }

/-- The two fatal exits of the template `BuildSchedulingGraph`: the failure of its
`CHECK_EQ(instruction->GetBlock(), block)`, and the `LOG(FATAL)` of a latency visitor on
an instruction that it does not handle. -/
inductive BuildAbort where
  | CheckFailed
  | LatencyFatal
deriving DecidableEq, Repr

deriving instance DecidableEq for Except

/-- The body of the `for` loop of the template `BuildSchedulingGraph`, over the
instructions still to visit; the loop ends in the first abort that it meets. -/
def BuildSchedulingGraphFrom (ir : HGraph) (IsSchedulingBarrier : Nat → Bool)
    (Accept : Nat → SchedulingLatencyVisitor → Option SchedulingLatencyVisitor)
    (block_id : Nat) :
    List Nat → SchedulingGraph → List Nat → SchedulingLatencyVisitor →
      Except BuildAbort (SchedulingGraph × List Nat)
  | [], scheduling_graph, scheduling_nodes, _ =>
    Except.ok (scheduling_graph, scheduling_nodes)
  | instruction :: rest, scheduling_graph, scheduling_nodes, latency_visitor =>
    if ir.GetBlock instruction ≠ block_id then
      Except.error BuildAbort.CheckFailed
    else
      let added := scheduling_graph.AddNode ir instruction (IsSchedulingBarrier instruction)
      match latency_visitor.CalculateLatency Accept (nodeAt added.1.arena added.2) with
      | none => Except.error BuildAbort.LatencyFatal
      | some visited =>
        let arena := List.modify
          (fun n => (n.SetLatency visited.last_visited_latency_).SetInternalLatency
            visited.last_visited_internal_latency_) added.2 added.1.arena
        BuildSchedulingGraphFrom ir IsSchedulingBarrier Accept block_id rest
          { added.1 with arena := arena } (scheduling_nodes ++ [added.2]) visited

/-- The template `HScheduler::BuildSchedulingGraph(block, allocator, heap_location_collector,
latency_visitor)`: visits the block backward (`HBackwardInstructionIterator`); the
outcome is the pair that it returns, or the abort that ends it. -/
def BuildSchedulingGraphOutcome (ir : HGraph) (IsSchedulingBarrier : Nat → Bool)
    (Accept : Nat → SchedulingLatencyVisitor → Option SchedulingLatencyVisitor)
    (block : HBasicBlock) (latency_visitor : SchedulingLatencyVisitor) :
    Except BuildAbort (SchedulingGraph × List Nat) :=
  BuildSchedulingGraphFrom ir IsSchedulingBarrier Accept block.block_id
    block.instructions.reverse SchedulingGraph.new [] latency_visitor

/-- The value that the template `BuildSchedulingGraph` returns, `none` when it aborts. -/
def BuildSchedulingGraph (ir : HGraph) (IsSchedulingBarrier : Nat → Bool)
    (Accept : Nat → SchedulingLatencyVisitor → Option SchedulingLatencyVisitor)
    (block : HBasicBlock) (latency_visitor : SchedulingLatencyVisitor) :
    Option (SchedulingGraph × List Nat) :=
  (BuildSchedulingGraphOutcome ir IsSchedulingBarrier Accept block latency_visitor).toOption

/-- The state of the scheduling loop of one block: the graph, the candidates, the block's
instruction list with the insertion cursor, the selector's fields, and (for the proofs
only) the nodes popped so far, most recent first. -/
structure ScheduleState (σ : Type) where
  graph : SchedulingGraph
  candidates : List Nat
  instructions : List Nat
  cursor_ : Nat
  selector_state : σ
  scheduled : List Nat

/-- Modelled from the spec: the critical-path update of one predecessor of the popped node `s`,
`critical_path(predecessor) = max(critical_path(predecessor), latency(predecessor) + path)`
where `path` is `internal_latency(s) + critical_path(s)`; only data predecessors are
updated (`path` given): the critical path is defined over the uses, the data successors. -/
def UpdateCriticalPath (path : Option Nat) (arena : List SchedulingNode) (predecessor : Nat) :
    List SchedulingNode :=
  match path with
  | some path_to_node =>
    List.modify
      (fun n => n.MaybeUpdateCriticalPath ((n.latency_ + path_to_node) % kUint32Modulus))
      predecessor arena
  | none => arena

/-- Modelled from the spec: one predecessor visit of `Schedule(scheduling_node, candidates)`:
after the critical-path update, "decrement its `unscheduled_successor_count`, and if it
reaches zero, add it to the candidate set". -/
def VisitPredecessor (path : Option Nat) (acc : List SchedulingNode × List Nat)
    (predecessor : Nat) : List SchedulingNode × List Nat :=
  let a1 := UpdateCriticalPath path acc.1 predecessor
  let a2 := List.modify SchedulingNode.DecrementNumberOfUnscheduledSuccessors predecessor a1
  if (nodeAt a2 predecessor).HasUnscheduledSuccessors then
    (a2, acc.2)
  else
    (a2, acc.2 ++ [predecessor])

/-- Modelled from the spec: `Schedule(HInstruction*)`, "insert its instruction immediately
before the current insertion cursor; the cursor moves backward".  The cursor is the
number of instructions not yet placed: the instruction is taken out of them and put in
front of the instructions already placed. -/
def ScheduleInstruction (instructions : List Nat) (cursor_ : Nat) (instruction : Nat) :
    List Nat × Nat :=
  ((instructions.take cursor_).erase instruction ++ instruction :: instructions.drop cursor_,
    cursor_ - 1)

/-- Modelled from the spec: `Schedule(scheduling_node, candidates)` (body not in the sources):
visits the data predecessors, then the other predecessors, then places the instruction. -/
def ScheduleNode {σ : Type} (st : ScheduleState σ) (scheduling_node : Nat) : ScheduleState σ :=
  let node := nodeAt st.graph.arena scheduling_node
  let path_to_node := (node.internal_latency_ + node.critical_path_) % kUint32Modulus
  let r1 := node.data_predecessors_.foldl (VisitPredecessor (some path_to_node))
    (st.graph.arena, st.candidates)
  let r2 := node.other_predecessors_.foldl (VisitPredecessor none) r1
  let placed := ScheduleInstruction st.instructions st.cursor_ node.instruction_
  { st with
    graph := { st.graph with arena := r2.1 }
    candidates := r2.2
    instructions := placed.1
    cursor_ := placed.2
    scheduled := scheduling_node :: st.scheduled }

/-- Modelled from the spec: one iteration of the scheduling loop: pop a node via the
selector, then schedule it. -/
def ScheduleStep {σ : Type} (selector_ : SchedulingNodeSelector σ) (st : ScheduleState σ) :
    ScheduleState σ :=
  let popped := selector_.PopHighestPriorityNode st.selector_state st.candidates st.graph
  ScheduleNode { st with candidates := popped.2.1, selector_state := popped.2.2 } popped.1

/-- Modelled from the spec: the loop "while candidates remain"; `fuel` bounds the number of
iterations, `none` means the bound was reached with candidates left. -/
def ScheduleLoop {σ : Type} (selector_ : SchedulingNodeSelector σ) :
    Nat → ScheduleState σ → Option (ScheduleState σ)
  | fuel, st =>
    if st.candidates = [] then
      some st
    else
      match fuel with
      | 0 => none
      | fuel + 1 => ScheduleLoop selector_ fuel (ScheduleStep selector_ st)

/-- Modelled from the spec: the seeding of the candidates, "every node whose
`unscheduled_successor_count` is zero after the full build is an initial candidate", its
critical path "defaulting to `latency(n)` when `n` has no successors". -/
def SeedCandidates (acc : List SchedulingNode × List Nat) (node : Nat) :
    List SchedulingNode × List Nat :=
  if (nodeAt acc.1 node).HasUnscheduledSuccessors then
    acc
  else
    (List.modify (fun n => n.MaybeUpdateCriticalPath n.latency_) node acc.1, acc.2 ++ [node])

/-- Modelled from the spec: the state in which the scheduling loop of a block starts, for the
graph and node list that `BuildSchedulingGraph` returned. -/
def InitialScheduleState {σ : Type} (selector_ : SchedulingNodeSelector σ)
    (block : HBasicBlock) (selector_state : σ) (built : SchedulingGraph × List Nat) :
    ScheduleState σ :=
  let seeded := built.2.foldl SeedCandidates (built.1.arena, [])
  { graph := { built.1 with arena := seeded.1 }
    candidates := seeded.2
    instructions := block.instructions
    cursor_ := block.instructions.length
    selector_state := selector_.Reset selector_state
    scheduled := [] }

/-- Modelled from the spec: `HScheduler::Schedule(block, heap_location_collector)` (§4.5, body
not in the sources): build the graph, seed the candidates, reset the selector, run the
loop; the result is the final state, whose `instructions` is the block's new order. -/
def HScheduler.Schedule {σ : Type} (self : HScheduler σ) (ir : HGraph) (block : HBasicBlock)
    (selector_state : σ) (fuel : Nat) : Option (ScheduleState σ) :=
  match BuildSchedulingGraph ir self.IsSchedulingBarrier self.Accept block
      SchedulingLatencyVisitor.new with
  | none => none
  | some built =>
    ScheduleLoop self.selector_ fuel
      (InitialScheduleState self.selector_ block selector_state built)

/-! ## The ARM64 latency visitor (`scheduler_arm64.cc`) -/

/-- The constant `kArm64MemoryLoadLatency`. -/
def kArm64MemoryLoadLatency : Nat := 5

/-- The constant `kArm64MemoryStoreLatency`. -/
def kArm64MemoryStoreLatency : Nat := 3

/-- The constant `kArm64CallInternalLatency`. -/
def kArm64CallInternalLatency : Nat := 10

/-- The constant `kArm64CallLatency`. -/
def kArm64CallLatency : Nat := 5

/-- The constant `kArm64IntegerOpLatency`. -/
def kArm64IntegerOpLatency : Nat := 2

/-- The constant `kArm64FloatingPointOpLatency`. -/
def kArm64FloatingPointOpLatency : Nat := 5

/-- The constant `kArm64DataProcWithShifterOpLatency`. -/
def kArm64DataProcWithShifterOpLatency : Nat := 3

/-- The constant `kArm64DivDoubleLatency`. -/
def kArm64DivDoubleLatency : Nat := 30

/-- The constant `kArm64DivFloatLatency`. -/
def kArm64DivFloatLatency : Nat := 15

/-- The constant `kArm64DivIntegerLatency`. -/
def kArm64DivIntegerLatency : Nat := 5

/-- The constant `kArm64LoadStringInternalLatency`. -/
def kArm64LoadStringInternalLatency : Nat := 7

/-- The constant `kArm64MulFloatingPointLatency`. -/
def kArm64MulFloatingPointLatency : Nat := 6

/-- The constant `kArm64MulIntegerLatency`. -/
def kArm64MulIntegerLatency : Nat := 6

/-- The constant `kArm64TypeConversionFloatingPointIntegerLatency`. -/
def kArm64TypeConversionFloatingPointIntegerLatency : Nat := 5

/-- The constant `kArm64BranchLatency`. -/
def kArm64BranchLatency : Nat := kArm64IntegerOpLatency

/-- The constant `kArm64SIMDFloatingPointOpLatency`. -/
def kArm64SIMDFloatingPointOpLatency : Nat := 10

/-- The constant `kArm64SIMDIntegerOpLatency`. -/
def kArm64SIMDIntegerOpLatency : Nat := 6

/-- The constant `kArm64SIMDMemoryLoadLatency`. -/
def kArm64SIMDMemoryLoadLatency : Nat := 10

/-- The constant `kArm64SIMDMemoryStoreLatency`. -/
def kArm64SIMDMemoryStoreLatency : Nat := 6

/-- The constant `kArm64SIMDMulFloatingPointLatency`. -/
def kArm64SIMDMulFloatingPointLatency : Nat := 12

/-- The constant `kArm64SIMDMulIntegerLatency`. -/
def kArm64SIMDMulIntegerLatency : Nat := 12

/-- The constant `kArm64SIMDReplicateOpLatency`. -/
def kArm64SIMDReplicateOpLatency : Nat := 16

/-- The constant `kArm64SIMDDivDoubleLatency`. -/
def kArm64SIMDDivDoubleLatency : Nat := 60

/-- The constant `kArm64SIMDDivFloatLatency`. -/
def kArm64SIMDDivFloatLatency : Nat := 30

/-- The constant `kArm64SIMDTypeConversionInt2FPLatency`. -/
def kArm64SIMDTypeConversionInt2FPLatency : Nat := 10

/-- Modelled from the spec: the enumeration `DataType::Type` (`data_type.h` is not part of the
sources); the visitor names `kFloat32`, `kFloat64`, `kBool` and `kUint16`. -/
inductive DataType where
  | kReference
  | kBool
  | kUint8
  | kInt8
  | kUint16
  | kInt16
  | kUint32
  | kInt32
  | kUint64
  | kInt64
  | kFloat32
  | kFloat64
  | kVoid
deriving DecidableEq, Repr, Inhabited

/-- Modelled from the spec: `DataType::IsFloatingPointType(type)` (`data_type.h` is not part of
the sources): the two floating-point types, those that `VisitDiv` switches on. -/
def DataType.IsFloatingPointType (type : DataType) : Bool :=
  match type with
  | DataType.kFloat32 => true
  | DataType.kFloat64 => true
  | _ => false

/-- Modelled from the spec: `AbsOrMin(value)` on `int64_t` (`code_generator_utils.h` is not part
of the sources): the absolute value, `INT64_MIN` staying as it is. -/
def AbsOrMin (value : Int) : Int :=
  if value = -9223372036854775808 then value else Int.ofNat value.natAbs

/-- Modelled from the spec: `IsPowerOfTwo(x)` on `int64_t` (`base/bit_utils.h` is not part of
the sources), `(x & (x - 1)) == 0` on the 64 bits that represent `x`, the subtraction wrapping. -/
def IsPowerOfTwo (x : Int) : Bool :=
  let bits := (x % 18446744073709551616).toNat
  (bits &&& ((bits + 18446744073709551615) % 18446744073709551616)) == 0

/-- The instruction kinds `HInstruction::InstructionKind` that decide which case of the
ARM64 visitor `instruction->Accept(visitor)` reaches.  The first forty are the kinds of
`FOR_EACH_SCHEDULED_COMMON_INSTRUCTION`, the next five those of
`FOR_EACH_SCHEDULED_SHARED_INSTRUCTION`, each with a `Visit` case of its own
(`FOR_EACH_CONCRETE_INSTRUCTION_ARM64` adds none: the file defines no further case).
The kinds that the file does not name are delegated by `HGraphDelegateVisitor` to the
case of their super class: `kOtherBinaryOperation` is a kind derived from
`HBinaryOperation` (such as `HAdd`), `kOtherInvoke` a kind derived from `HInvoke`, and
`kOther` any remaining kind, which reaches `VisitInstruction`. -/
inductive InstructionKind where
  | kArrayGet
  | kArrayLength
  | kArraySet
  | kBoundsCheck
  | kDiv
  | kInstanceFieldGet
  | kInstanceOf
  | kLoadString
  | kMul
  | kNewArray
  | kNewInstance
  | kRem
  | kStaticFieldGet
  | kSuspendCheck
  | kTypeConversion
  | kVecReplicateScalar
  | kVecExtractScalar
  | kVecReduce
  | kVecCnv
  | kVecNeg
  | kVecAbs
  | kVecNot
  | kVecAdd
  | kVecHalvingAdd
  | kVecSub
  | kVecMul
  | kVecDiv
  | kVecMin
  | kVecMax
  | kVecAnd
  | kVecAndNot
  | kVecOr
  | kVecXor
  | kVecShl
  | kVecShr
  | kVecUShr
  | kVecSetScalars
  | kVecMultiplyAccumulate
  | kVecLoad
  | kVecStore
  | kBitwiseNegatedRight
  | kMultiplyAccumulate
  | kIntermediateAddress
  | kIntermediateAddressIndex
  | kDataProcWithShifterOp
  | kOtherBinaryOperation
  | kOtherInvoke
  | kOther
deriving DecidableEq, Repr, Inhabited

/-- What the cases of the ARM64 latency visitor read from an `HInstruction`: `GetKind()`,
`GetResultType()`, `GetInputType()` (of a type conversion), `GetPackedType()` (of a
vector operation), `GetArray()->IsIntermediateAddress()`, the value of
`GetRight()` when it `IsConstant()` (`Int64FromConstant`), `IsStringAlloc()`,
`IsStringCharAt()`, and `InputAt(1)->IsConstant()` of a vector memory operation. -/
structure HInstruction where
  GetKind : InstructionKind
  GetResultType : DataType
  GetInputType : DataType
  GetPackedType : DataType
  ArrayIsIntermediateAddress : Bool
  RightConstant : Option Int
  IsStringAlloc : Bool
  IsStringCharAt : Bool
  IndexIsConstant : Bool
deriving DecidableEq, Repr, Inhabited

/-- Embeds `SchedulingLatencyVisitorARM64::VisitInstruction`, the "default visitor for
instructions not handled specifically below": it overrides the fatal `VisitInstruction` of
the base class. -/
def SchedulingLatencyVisitorARM64.VisitInstruction (self : SchedulingLatencyVisitor)
    (_instruction : HInstruction) : SchedulingLatencyVisitor :=
  { self with last_visited_latency_ := kArm64IntegerOpLatency }

/-- Embeds `SchedulingLatencyVisitorARM64::VisitBinaryOperation`. -/
def SchedulingLatencyVisitorARM64.VisitBinaryOperation (self : SchedulingLatencyVisitor)
    (instr : HInstruction) : SchedulingLatencyVisitor :=
  { self with
    last_visited_latency_ :=
      if instr.GetResultType.IsFloatingPointType then kArm64FloatingPointOpLatency
      else kArm64IntegerOpLatency }

/-- Embeds `SchedulingLatencyVisitorARM64::VisitBitwiseNegatedRight`. -/
def SchedulingLatencyVisitorARM64.VisitBitwiseNegatedRight (self : SchedulingLatencyVisitor)
    (_instruction : HInstruction) : SchedulingLatencyVisitor :=
  { self with last_visited_latency_ := kArm64IntegerOpLatency }

/-- Embeds `SchedulingLatencyVisitorARM64::VisitDataProcWithShifterOp`. -/
def SchedulingLatencyVisitorARM64.VisitDataProcWithShifterOp (self : SchedulingLatencyVisitor)
    (_instruction : HInstruction) : SchedulingLatencyVisitor :=
  { self with last_visited_latency_ := kArm64DataProcWithShifterOpLatency }

/-- Embeds `SchedulingLatencyVisitorARM64::VisitIntermediateAddress`. -/
def SchedulingLatencyVisitorARM64.VisitIntermediateAddress (self : SchedulingLatencyVisitor)
    (_instruction : HInstruction) : SchedulingLatencyVisitor :=
  { self with last_visited_latency_ := kArm64IntegerOpLatency + 2 }

/-- Embeds `SchedulingLatencyVisitorARM64::VisitIntermediateAddressIndex`. -/
def SchedulingLatencyVisitorARM64.VisitIntermediateAddressIndex (self : SchedulingLatencyVisitor)
    (_instruction : HInstruction) : SchedulingLatencyVisitor :=
  { self with last_visited_latency_ := kArm64DataProcWithShifterOpLatency + 2 }

/-- Embeds `SchedulingLatencyVisitorARM64::VisitMultiplyAccumulate`. -/
def SchedulingLatencyVisitorARM64.VisitMultiplyAccumulate (self : SchedulingLatencyVisitor)
    (_instruction : HInstruction) : SchedulingLatencyVisitor :=
  { self with last_visited_latency_ := kArm64MulIntegerLatency }

/-- Embeds `SchedulingLatencyVisitorARM64::VisitArrayGet`. -/
def SchedulingLatencyVisitorARM64.VisitArrayGet (self : SchedulingLatencyVisitor)
    (instruction : HInstruction) : SchedulingLatencyVisitor :=
  let self1 :=
    if !instruction.ArrayIsIntermediateAddress then
      { self with last_visited_internal_latency_ := kArm64IntegerOpLatency }
    else self
  { self1 with last_visited_latency_ := kArm64MemoryLoadLatency }

/-- Embeds `SchedulingLatencyVisitorARM64::VisitArrayLength`. -/
def SchedulingLatencyVisitorARM64.VisitArrayLength (self : SchedulingLatencyVisitor)
    (_instruction : HInstruction) : SchedulingLatencyVisitor :=
  { self with last_visited_latency_ := kArm64MemoryLoadLatency }

/-- Embeds `SchedulingLatencyVisitorARM64::VisitArraySet`. -/
def SchedulingLatencyVisitorARM64.VisitArraySet (self : SchedulingLatencyVisitor)
    (_instruction : HInstruction) : SchedulingLatencyVisitor :=
  { self with last_visited_latency_ := kArm64MemoryStoreLatency }

/-- Embeds `SchedulingLatencyVisitorARM64::VisitBoundsCheck`. -/
def SchedulingLatencyVisitorARM64.VisitBoundsCheck (self : SchedulingLatencyVisitor)
    (_instruction : HInstruction) : SchedulingLatencyVisitor :=
  { self with
    last_visited_internal_latency_ := kArm64IntegerOpLatency
    last_visited_latency_ := 0 }

/-- Embeds `SchedulingLatencyVisitorARM64::VisitDiv`; the `DCHECK` of the last branch writes
nothing. -/
def SchedulingLatencyVisitorARM64.VisitDiv (self : SchedulingLatencyVisitor)
    (instr : HInstruction) : SchedulingLatencyVisitor :=
  match instr.GetResultType with
  | DataType.kFloat32 => { self with last_visited_latency_ := kArm64DivFloatLatency }
  | DataType.kFloat64 => { self with last_visited_latency_ := kArm64DivDoubleLatency }
  | _ =>
    match instr.RightConstant with
    | some imm =>
      if imm = 0 then
        { self with
          last_visited_internal_latency_ := 0
          last_visited_latency_ := 0 }
      else if imm = 1 ∨ imm = -1 then
        { self with
          last_visited_internal_latency_ := 0
          last_visited_latency_ := kArm64IntegerOpLatency }
      else if IsPowerOfTwo (AbsOrMin imm) then
        { self with
          last_visited_internal_latency_ := 4 * kArm64IntegerOpLatency
          last_visited_latency_ := kArm64IntegerOpLatency }
      else
        { self with
          last_visited_internal_latency_ := 4 * kArm64IntegerOpLatency
          last_visited_latency_ := kArm64MulIntegerLatency }
    | none => { self with last_visited_latency_ := kArm64DivIntegerLatency }

/-- Embeds `SchedulingLatencyVisitorARM64::VisitInstanceFieldGet`. -/
def SchedulingLatencyVisitorARM64.VisitInstanceFieldGet (self : SchedulingLatencyVisitor)
    (_instruction : HInstruction) : SchedulingLatencyVisitor :=
  { self with last_visited_latency_ := kArm64MemoryLoadLatency }

/-- Embeds `SchedulingLatencyVisitorARM64::VisitInstanceOf`. -/
def SchedulingLatencyVisitorARM64.VisitInstanceOf (self : SchedulingLatencyVisitor)
    (_instruction : HInstruction) : SchedulingLatencyVisitor :=
  { self with
    last_visited_internal_latency_ := kArm64CallInternalLatency
    last_visited_latency_ := kArm64IntegerOpLatency }

/-- Embeds `SchedulingLatencyVisitorARM64::VisitInvoke`. -/
def SchedulingLatencyVisitorARM64.VisitInvoke (self : SchedulingLatencyVisitor)
    (_instruction : HInstruction) : SchedulingLatencyVisitor :=
  { self with
    last_visited_internal_latency_ := kArm64CallInternalLatency
    last_visited_latency_ := kArm64CallLatency }

/-- Embeds `SchedulingLatencyVisitorARM64::VisitLoadString`. -/
def SchedulingLatencyVisitorARM64.VisitLoadString (self : SchedulingLatencyVisitor)
    (_instruction : HInstruction) : SchedulingLatencyVisitor :=
  { self with
    last_visited_internal_latency_ := kArm64LoadStringInternalLatency
    last_visited_latency_ := kArm64MemoryLoadLatency }

/-- Embeds `SchedulingLatencyVisitorARM64::VisitMul`. -/
def SchedulingLatencyVisitorARM64.VisitMul (self : SchedulingLatencyVisitor)
    (instr : HInstruction) : SchedulingLatencyVisitor :=
  { self with
    last_visited_latency_ :=
      if instr.GetResultType.IsFloatingPointType then kArm64MulFloatingPointLatency
      else kArm64MulIntegerLatency }

/-- Embeds `SchedulingLatencyVisitorARM64::VisitNewArray`. -/
def SchedulingLatencyVisitorARM64.VisitNewArray (self : SchedulingLatencyVisitor)
    (_instruction : HInstruction) : SchedulingLatencyVisitor :=
  { self with
    last_visited_internal_latency_ := kArm64IntegerOpLatency + kArm64CallInternalLatency
    last_visited_latency_ := kArm64CallLatency }

/-- Embeds `SchedulingLatencyVisitorARM64::VisitNewInstance`. -/
def SchedulingLatencyVisitorARM64.VisitNewInstance (self : SchedulingLatencyVisitor)
    (instruction : HInstruction) : SchedulingLatencyVisitor :=
  let self1 :=
    if instruction.IsStringAlloc then
      { self with
        last_visited_internal_latency_ :=
          2 + kArm64MemoryLoadLatency + kArm64CallInternalLatency }
    else
      { self with last_visited_internal_latency_ := kArm64CallInternalLatency }
  { self1 with last_visited_latency_ := kArm64CallLatency }

/-- Embeds `SchedulingLatencyVisitorARM64::VisitRem`; the `DCHECK` of the last branch writes
nothing. -/
def SchedulingLatencyVisitorARM64.VisitRem (self : SchedulingLatencyVisitor)
    (instruction : HInstruction) : SchedulingLatencyVisitor :=
  if instruction.GetResultType.IsFloatingPointType then
    { self with
      last_visited_internal_latency_ := kArm64CallInternalLatency
      last_visited_latency_ := kArm64CallLatency }
  else
    match instruction.RightConstant with
    | some imm =>
      if imm = 0 then
        { self with
          last_visited_internal_latency_ := 0
          last_visited_latency_ := 0 }
      else if imm = 1 ∨ imm = -1 then
        { self with
          last_visited_internal_latency_ := 0
          last_visited_latency_ := kArm64IntegerOpLatency }
      else if IsPowerOfTwo (AbsOrMin imm) then
        { self with
          last_visited_internal_latency_ := 4 * kArm64IntegerOpLatency
          last_visited_latency_ := kArm64IntegerOpLatency }
      else
        { self with
          last_visited_internal_latency_ := 4 * kArm64IntegerOpLatency
          last_visited_latency_ := kArm64MulIntegerLatency }
    | none =>
      { self with
        last_visited_internal_latency_ := kArm64DivIntegerLatency
        last_visited_latency_ := kArm64MulIntegerLatency }

/-- Embeds `SchedulingLatencyVisitorARM64::VisitStaticFieldGet`. -/
def SchedulingLatencyVisitorARM64.VisitStaticFieldGet (self : SchedulingLatencyVisitor)
    (_instruction : HInstruction) : SchedulingLatencyVisitor :=
  { self with last_visited_latency_ := kArm64MemoryLoadLatency }

/-- Embeds `SchedulingLatencyVisitorARM64::VisitSuspendCheck`; its `DCHECK_IMPLIES` on the loop
information of the block writes nothing. -/
def SchedulingLatencyVisitorARM64.VisitSuspendCheck (self : SchedulingLatencyVisitor)
    (_instruction : HInstruction) : SchedulingLatencyVisitor :=
  { self with last_visited_latency_ := 0 }

/-- Embeds `SchedulingLatencyVisitorARM64::VisitTypeConversion`. -/
def SchedulingLatencyVisitorARM64.VisitTypeConversion (self : SchedulingLatencyVisitor)
    (instr : HInstruction) : SchedulingLatencyVisitor :=
  if instr.GetResultType.IsFloatingPointType || instr.GetInputType.IsFloatingPointType then
    { self with last_visited_latency_ := kArm64TypeConversionFloatingPointIntegerLatency }
  else
    { self with last_visited_latency_ := kArm64IntegerOpLatency }

/-- Embeds `SchedulingLatencyVisitorARM64::HandleSimpleArithmeticSIMD`. -/
def SchedulingLatencyVisitorARM64.HandleSimpleArithmeticSIMD (self : SchedulingLatencyVisitor)
    (instr : HInstruction) : SchedulingLatencyVisitor :=
  if instr.GetPackedType.IsFloatingPointType then
    { self with last_visited_latency_ := kArm64SIMDFloatingPointOpLatency }
  else
    { self with last_visited_latency_ := kArm64SIMDIntegerOpLatency }

/-- Embeds `SchedulingLatencyVisitorARM64::VisitVecReplicateScalar`. -/
def SchedulingLatencyVisitorARM64.VisitVecReplicateScalar (self : SchedulingLatencyVisitor)
    (_instr : HInstruction) : SchedulingLatencyVisitor :=
  { self with last_visited_latency_ := kArm64SIMDReplicateOpLatency }

/-- Embeds `SchedulingLatencyVisitorARM64::VisitVecExtractScalar`. -/
def SchedulingLatencyVisitorARM64.VisitVecExtractScalar (self : SchedulingLatencyVisitor)
    (instr : HInstruction) : SchedulingLatencyVisitor :=
  SchedulingLatencyVisitorARM64.HandleSimpleArithmeticSIMD self instr

/-- Embeds `SchedulingLatencyVisitorARM64::VisitVecReduce`. -/
def SchedulingLatencyVisitorARM64.VisitVecReduce (self : SchedulingLatencyVisitor)
    (instr : HInstruction) : SchedulingLatencyVisitor :=
  SchedulingLatencyVisitorARM64.HandleSimpleArithmeticSIMD self instr

/-- Embeds `SchedulingLatencyVisitorARM64::VisitVecCnv`. -/
def SchedulingLatencyVisitorARM64.VisitVecCnv (self : SchedulingLatencyVisitor)
    (_instr : HInstruction) : SchedulingLatencyVisitor :=
  { self with last_visited_latency_ := kArm64SIMDTypeConversionInt2FPLatency }

/-- Embeds `SchedulingLatencyVisitorARM64::VisitVecNeg`. -/
def SchedulingLatencyVisitorARM64.VisitVecNeg (self : SchedulingLatencyVisitor)
    (instr : HInstruction) : SchedulingLatencyVisitor :=
  SchedulingLatencyVisitorARM64.HandleSimpleArithmeticSIMD self instr

/-- Embeds `SchedulingLatencyVisitorARM64::VisitVecAbs`. -/
def SchedulingLatencyVisitorARM64.VisitVecAbs (self : SchedulingLatencyVisitor)
    (instr : HInstruction) : SchedulingLatencyVisitor :=
  SchedulingLatencyVisitorARM64.HandleSimpleArithmeticSIMD self instr

/-- Embeds `SchedulingLatencyVisitorARM64::VisitVecNot`. -/
def SchedulingLatencyVisitorARM64.VisitVecNot (self : SchedulingLatencyVisitor)
    (instr : HInstruction) : SchedulingLatencyVisitor :=
  let self1 :=
    if instr.GetPackedType = DataType.kBool then
      { self with last_visited_internal_latency_ := kArm64SIMDIntegerOpLatency }
    else self
  { self1 with last_visited_latency_ := kArm64SIMDIntegerOpLatency }

/-- Embeds `SchedulingLatencyVisitorARM64::VisitVecAdd`. -/
def SchedulingLatencyVisitorARM64.VisitVecAdd (self : SchedulingLatencyVisitor)
    (instr : HInstruction) : SchedulingLatencyVisitor :=
  SchedulingLatencyVisitorARM64.HandleSimpleArithmeticSIMD self instr

/-- Embeds `SchedulingLatencyVisitorARM64::VisitVecHalvingAdd`. -/
def SchedulingLatencyVisitorARM64.VisitVecHalvingAdd (self : SchedulingLatencyVisitor)
    (instr : HInstruction) : SchedulingLatencyVisitor :=
  SchedulingLatencyVisitorARM64.HandleSimpleArithmeticSIMD self instr

/-- Embeds `SchedulingLatencyVisitorARM64::VisitVecSub`. -/
def SchedulingLatencyVisitorARM64.VisitVecSub (self : SchedulingLatencyVisitor)
    (instr : HInstruction) : SchedulingLatencyVisitor :=
  SchedulingLatencyVisitorARM64.HandleSimpleArithmeticSIMD self instr

/-- Embeds `SchedulingLatencyVisitorARM64::VisitVecMul`. -/
def SchedulingLatencyVisitorARM64.VisitVecMul (self : SchedulingLatencyVisitor)
    (instr : HInstruction) : SchedulingLatencyVisitor :=
  if instr.GetPackedType.IsFloatingPointType then
    { self with last_visited_latency_ := kArm64SIMDMulFloatingPointLatency }
  else
    { self with last_visited_latency_ := kArm64SIMDMulIntegerLatency }

/-- Embeds `SchedulingLatencyVisitorARM64::VisitVecDiv`; the `DCHECK` of its second branch
writes nothing. -/
def SchedulingLatencyVisitorARM64.VisitVecDiv (self : SchedulingLatencyVisitor)
    (instr : HInstruction) : SchedulingLatencyVisitor :=
  if instr.GetPackedType = DataType.kFloat32 then
    { self with last_visited_latency_ := kArm64SIMDDivFloatLatency }
  else
    { self with last_visited_latency_ := kArm64SIMDDivDoubleLatency }

/-- Embeds `SchedulingLatencyVisitorARM64::VisitVecMin`. -/
def SchedulingLatencyVisitorARM64.VisitVecMin (self : SchedulingLatencyVisitor)
    (instr : HInstruction) : SchedulingLatencyVisitor :=
  SchedulingLatencyVisitorARM64.HandleSimpleArithmeticSIMD self instr

/-- Embeds `SchedulingLatencyVisitorARM64::VisitVecMax`. -/
def SchedulingLatencyVisitorARM64.VisitVecMax (self : SchedulingLatencyVisitor)
    (instr : HInstruction) : SchedulingLatencyVisitor :=
  SchedulingLatencyVisitorARM64.HandleSimpleArithmeticSIMD self instr

/-- Embeds `SchedulingLatencyVisitorARM64::VisitVecAnd`. -/
def SchedulingLatencyVisitorARM64.VisitVecAnd (self : SchedulingLatencyVisitor)
    (_instr : HInstruction) : SchedulingLatencyVisitor :=
  { self with last_visited_latency_ := kArm64SIMDIntegerOpLatency }

/-- Embeds `SchedulingLatencyVisitorARM64::VisitVecAndNot`. -/
def SchedulingLatencyVisitorARM64.VisitVecAndNot (self : SchedulingLatencyVisitor)
    (_instr : HInstruction) : SchedulingLatencyVisitor :=
  { self with last_visited_latency_ := kArm64SIMDIntegerOpLatency }

/-- Embeds `SchedulingLatencyVisitorARM64::VisitVecOr`. -/
def SchedulingLatencyVisitorARM64.VisitVecOr (self : SchedulingLatencyVisitor)
    (_instr : HInstruction) : SchedulingLatencyVisitor :=
  { self with last_visited_latency_ := kArm64SIMDIntegerOpLatency }

/-- Embeds `SchedulingLatencyVisitorARM64::VisitVecXor`. -/
def SchedulingLatencyVisitorARM64.VisitVecXor (self : SchedulingLatencyVisitor)
    (_instr : HInstruction) : SchedulingLatencyVisitor :=
  { self with last_visited_latency_ := kArm64SIMDIntegerOpLatency }

/-- Embeds `SchedulingLatencyVisitorARM64::VisitVecShl`. -/
def SchedulingLatencyVisitorARM64.VisitVecShl (self : SchedulingLatencyVisitor)
    (instr : HInstruction) : SchedulingLatencyVisitor :=
  SchedulingLatencyVisitorARM64.HandleSimpleArithmeticSIMD self instr

/-- Embeds `SchedulingLatencyVisitorARM64::VisitVecShr`. -/
def SchedulingLatencyVisitorARM64.VisitVecShr (self : SchedulingLatencyVisitor)
    (instr : HInstruction) : SchedulingLatencyVisitor :=
  SchedulingLatencyVisitorARM64.HandleSimpleArithmeticSIMD self instr

/-- Embeds `SchedulingLatencyVisitorARM64::VisitVecUShr`. -/
def SchedulingLatencyVisitorARM64.VisitVecUShr (self : SchedulingLatencyVisitor)
    (instr : HInstruction) : SchedulingLatencyVisitor :=
  SchedulingLatencyVisitorARM64.HandleSimpleArithmeticSIMD self instr

/-- Embeds `SchedulingLatencyVisitorARM64::VisitVecSetScalars`. -/
def SchedulingLatencyVisitorARM64.VisitVecSetScalars (self : SchedulingLatencyVisitor)
    (instr : HInstruction) : SchedulingLatencyVisitor :=
  SchedulingLatencyVisitorARM64.HandleSimpleArithmeticSIMD self instr

/-- Embeds `SchedulingLatencyVisitorARM64::VisitVecMultiplyAccumulate`. -/
def SchedulingLatencyVisitorARM64.VisitVecMultiplyAccumulate (self : SchedulingLatencyVisitor)
    (_instr : HInstruction) : SchedulingLatencyVisitor :=
  { self with last_visited_latency_ := kArm64SIMDMulIntegerLatency }

/-- Embeds `SchedulingLatencyVisitorARM64::HandleVecAddress`; `+=` on `uint32_t` wraps. -/
def SchedulingLatencyVisitorARM64.HandleVecAddress (self : SchedulingLatencyVisitor)
    (instruction : HInstruction) : SchedulingLatencyVisitor :=
  if !instruction.IndexIsConstant then
    { self with
      last_visited_internal_latency_ :=
        (self.last_visited_internal_latency_ + kArm64DataProcWithShifterOpLatency)
          % kUint32Modulus }
  else self

/-- Embeds `SchedulingLatencyVisitorARM64::VisitVecLoad`; `kUseStringCompression` is the constant
`mirror::kUseStringCompression` (`mirror/string.h` is not part of the sources). -/
def SchedulingLatencyVisitorARM64.VisitVecLoad (kUseStringCompression : Bool)
    (self : SchedulingLatencyVisitor) (instr : HInstruction) : SchedulingLatencyVisitor :=
  let self0 := { self with last_visited_internal_latency_ := 0 }
  if instr.GetPackedType = DataType.kUint16 ∧ kUseStringCompression = true
      ∧ instr.IsStringCharAt = true then
    let self1 := { self0 with
      last_visited_internal_latency_ :=
        (self0.last_visited_internal_latency_ + (kArm64MemoryLoadLatency + kArm64BranchLatency))
          % kUint32Modulus }
    let self2 := SchedulingLatencyVisitorARM64.HandleVecAddress self1 instr
    { self2 with last_visited_latency_ := kArm64SIMDMemoryLoadLatency }
  else
    let self2 := SchedulingLatencyVisitorARM64.HandleVecAddress self0 instr
    { self2 with last_visited_latency_ := kArm64SIMDMemoryLoadLatency }

/-- Embeds `SchedulingLatencyVisitorARM64::VisitVecStore`. -/
def SchedulingLatencyVisitorARM64.VisitVecStore (self : SchedulingLatencyVisitor)
    (instr : HInstruction) : SchedulingLatencyVisitor :=
  let self0 := { self with last_visited_internal_latency_ := 0 }
  let self2 := SchedulingLatencyVisitorARM64.HandleVecAddress self0 instr
  { self2 with last_visited_latency_ := kArm64SIMDMemoryStoreLatency }

/-- The dispatch `instruction->Accept(visitor)` on an ARM64 latency visitor: the case of
the kind of the instruction, or of its super class, or `VisitInstruction`. -/
def HInstruction.Accept (instruction : HInstruction) (kUseStringCompression : Bool)
    (visitor : SchedulingLatencyVisitor) : SchedulingLatencyVisitor :=
  match instruction.GetKind with
  | InstructionKind.kArrayGet => SchedulingLatencyVisitorARM64.VisitArrayGet visitor instruction
  | InstructionKind.kArrayLength =>
    SchedulingLatencyVisitorARM64.VisitArrayLength visitor instruction
  | InstructionKind.kArraySet => SchedulingLatencyVisitorARM64.VisitArraySet visitor instruction
  | InstructionKind.kBoundsCheck =>
    SchedulingLatencyVisitorARM64.VisitBoundsCheck visitor instruction
  | InstructionKind.kDiv => SchedulingLatencyVisitorARM64.VisitDiv visitor instruction
  | InstructionKind.kInstanceFieldGet =>
    SchedulingLatencyVisitorARM64.VisitInstanceFieldGet visitor instruction
  | InstructionKind.kInstanceOf => SchedulingLatencyVisitorARM64.VisitInstanceOf visitor instruction
  | InstructionKind.kLoadString => SchedulingLatencyVisitorARM64.VisitLoadString visitor instruction
  | InstructionKind.kMul => SchedulingLatencyVisitorARM64.VisitMul visitor instruction
  | InstructionKind.kNewArray => SchedulingLatencyVisitorARM64.VisitNewArray visitor instruction
  | InstructionKind.kNewInstance =>
    SchedulingLatencyVisitorARM64.VisitNewInstance visitor instruction
  | InstructionKind.kRem => SchedulingLatencyVisitorARM64.VisitRem visitor instruction
  | InstructionKind.kStaticFieldGet =>
    SchedulingLatencyVisitorARM64.VisitStaticFieldGet visitor instruction
  | InstructionKind.kSuspendCheck =>
    SchedulingLatencyVisitorARM64.VisitSuspendCheck visitor instruction
  | InstructionKind.kTypeConversion =>
    SchedulingLatencyVisitorARM64.VisitTypeConversion visitor instruction
  | InstructionKind.kVecReplicateScalar =>
    SchedulingLatencyVisitorARM64.VisitVecReplicateScalar visitor instruction
  | InstructionKind.kVecExtractScalar =>
    SchedulingLatencyVisitorARM64.VisitVecExtractScalar visitor instruction
  | InstructionKind.kVecReduce => SchedulingLatencyVisitorARM64.VisitVecReduce visitor instruction
  | InstructionKind.kVecCnv => SchedulingLatencyVisitorARM64.VisitVecCnv visitor instruction
  | InstructionKind.kVecNeg => SchedulingLatencyVisitorARM64.VisitVecNeg visitor instruction
  | InstructionKind.kVecAbs => SchedulingLatencyVisitorARM64.VisitVecAbs visitor instruction
  | InstructionKind.kVecNot => SchedulingLatencyVisitorARM64.VisitVecNot visitor instruction
  | InstructionKind.kVecAdd => SchedulingLatencyVisitorARM64.VisitVecAdd visitor instruction
  | InstructionKind.kVecHalvingAdd =>
    SchedulingLatencyVisitorARM64.VisitVecHalvingAdd visitor instruction
  | InstructionKind.kVecSub => SchedulingLatencyVisitorARM64.VisitVecSub visitor instruction
  | InstructionKind.kVecMul => SchedulingLatencyVisitorARM64.VisitVecMul visitor instruction
  | InstructionKind.kVecDiv => SchedulingLatencyVisitorARM64.VisitVecDiv visitor instruction
  | InstructionKind.kVecMin => SchedulingLatencyVisitorARM64.VisitVecMin visitor instruction
  | InstructionKind.kVecMax => SchedulingLatencyVisitorARM64.VisitVecMax visitor instruction
  | InstructionKind.kVecAnd => SchedulingLatencyVisitorARM64.VisitVecAnd visitor instruction
  | InstructionKind.kVecAndNot => SchedulingLatencyVisitorARM64.VisitVecAndNot visitor instruction
  | InstructionKind.kVecOr => SchedulingLatencyVisitorARM64.VisitVecOr visitor instruction
  | InstructionKind.kVecXor => SchedulingLatencyVisitorARM64.VisitVecXor visitor instruction
  | InstructionKind.kVecShl => SchedulingLatencyVisitorARM64.VisitVecShl visitor instruction
  | InstructionKind.kVecShr => SchedulingLatencyVisitorARM64.VisitVecShr visitor instruction
  | InstructionKind.kVecUShr => SchedulingLatencyVisitorARM64.VisitVecUShr visitor instruction
  | InstructionKind.kVecSetScalars =>
    SchedulingLatencyVisitorARM64.VisitVecSetScalars visitor instruction
  | InstructionKind.kVecMultiplyAccumulate =>
    SchedulingLatencyVisitorARM64.VisitVecMultiplyAccumulate visitor instruction
  | InstructionKind.kVecLoad =>
    SchedulingLatencyVisitorARM64.VisitVecLoad kUseStringCompression visitor instruction
  | InstructionKind.kVecStore => SchedulingLatencyVisitorARM64.VisitVecStore visitor instruction
  | InstructionKind.kBitwiseNegatedRight =>
    SchedulingLatencyVisitorARM64.VisitBitwiseNegatedRight visitor instruction
  | InstructionKind.kMultiplyAccumulate =>
    SchedulingLatencyVisitorARM64.VisitMultiplyAccumulate visitor instruction
  | InstructionKind.kIntermediateAddress =>
    SchedulingLatencyVisitorARM64.VisitIntermediateAddress visitor instruction
  | InstructionKind.kIntermediateAddressIndex =>
    SchedulingLatencyVisitorARM64.VisitIntermediateAddressIndex visitor instruction
  | InstructionKind.kDataProcWithShifterOp =>
    SchedulingLatencyVisitorARM64.VisitDataProcWithShifterOp visitor instruction
  | InstructionKind.kOtherBinaryOperation =>
    SchedulingLatencyVisitorARM64.VisitBinaryOperation visitor instruction
  | InstructionKind.kOtherInvoke => SchedulingLatencyVisitorARM64.VisitInvoke visitor instruction
  | InstructionKind.kOther => SchedulingLatencyVisitorARM64.VisitInstruction visitor instruction

/-- The visit of the instruction with id `instruction` by an ARM64 latency visitor, in the
form that `CalculateLatency` takes; `code` gives the instruction behind an id.  No
case of the ARM64 visitor aborts. -/
def SchedulingLatencyVisitorARM64.Accept (code : Nat → HInstruction) (kUseStringCompression : Bool)
    (instruction : Nat) (visitor : SchedulingLatencyVisitor) :
    Option SchedulingLatencyVisitor :=
  some ((code instruction).Accept kUseStringCompression visitor)


/-- Embeds `HSchedulerARM64::BuildSchedulingGraph`: the template, run with a fresh
`SchedulingLatencyVisitorARM64`. -/
def HSchedulerARM64.BuildSchedulingGraph (ir : HGraph) (IsSchedulingBarrier : Nat → Bool)
    (code : Nat → HInstruction) (kUseStringCompression : Bool) (block : HBasicBlock) :
    Except BuildAbort (SchedulingGraph × List Nat) :=
  BuildSchedulingGraphOutcome ir IsSchedulingBarrier
    (SchedulingLatencyVisitorARM64.Accept code kUseStringCompression) block
    SchedulingLatencyVisitor.new

/-- The kinds of the macro `FOR_EACH_SCHEDULED_COMMON_INSTRUCTION`, in its order. -/
def kScheduledCommonInstructions : List InstructionKind :=
  [InstructionKind.kArrayGet, InstructionKind.kArrayLength, InstructionKind.kArraySet,
    InstructionKind.kBoundsCheck, InstructionKind.kDiv, InstructionKind.kInstanceFieldGet,
    InstructionKind.kInstanceOf, InstructionKind.kLoadString, InstructionKind.kMul,
    InstructionKind.kNewArray, InstructionKind.kNewInstance, InstructionKind.kRem,
    InstructionKind.kStaticFieldGet, InstructionKind.kSuspendCheck,
    InstructionKind.kTypeConversion, InstructionKind.kVecReplicateScalar,
    InstructionKind.kVecExtractScalar, InstructionKind.kVecReduce, InstructionKind.kVecCnv,
    InstructionKind.kVecNeg, InstructionKind.kVecAbs, InstructionKind.kVecNot,
    InstructionKind.kVecAdd, InstructionKind.kVecHalvingAdd, InstructionKind.kVecSub,
    InstructionKind.kVecMul, InstructionKind.kVecDiv, InstructionKind.kVecMin,
    InstructionKind.kVecMax, InstructionKind.kVecAnd, InstructionKind.kVecAndNot,
    InstructionKind.kVecOr, InstructionKind.kVecXor, InstructionKind.kVecShl,
    InstructionKind.kVecShr, InstructionKind.kVecUShr, InstructionKind.kVecSetScalars,
    InstructionKind.kVecMultiplyAccumulate, InstructionKind.kVecLoad, InstructionKind.kVecStore]

/-- The kinds of the macro `FOR_EACH_SCHEDULED_SHARED_INSTRUCTION`, in its order. -/
def kScheduledSharedInstructions : List InstructionKind :=
  [InstructionKind.kBitwiseNegatedRight, InstructionKind.kMultiplyAccumulate,
    InstructionKind.kIntermediateAddress, InstructionKind.kIntermediateAddressIndex,
    InstructionKind.kDataProcWithShifterOp]

/-- Embeds `HSchedulerARM64::IsSchedulable`: the `switch` on `instruction->GetKind()` with a
`return true` for each kind of the shared and of the common list
(`FOR_EACH_CONCRETE_INSTRUCTION_ARM64` adds no kind); `baseIsSchedulable` is the
`HScheduler::IsSchedulable` of the `default` label, which the header only declares. -/
def HSchedulerARM64.IsSchedulable (baseIsSchedulable : HInstruction → Bool)
    (instruction : HInstruction) : Bool :=
  match instruction.GetKind with
  | InstructionKind.kBitwiseNegatedRight => true
  | InstructionKind.kMultiplyAccumulate => true
  | InstructionKind.kIntermediateAddress => true
  | InstructionKind.kIntermediateAddressIndex => true
  | InstructionKind.kDataProcWithShifterOp => true
  | InstructionKind.kArrayGet => true
  | InstructionKind.kArrayLength => true
  | InstructionKind.kArraySet => true
  | InstructionKind.kBoundsCheck => true
  | InstructionKind.kDiv => true
  | InstructionKind.kInstanceFieldGet => true
  | InstructionKind.kInstanceOf => true
  | InstructionKind.kLoadString => true
  | InstructionKind.kMul => true
  | InstructionKind.kNewArray => true
  | InstructionKind.kNewInstance => true
  | InstructionKind.kRem => true
  | InstructionKind.kStaticFieldGet => true
  | InstructionKind.kSuspendCheck => true
  | InstructionKind.kTypeConversion => true
  | InstructionKind.kVecReplicateScalar => true
  | InstructionKind.kVecExtractScalar => true
  | InstructionKind.kVecReduce => true
  | InstructionKind.kVecCnv => true
  | InstructionKind.kVecNeg => true
  | InstructionKind.kVecAbs => true
  | InstructionKind.kVecNot => true
  | InstructionKind.kVecAdd => true
  | InstructionKind.kVecHalvingAdd => true
  | InstructionKind.kVecSub => true
  | InstructionKind.kVecMul => true
  | InstructionKind.kVecDiv => true
  | InstructionKind.kVecMin => true
  | InstructionKind.kVecMax => true
  | InstructionKind.kVecAnd => true
  | InstructionKind.kVecAndNot => true
  | InstructionKind.kVecOr => true
  | InstructionKind.kVecXor => true
  | InstructionKind.kVecShl => true
  | InstructionKind.kVecShr => true
  | InstructionKind.kVecUShr => true
  | InstructionKind.kVecSetScalars => true
  | InstructionKind.kVecMultiplyAccumulate => true
  | InstructionKind.kVecLoad => true
  | InstructionKind.kVecStore => true
  | _ => baseIsSchedulable instruction

/-- Embeds `SchedulingLatencyVisitorARM64::VisitDiv` as a build with `DCHECK`s enabled runs it:
`DCHECK(imm <= -2 || imm >= 2)` in the last branch aborts, `none`, when it fails. -/
def SchedulingLatencyVisitorARM64.VisitDivChecked (self : SchedulingLatencyVisitor)
    (instr : HInstruction) : Option SchedulingLatencyVisitor :=
  match instr.GetResultType with
  | DataType.kFloat32 => some { self with last_visited_latency_ := kArm64DivFloatLatency }
  | DataType.kFloat64 => some { self with last_visited_latency_ := kArm64DivDoubleLatency }
  | _ =>
    match instr.RightConstant with
    | some imm =>
      if imm = 0 then
        some { self with
          last_visited_internal_latency_ := 0
          last_visited_latency_ := 0 }
      else if imm = 1 ∨ imm = -1 then
        some { self with
          last_visited_internal_latency_ := 0
          last_visited_latency_ := kArm64IntegerOpLatency }
      else if IsPowerOfTwo (AbsOrMin imm) then
        some { self with
          last_visited_internal_latency_ := 4 * kArm64IntegerOpLatency
          last_visited_latency_ := kArm64IntegerOpLatency }
      else if imm ≤ -2 ∨ imm ≥ 2 then
        some { self with
          last_visited_internal_latency_ := 4 * kArm64IntegerOpLatency
          last_visited_latency_ := kArm64MulIntegerLatency }
      else
        none
    | none => some { self with last_visited_latency_ := kArm64DivIntegerLatency }

/-- Embeds `SchedulingLatencyVisitorARM64::VisitRem` as a build with `DCHECK`s enabled runs it:
`DCHECK(imm <= -2 || imm >= 2)` in the last branch aborts, `none`, when it fails. -/
def SchedulingLatencyVisitorARM64.VisitRemChecked (self : SchedulingLatencyVisitor)
    (instruction : HInstruction) : Option SchedulingLatencyVisitor :=
  if instruction.GetResultType.IsFloatingPointType then
    some { self with
      last_visited_internal_latency_ := kArm64CallInternalLatency
      last_visited_latency_ := kArm64CallLatency }
  else
    match instruction.RightConstant with
    | some imm =>
      if imm = 0 then
        some { self with
          last_visited_internal_latency_ := 0
          last_visited_latency_ := 0 }
      else if imm = 1 ∨ imm = -1 then
        some { self with
          last_visited_internal_latency_ := 0
          last_visited_latency_ := kArm64IntegerOpLatency }
      else if IsPowerOfTwo (AbsOrMin imm) then
        some { self with
          last_visited_internal_latency_ := 4 * kArm64IntegerOpLatency
          last_visited_latency_ := kArm64IntegerOpLatency }
      else if imm ≤ -2 ∨ imm ≥ 2 then
        some { self with
          last_visited_internal_latency_ := 4 * kArm64IntegerOpLatency
          last_visited_latency_ := kArm64MulIntegerLatency }
      else
        none
    | none =>
      some { self with
        last_visited_internal_latency_ := kArm64DivIntegerLatency
        last_visited_latency_ := kArm64MulIntegerLatency }

/-- Embeds `HInstructionScheduling::Run()`:
`return Run(/*only_optimize_loop_blocks*/ true, /*schedule_randomly*/ false)`; the
two-argument `Run`, which the header only declares, is the parameter `Run2`. -/
def HInstructionScheduling.Run (Run2 : Bool → Bool → Bool) : Bool :=
  Run2 true false

/-! ## The trivial example of the header (`int a = 1 + 2`) -/

/-- The IR of the example: `i1 HIntConstant 1`, `i2 HIntConstant 2`, `i3 HAdd [i1,i2]`, all
in block 0 and without side effects. -/
def exampleIR : HGraph :=
  { GetBlock := fun _ => 0
    GetInputs := fun i => if i = 3 then [1, 2] else []
    GetEnvInputs := fun _ => []
    DoesAnyRead := fun _ => false
    DoesAnyWrite := fun _ => false
    CanThrow := fun _ => false
    MayAlias := fun _ _ => true
    IsCrossIterationUse := fun _ _ => false
    IsMaterializedConditionOf := fun _ _ => false }

/-- The block of the example, `i1, i2, i3` in program order. -/
def exampleBlock : HBasicBlock :=
  { block_id := 0, instructions := [1, 2, 3] }

/-- A latency visitor that assigns `kGenericInstructionLatency` to every instruction. -/
def genericAccept (_instruction : Nat) (v : SchedulingLatencyVisitor) :
    Option SchedulingLatencyVisitor :=
  some { v with last_visited_latency_ := kGenericInstructionLatency }

/-- A scheduler without scheduling barriers, with the generic latencies. -/
def exampleScheduler {σ : Type} (selector_ : SchedulingNodeSelector σ) : HScheduler σ :=
  HScheduler.new selector_ (fun _ => false) genericAccept

/-- The graph and node list built for the example: `n3`, `n2`, `n1` get the handles 0, 1, 2. -/
def exampleBuilt : SchedulingGraph × List Nat :=
  (BuildSchedulingGraph exampleIR (fun _ => false) genericAccept exampleBlock
    SchedulingLatencyVisitor.new).getD (SchedulingGraph.new, [])

/-- A `rand_r` whose every draw is `d`. -/
def constantDraw (d : Nat) (seed : Nat) : Nat × Nat :=
  (d, seed)

/-- A scheduler for which the instruction with id 2 is a scheduling barrier. -/
def barrierScheduler {σ : Type} (selector_ : SchedulingNodeSelector σ) : HScheduler σ :=
  HScheduler.new selector_ (fun i => i == 2) genericAccept

/-- The graph and node list built for the example block when `i2` is a barrier. -/
def barrierBuilt : SchedulingGraph × List Nat :=
  (BuildSchedulingGraph exampleIR (fun i => i == 2) genericAccept exampleBlock
    SchedulingLatencyVisitor.new).getD (SchedulingGraph.new, [])

/-- The IR of a linear chain: each instruction has the instruction with the previous id as
its only data input. -/
def chainIR : HGraph :=
  { GetBlock := fun _ => 0
    GetInputs := fun i => if i = 0 then [] else [i - 1]
    GetEnvInputs := fun _ => []
    DoesAnyRead := fun _ => false
    DoesAnyWrite := fun _ => false
    CanThrow := fun _ => false
    MayAlias := fun _ _ => true
    IsCrossIterationUse := fun _ _ => false
    IsMaterializedConditionOf := fun _ _ => false }

/-- A block of four instructions forming a linear chain in `chainIR`. -/
def chainBlock : HBasicBlock :=
  { block_id := 0, instructions := [1, 2, 3, 4] }

/-- The graph and node list built for the chain block. -/
def chainBuilt : SchedulingGraph × List Nat :=
  (BuildSchedulingGraph chainIR (fun _ => false) genericAccept chainBlock
    SchedulingLatencyVisitor.new).getD (SchedulingGraph.new, [])

/-- An IR of two instructions: `1` can throw, `2` writes the heap, and the alias analysis
proves every pair of accesses disjoint. -/
def throwStoreIR : HGraph :=
  { GetBlock := fun _ => 0
    GetInputs := fun _ => []
    GetEnvInputs := fun _ => []
    DoesAnyRead := fun _ => false
    DoesAnyWrite := fun i => i == 2
    CanThrow := fun i => i == 1
    MayAlias := fun _ _ => false
    IsCrossIterationUse := fun _ _ => false
    IsMaterializedConditionOf := fun _ _ => false }

/-- Two nodes, the first already holding the second as a data predecessor. -/
def linkedArena : List SchedulingNode :=
  AddDataPredecessor [SchedulingNode.new 3 false, SchedulingNode.new 1 false] 0 1

/-- Two nodes, the first already holding the second as an other predecessor. -/
def otherLinkedArena : List SchedulingNode :=
  AddOtherPredecessor [SchedulingNode.new 3 false, SchedulingNode.new 1 false] 0 1

/-- The dispatch of a latency visitor that handles no instruction kind: every instruction
reaches the generic `VisitInstruction` of the base class. -/
def unhandledAccept (instruction : Nat) (v : SchedulingLatencyVisitor) :
    Option SchedulingLatencyVisitor :=
  v.VisitInstruction instruction

/-- The instructions of the header example as ARM64 sees them: `i3` is an `HAdd` of type
`kInt32`, a binary operation without a case of its own; the constants have no case. -/
def exampleCode (instruction : Nat) : HInstruction :=
  { GetKind :=
      if instruction = 3 then InstructionKind.kOtherBinaryOperation else InstructionKind.kOther
    GetResultType := DataType.kInt32
    GetInputType := DataType.kInt32
    GetPackedType := DataType.kInt32
    ArrayIsIntermediateAddress := false
    RightConstant := none
    IsStringAlloc := false
    IsStringCharAt := false
    IndexIsConstant := false }

/-- An instruction of the given kind and result type, with nothing else set. -/
def plainInstruction (kind : InstructionKind) (type : DataType) : HInstruction :=
  { GetKind := kind
    GetResultType := type
    GetInputType := type
    GetPackedType := type
    ArrayIsIntermediateAddress := false
    RightConstant := none
    IsStringAlloc := false
    IsStringCharAt := false
    IndexIsConstant := false }

/-- The graph of the header example after the seeding of the candidates, with the critical
path of the node of `i3` set to 4. -/
def criticalGraph : SchedulingGraph :=
  { exampleBuilt.1 with
    arena := List.modify (fun n => n.MaybeUpdateCriticalPath 4) 0
      (exampleBuilt.2.foldl SeedCandidates (exampleBuilt.1.arena, [])).1 }

/-- An integer `HDiv` or `HRem` whose right operand is the constant `imm`. -/
def constantDivisor (kind : InstructionKind) (imm : Int) : HInstruction :=
  { plainInstruction kind DataType.kInt32 with RightConstant := some imm }

/-- The graph and node list built for the header example under the ARM64 latency visitor. -/
def arm64Built : SchedulingGraph × List Nat :=
  (BuildSchedulingGraph exampleIR (fun _ => false)
    (SchedulingLatencyVisitorARM64.Accept exampleCode true) exampleBlock
    SchedulingLatencyVisitor.new).getD (SchedulingGraph.new, [])

/-- All predecessors of a node: the data predecessors, then the other predecessors. -/
def SchedulingNode.predecessors (n : SchedulingNode) : List Nat :=
  n.data_predecessors_ ++ n.other_predecessors_

/-- The predecessors of the node behind a handle. -/
def predsAt (a : List SchedulingNode) (i : Nat) : List Nat :=
  (nodeAt a i).predecessors

/-- The number of predecessor-list entries of the nodes `U` that point at `j`. -/
def succCount (a : List SchedulingNode) (U : List Nat) (j : Nat) : Nat :=
  (U.map (fun i => (predsAt a i).count j)).sum

/-- Well-formedness of the nodes of a graph: predecessors were allocated after their
successors, every counter is the number of entries pointing at the node, and no list holds
a node twice. -/
structure ArenaWF (a : List SchedulingNode) : Prop where
  later : ∀ i, i < a.length → ∀ j, j ∈ predsAt a i → i < j ∧ j < a.length
  counts : ∀ j, j < a.length →
    (nodeAt a j).num_unscheduled_successors_ = succCount a (List.range a.length) j
  nodup_data : ∀ i, (nodeAt a i).data_predecessors_.Nodup
  nodup_other : ∀ i, (nodeAt a i).other_predecessors_.Nodup

/-- The two `push_back` and `++` statements of a predecessor insertion. -/
def insertEdge (is_data : Bool) (a : List SchedulingNode) (s p : Nat) : List SchedulingNode :=
  List.modify SchedulingNode.IncrementNumberOfUnscheduledSuccessors p
    (List.modify
      (fun n => if is_data then n.pushDataPredecessor p else n.pushOtherPredecessor p) s a)

/-- The arena `a2` has the nodes of `a1`, with the same instructions and barrier flags, and
every predecessor entry of `a1`. -/
structure Extends (a1 a2 : List SchedulingNode) : Prop where
  length : a2.length = a1.length
  instruction : ∀ i, (nodeAt a2 i).instruction_ = (nodeAt a1 i).instruction_
  barrier : ∀ i, (nodeAt a2 i).is_scheduling_barrier_ = (nodeAt a1 i).is_scheduling_barrier_
  mono : ∀ i j, j ∈ predsAt a1 i → j ∈ predsAt a2 i

/-- The condition under which the edge construction records `earlier` as a predecessor of
`later`, for two instructions of one block with `earlier` first in program order. -/
def DependsOn (ir : HGraph) (IsSchedulingBarrier : Nat → Bool) (later earlier : Nat) : Bool :=
  decide (earlier ∈ ir.GetInputs later)
    || (IsSchedulingBarrier earlier || IsSchedulingBarrier later)
    || (decide (earlier ∈ ir.GetEnvInputs later) || ir.IsCrossIterationUse earlier later)
    || HasSideEffectDependency ir later earlier

/-- What a sequence of edge insertions into `other` for the new node `node` keeps. -/
structure EdgeStep (node other : Nat) (a a2 : List SchedulingNode) : Prop where
  ext : Extends a a2
  wf : ArenaWF a → other < node → node < a.length → a.length < 2147483648 → ArenaWF a2

/-- The condition of `AddDependenciesAgainst`, read on the nodes of the arena. -/
def EdgeWanted (ir : HGraph) (a : List SchedulingNode) (node other : Nat)
    (is_scheduling_barrier : Bool) : Bool :=
  decide ((nodeAt a node).instruction_ ∈ ir.GetInputs (nodeAt a other).instruction_)
    || (is_scheduling_barrier || (nodeAt a other).is_scheduling_barrier_)
    || (decide ((nodeAt a node).instruction_ ∈ ir.GetEnvInputs (nodeAt a other).instruction_)
        || ir.IsCrossIterationUse (nodeAt a node).instruction_ (nodeAt a other).instruction_)
    || HasSideEffectDependency ir (nodeAt a other).instruction_ (nodeAt a node).instruction_

/-- What the graph construction guarantees after the instructions `done` (in visiting order,
the reverse of program order) were added: node `i` wraps `done[i]`, the nodes are
well-formed, and every wanted dependency is recorded as a predecessor entry. -/
structure GraphBuilt (ir : HGraph) (IsSchedulingBarrier : Nat → Bool) (done : List Nat)
    (g : SchedulingGraph) (nodes : List Nat) : Prop where
  instrs : g.arena.map SchedulingNode.instruction_ = done
  nodes_eq : nodes = List.range done.length
  wf : ArenaWF g.arena
  barrier : ∀ i, i < done.length →
    (nodeAt g.arena i).is_scheduling_barrier_ = IsSchedulingBarrier (done.getD i 0)
  edges : ∀ i j, i < j → j < done.length →
    DependsOn ir IsSchedulingBarrier (done.getD i 0) (done.getD j 0) = true →
    j ∈ predsAt g.arena i

/-- The arena `a2` has the nodes of `a1` with the same instructions and the same predecessor
lists: only counters, latencies and critical paths may differ. -/
structure SameLinks (a1 a2 : List SchedulingNode) : Prop where
  length : a2.length = a1.length
  instruction : ∀ i, (nodeAt a2 i).instruction_ = (nodeAt a1 i).instruction_
  data : ∀ i, (nodeAt a2 i).data_predecessors_ = (nodeAt a1 i).data_predecessors_
  other : ∀ i, (nodeAt a2 i).other_predecessors_ = (nodeAt a1 i).other_predecessors_

/-- The counter of the node behind a handle. -/
def nusAt (a : List SchedulingNode) (i : Nat) : Nat :=
  (nodeAt a i).num_unscheduled_successors_

/-- The instruction of the node behind a handle. -/
def instrAt (a : List SchedulingNode) (i : Nat) : Nat :=
  (nodeAt a i).instruction_

/-- The promise of `PopHighestPriorityNode`: on a non-empty candidate vector it removes and
returns exactly one of the candidates. -/
def SelectorContract {σ : Type} (selector_ : SchedulingNodeSelector σ) : Prop :=
  ∀ (s : σ) (nodes : List Nat) (g : SchedulingGraph), nodes ≠ [] →
    nodes.Perm ((selector_.PopHighestPriorityNode s nodes g).1
      :: (selector_.PopHighestPriorityNode s nodes g).2.1)

/-- The invariant of the scheduling loop over the graph `a0` it started from; `U` lists the
nodes not yet scheduled, in the order of the block. -/
structure LoopInv {σ : Type} (a0 : List SchedulingNode) (st : ScheduleState σ) (U : List Nat) :
    Prop where
  links : SameLinks a0 st.graph.arena
  perm : (U ++ st.scheduled).Perm (List.range a0.length)
  counts : ∀ j, j < a0.length → nusAt st.graph.arena j = succCount a0 U j
  cands_nodup : st.candidates.Nodup
  cands_iff : ∀ c, c ∈ st.candidates ↔ (c ∈ U ∧ nusAt st.graph.arena c = 0)
  instrs : st.instructions = U.map (instrAt a0) ++ st.scheduled.map (instrAt a0)
  cursor : st.cursor_ = U.length
  topo : st.scheduled.Pairwise (fun x y => y ∉ predsAt a0 x)
  closed : ∀ s, s ∈ st.scheduled → ∀ i, i ∈ U → s ∉ predsAt a0 i

/-- The facts about a finished scheduling loop that the properties below rest on: no
candidate is left, every node was popped exactly once, the block holds the popped
instructions in reverse order of selection, and no node was popped before one of its
successors. -/
structure Finished {σ : Type} (a0 : List SchedulingNode) (block : HBasicBlock)
    (st : ScheduleState σ) : Prop where
  candidates : st.candidates = []
  scheduled : st.scheduled.Perm (List.range a0.length)
  instructions : st.instructions = st.scheduled.map (instrAt a0)
  perm : st.instructions.Perm block.instructions
  order : ∀ s p, s < a0.length → p ∈ predsAt a0 s →
    st.instructions.indexOf (instrAt a0 p) < st.instructions.indexOf (instrAt a0 s)
  links : SameLinks a0 st.graph.arena

/-- One call on a node: `self->AddDataPredecessor(predecessor)` when `is_data` is set,
`self->AddOtherPredecessor(predecessor)` otherwise. -/
structure PredecessorCall where
  self : Nat
  is_data : Bool
  predecessor : Nat
deriving DecidableEq, Repr

/-- The effect of one call on the nodes. -/
def PredecessorCall.run (arena : List SchedulingNode) (call : PredecessorCall) :
    List SchedulingNode :=
  if call.is_data then AddDataPredecessor arena call.self call.predecessor
  else AddOtherPredecessor arena call.self call.predecessor

/-- The effect of a sequence of calls, in order. -/
def RunCalls (arena : List SchedulingNode) (calls : List PredecessorCall) :
    List SchedulingNode :=
  calls.foldl PredecessorCall.run arena

/-- Freshly constructed nodes, one for each instruction and barrier flag. -/
def FreshNodes (instructions : List (Nat × Bool)) : List SchedulingNode :=
  instructions.map (fun i => SchedulingNode.new i.1 i.2)

/-- No node is both a data predecessor and an other predecessor of `n`. -/
@[reducible] def SchedulingNode.ListsDisjoint (n : SchedulingNode) : Prop :=
  ∀ p, p ∈ n.data_predecessors_ → p ∉ n.other_predecessors_

/-- In the sequence no `AddDataPredecessor(p)` on a node comes after an
`AddOtherPredecessor(p)` on the same node. -/
@[reducible] def DataCallsFirst (calls : List PredecessorCall) : Prop :=
  calls.Pairwise (fun c1 c2 =>
    ¬ (c1.self = c2.self ∧ c1.predecessor = c2.predecessor
        ∧ c1.is_data = false ∧ c2.is_data = true))

/-- The total number of occurrences of `p` in the `data_predecessors_` and
`other_predecessors_` lists of all nodes. -/
def TotalOccurrences (arena : List SchedulingNode) (p : Nat) : Nat :=
  (arena.map (fun n => n.data_predecessors_.count p + n.other_predecessors_.count p)).sum

/-- The call actually inserts: a predecessor list of its node is not what it was. -/
@[reducible] def PredecessorCall.Inserts (arena : List SchedulingNode) (call : PredecessorCall) :
    Prop :=
  predsAt (call.run arena) call.self ≠ predsAt arena call.self

/-- Every counter is the number of list entries that point at its node, and no list holds a
node twice. -/
structure CountsAccurate (a : List SchedulingNode) : Prop where
  counts : ∀ j, j < a.length → nusAt a j = succCount a (List.range a.length) j
  nodup_data : ∀ i, (nodeAt a i).data_predecessors_.Nodup
  nodup_other : ∀ i, (nodeAt a i).other_predecessors_.Nodup

/-- The kinds of the cases in which the ARM64 visitor chooses the latency by a test for a
floating-point type, every use of `DataType::IsFloatingPointType` in the file and the
`switch` of `VisitDiv` on the two floating-point types: `VisitBinaryOperation`, `VisitMul`,
`VisitDiv`, `VisitRem`, `VisitTypeConversion`, the cases that call
`HandleSimpleArithmeticSIMD`, and `VisitVecMul`. -/
def InstructionKind.ChoosesByFloatingPoint (kind : InstructionKind) : Bool :=
  match kind with
  | InstructionKind.kOtherBinaryOperation => true
  | InstructionKind.kMul => true
  | InstructionKind.kDiv => true
  | InstructionKind.kRem => true
  | InstructionKind.kTypeConversion => true
  | InstructionKind.kVecExtractScalar => true
  | InstructionKind.kVecReduce => true
  | InstructionKind.kVecNeg => true
  | InstructionKind.kVecAbs => true
  | InstructionKind.kVecAdd => true
  | InstructionKind.kVecHalvingAdd => true
  | InstructionKind.kVecSub => true
  | InstructionKind.kVecMin => true
  | InstructionKind.kVecMax => true
  | InstructionKind.kVecShl => true
  | InstructionKind.kVecShr => true
  | InstructionKind.kVecUShr => true
  | InstructionKind.kVecSetScalars => true
  | InstructionKind.kVecMul => true
  | _ => false

/-- The instruction is in the floating-point case of such a choice: the type that its case
tests (the result type; for a type conversion the result or the input type; for a vector
operation the packed type) is a floating-point type. -/
def HInstruction.IsFloatingPointCase (instruction : HInstruction) : Bool :=
  match instruction.GetKind with
  | InstructionKind.kOtherBinaryOperation => instruction.GetResultType.IsFloatingPointType
  | InstructionKind.kMul => instruction.GetResultType.IsFloatingPointType
  | InstructionKind.kDiv => instruction.GetResultType.IsFloatingPointType
  | InstructionKind.kRem => instruction.GetResultType.IsFloatingPointType
  | InstructionKind.kTypeConversion =>
    instruction.GetResultType.IsFloatingPointType
      || instruction.GetInputType.IsFloatingPointType
  | _ => instruction.GetPackedType.IsFloatingPointType

/-- The instruction is one of the operations lowered through a runtime or helper call:
an invoke, a floating-point `HRem`, `HInstanceOf`, `HNewArray`, `HNewInstance`. -/
def HInstruction.IsHelperCallCase (instruction : HInstruction) : Bool :=
  match instruction.GetKind with
  | InstructionKind.kOtherInvoke => true
  | InstructionKind.kRem => instruction.GetResultType.IsFloatingPointType
  | InstructionKind.kInstanceOf => true
  | InstructionKind.kNewArray => true
  | InstructionKind.kNewInstance => true
  | _ => false

/-- The predecessor visits of `Schedule(scheduling_node, candidates)` for the node `s`, in
order: the data predecessors, each with the path through `s`, then the other
predecessors. -/
def PredecessorVisits (arena : List SchedulingNode) (s : Nat) : List (Option Nat × Nat) :=
  (nodeAt arena s).data_predecessors_.map
      (fun p => (some (((nodeAt arena s).internal_latency_
        + (nodeAt arena s).critical_path_) % kUint32Modulus), p))
    ++ (nodeAt arena s).other_predecessors_.map (fun p => ((none : Option Nat), p))

/-- The states of the scheduling loop: the state in which it starts, and the state after
each iteration that starts with a candidate left. -/
inductive LoopReaches {σ : Type} (selector_ : SchedulingNodeSelector σ)
    (init : ScheduleState σ) : ScheduleState σ → Prop where
  | start : LoopReaches selector_ init init
  | step (st : ScheduleState σ) : LoopReaches selector_ init st → st.candidates ≠ [] →
      LoopReaches selector_ init (ScheduleStep selector_ st)

/-- The predecessor visits `visits` run in order from the arena and candidates `acc`. -/
def RunVisits (visits : List (Option Nat × Nat)) (acc : List SchedulingNode × List Nat) :
    List SchedulingNode × List Nat :=
  visits.foldl (fun r q => VisitPredecessor q.1 r q.2) acc

/-- The graph after the calls `AddNode(instr, is_scheduling_barrier)` of `added`, in order. -/
def AddNodes (ir : HGraph) (g : SchedulingGraph) (added : List (Nat × Bool)) :
    SchedulingGraph :=
  added.foldl (fun g x => (g.AddNode ir x.1 x.2).1) g

/-- The state of a latency visitor after `CalculateLatency` on the nodes of the given
instructions, in order; `none` when a visit aborts. -/
def VisitorAfter
    (Accept : Nat → SchedulingLatencyVisitor → Option SchedulingLatencyVisitor) :
    SchedulingLatencyVisitor → List Nat → Option SchedulingLatencyVisitor
  | v, [] => some v
  | v, instruction :: rest =>
    match v.CalculateLatency Accept (SchedulingNode.new instruction false) with
    | none => none
    | some visited => VisitorAfter Accept visited rest

/-- The arena `a2` has the latencies, internal latencies and critical paths of `a1`. -/
structure TimesKept (a1 a2 : List SchedulingNode) : Prop where
  latency : ∀ i, (nodeAt a2 i).latency_ = (nodeAt a1 i).latency_
  internal : ∀ i, (nodeAt a2 i).internal_latency_ = (nodeAt a1 i).internal_latency_
  critical : ∀ i, (nodeAt a2 i).critical_path_ = (nodeAt a1 i).critical_path_

/-- What the loop of `BuildSchedulingGraph` has built after the instructions `done` (in
visiting order), from a visitor in state `v0`: node `i` wraps `done[i]` and is registered
for it, carries its barrier flag, and the latencies that the visitor reported for it. -/
structure BuildShape (IsSchedulingBarrier : Nat → Bool)
    (Accept : Nat → SchedulingLatencyVisitor → Option SchedulingLatencyVisitor)
    (v0 : SchedulingLatencyVisitor) (done : List Nat) (g : SchedulingGraph)
    (nodes : List Nat) (v : SchedulingLatencyVisitor) : Prop where
  instrs : g.arena.map SchedulingNode.instruction_ = done
  nodes_eq : nodes = List.range done.length
  map : g.nodes_map_ = done.zip (List.range done.length)
  barrier : ∀ i, i < done.length →
    (nodeAt g.arena i).is_scheduling_barrier_ = IsSchedulingBarrier (done.getD i 0)
  visitor : VisitorAfter Accept v0 done = some v
  latency : ∀ i, i < done.length →
    ∃ w, VisitorAfter Accept v0 (done.take (i + 1)) = some w
      ∧ (nodeAt g.arena i).latency_ = w.last_visited_latency_
      ∧ (nodeAt g.arena i).internal_latency_ = w.last_visited_internal_latency_

/-! ## Lemmas on the arena and on the graph construction -/

theorem nodeAt_modify (f : SchedulingNode → SchedulingNode) (k : Nat)
    (a : List SchedulingNode) (i : Nat) :
    nodeAt (List.modify f k a) i = if k = i ∧ i < a.length then f (nodeAt a i) else nodeAt a i := by
  unfold nodeAt
  rw [List.getElem?_modify]
  by_cases hi : i < a.length
  · rw [List.getElem?_eq_getElem hi]
    by_cases hk : k = i <;> simp [hk, hi]
  · rw [List.getElem?_eq_none (by omega)]
    simp [hi]

theorem nodeAt_append_left (a b : List SchedulingNode) (i : Nat) (h : i < a.length) :
    nodeAt (a ++ b) i = nodeAt a i := by
  unfold nodeAt
  rw [List.getElem?_append_left h]

theorem nodeAt_append_singleton (a : List SchedulingNode) (n : SchedulingNode) :
    nodeAt (a ++ [n]) a.length = n := by
  unfold nodeAt
  simp

theorem nodeAt_of_le (a : List SchedulingNode) (i : Nat) (h : a.length ≤ i) :
    nodeAt a i = default := by
  unfold nodeAt
  rw [List.getElem?_eq_none h]
  rfl

theorem sum_map_update (U : List Nat) (hU : U.Nodup) (f g : Nat → Nat) (s d : Nat)
    (hs : s ∈ U) (h1 : g s = f s + d) (h2 : ∀ i, i ≠ s → g i = f i) :
    (U.map g).sum = (U.map f).sum + d := by
  induction U with
  | nil => simp at hs
  | cons x t ih =>
    rw [List.nodup_cons] at hU
    simp only [List.map_cons, List.sum_cons]
    by_cases hx : x = s
    · subst hx
      have ht : List.map g t = List.map f t := by
        apply List.map_congr_left
        intro i hi
        exact h2 i (fun h => hU.1 (h ▸ hi))
      rw [ht, h1]; omega
    · have hs2 : s ∈ t := by
        rcases List.mem_cons.mp hs with h | h
        · exact absurd h.symm hx
        · exact h
      rw [ih hU.2 hs2, h2 x hx]; omega

theorem sum_map_congr (U : List Nat) (f g : Nat → Nat) (h : ∀ i, i ∈ U → g i = f i) :
    (U.map g).sum = (U.map f).sum := by
  rw [List.map_congr_left h]

theorem count_predecessors_le (n : SchedulingNode) (hd : n.data_predecessors_.Nodup)
    (ho : n.other_predecessors_.Nodup) (j : Nat) : n.predecessors.count j ≤ 2 := by
  unfold SchedulingNode.predecessors
  rw [List.count_append]
  have h1 := List.nodup_iff_count_le_one.mp hd j
  have h2 := List.nodup_iff_count_le_one.mp ho j
  omega

theorem succCount_le (a : List SchedulingNode) (U : List Nat) (j : Nat)
    (h : ∀ i, (predsAt a i).count j ≤ 2) : succCount a U j ≤ 2 * U.length := by
  unfold succCount
  induction U with
  | nil => simp
  | cons x t ih =>
    simp only [List.map_cons, List.sum_cons, List.length_cons]
    have := h x
    omega

theorem length_insertEdge (d : Bool) (a : List SchedulingNode) (s p : Nat) :
    (insertEdge d a s p).length = a.length := by
  simp [insertEdge, List.length_modify]

theorem nodeAt_insertEdge (d : Bool) (a : List SchedulingNode) (s p i : Nat) :
    nodeAt (insertEdge d a s p) i =
      (if p = i ∧ i < a.length then SchedulingNode.IncrementNumberOfUnscheduledSuccessors
        else id)
      ((if s = i ∧ i < a.length then
          (fun n => if d then n.pushDataPredecessor p else n.pushOtherPredecessor p)
        else id) (nodeAt a i)) := by
  unfold insertEdge
  rw [nodeAt_modify, nodeAt_modify, List.length_modify]
  by_cases hi : i < a.length <;> by_cases hp : p = i <;> by_cases hs : s = i <;>
    simp [hi, hp, hs]

theorem AddDataPredecessor_eq (a : List SchedulingNode) (s p : Nat) :
    AddDataPredecessor a s p =
      if p ∈ (nodeAt a s).data_predecessors_ then a else insertEdge true a s p := by
  unfold AddDataPredecessor insertEdge SchedulingNode.HasDataDependency
  by_cases h : p ∈ (nodeAt a s).data_predecessors_ <;> simp [h]

theorem AddOtherPredecessor_eq (a : List SchedulingNode) (s p : Nat) :
    AddOtherPredecessor a s p =
      if p ∈ (nodeAt a s).other_predecessors_ ∨ p ∈ (nodeAt a s).data_predecessors_ then a
      else insertEdge false a s p := by
  unfold AddOtherPredecessor insertEdge SchedulingNode.HasDataDependency
    SchedulingNode.HasOtherDependency
  by_cases h1 : p ∈ (nodeAt a s).other_predecessors_ <;>
    by_cases h2 : p ∈ (nodeAt a s).data_predecessors_ <;> simp [h1, h2]

theorem data_insertEdge (d : Bool) (a : List SchedulingNode) (s p i : Nat) :
    (nodeAt (insertEdge d a s p) i).data_predecessors_ =
      (nodeAt a i).data_predecessors_ ++
        (if (s = i ∧ i < a.length) ∧ d = true then [p] else []) := by
  rw [nodeAt_insertEdge]
  by_cases hi : i < a.length <;> by_cases hp : p = i <;> by_cases hs : s = i <;> cases d <;>
    simp [hi, hp, hs, SchedulingNode.IncrementNumberOfUnscheduledSuccessors,
      SchedulingNode.pushDataPredecessor, SchedulingNode.pushOtherPredecessor]

theorem other_insertEdge (d : Bool) (a : List SchedulingNode) (s p i : Nat) :
    (nodeAt (insertEdge d a s p) i).other_predecessors_ =
      (nodeAt a i).other_predecessors_ ++
        (if (s = i ∧ i < a.length) ∧ d = false then [p] else []) := by
  rw [nodeAt_insertEdge]
  by_cases hi : i < a.length <;> by_cases hp : p = i <;> by_cases hs : s = i <;> cases d <;>
    simp [hi, hp, hs, SchedulingNode.IncrementNumberOfUnscheduledSuccessors,
      SchedulingNode.pushDataPredecessor, SchedulingNode.pushOtherPredecessor]

theorem nus_insertEdge (d : Bool) (a : List SchedulingNode) (s p i : Nat) :
    (nodeAt (insertEdge d a s p) i).num_unscheduled_successors_ =
      if p = i ∧ i < a.length then
        ((nodeAt a i).num_unscheduled_successors_ + 1) % kUint32Modulus
      else (nodeAt a i).num_unscheduled_successors_ := by
  rw [nodeAt_insertEdge]
  by_cases hi : i < a.length <;> by_cases hp : p = i <;> by_cases hs : s = i <;> cases d <;>
    simp [hi, hp, hs, SchedulingNode.IncrementNumberOfUnscheduledSuccessors,
      SchedulingNode.pushDataPredecessor, SchedulingNode.pushOtherPredecessor]

theorem static_insertEdge (d : Bool) (a : List SchedulingNode) (s p i : Nat) :
    (nodeAt (insertEdge d a s p) i).instruction_ = (nodeAt a i).instruction_ ∧
    (nodeAt (insertEdge d a s p) i).is_scheduling_barrier_
      = (nodeAt a i).is_scheduling_barrier_ := by
  rw [nodeAt_insertEdge]
  by_cases hi : i < a.length <;> by_cases hp : p = i <;> by_cases hs : s = i <;> cases d <;>
    simp [hi, hp, hs, SchedulingNode.IncrementNumberOfUnscheduledSuccessors,
      SchedulingNode.pushDataPredecessor, SchedulingNode.pushOtherPredecessor]

theorem predsAt_insertEdge_count (d : Bool) (a : List SchedulingNode) (s p i j : Nat) :
    (predsAt (insertEdge d a s p) i).count j =
      (predsAt a i).count j + (if (s = i ∧ i < a.length) ∧ j = p then 1 else 0) := by
  unfold predsAt SchedulingNode.predecessors
  rw [data_insertEdge, other_insertEdge]
  simp only [List.count_append]
  by_cases hc : s = i ∧ i < a.length
  · by_cases hj : j = p
    · subst hj
      cases d <;> simp [hc] <;> omega
    · have hj2 : ¬ (p = j) := fun h => hj h.symm
      cases d <;> simp [hc, hj, List.count_singleton, hj2]
  · simp [hc]

theorem predsAt_insertEdge_mem (d : Bool) (a : List SchedulingNode) (s p i j : Nat) :
    j ∈ predsAt (insertEdge d a s p) i ↔
      j ∈ predsAt a i ∨ ((s = i ∧ i < a.length) ∧ j = p) := by
  have h := predsAt_insertEdge_count d a s p i j
  rw [← List.count_pos_iff, ← List.count_pos_iff, h]
  by_cases hc : (s = i ∧ i < a.length) ∧ j = p
  · simp [hc]
  · simp [hc]

theorem extends_refl (a : List SchedulingNode) : Extends a a :=
  ⟨rfl, fun _ => rfl, fun _ => rfl, fun _ _ h => h⟩

theorem extends_trans {a1 a2 a3 : List SchedulingNode} (h12 : Extends a1 a2)
    (h23 : Extends a2 a3) : Extends a1 a3 :=
  ⟨h23.length.trans h12.length, fun i => (h23.instruction i).trans (h12.instruction i),
    fun i => (h23.barrier i).trans (h12.barrier i), fun i j h => h23.mono i j (h12.mono i j h)⟩

theorem extends_insertEdge (d : Bool) (a : List SchedulingNode) (s p : Nat) :
    Extends a (insertEdge d a s p) :=
  ⟨length_insertEdge d a s p, fun i => (static_insertEdge d a s p i).1,
    fun i => (static_insertEdge d a s p i).2,
    fun i j h => (predsAt_insertEdge_mem d a s p i j).mpr (Or.inl h)⟩

theorem succCount_insertEdge (d : Bool) (a : List SchedulingNode) (s p j : Nat)
    (hs : s < a.length) :
    succCount (insertEdge d a s p) (List.range a.length) j =
      succCount a (List.range a.length) j + (if j = p then 1 else 0) := by
  unfold succCount
  apply sum_map_update _ (List.nodup_range _) _ _ s _ (List.mem_range.mpr hs)
  · rw [predsAt_insertEdge_count]
    simp [hs]
  · intro i hi
    rw [predsAt_insertEdge_count]
    have : ¬ (s = i) := fun h => hi h.symm
    simp [this]

theorem wf_insertEdge (d : Bool) (a : List SchedulingNode) (s p : Nat) (hwf : ArenaWF a)
    (hsp : s < p) (hp : p < a.length) (hN : a.length < 2147483648)
    (hnew : if d = true then p ∉ (nodeAt a s).data_predecessors_
      else p ∉ (nodeAt a s).other_predecessors_) :
    ArenaWF (insertEdge d a s p) := by
  have hs : s < a.length := by omega
  have hnd : ∀ i, (nodeAt (insertEdge d a s p) i).data_predecessors_.Nodup := by
    intro i
    rw [data_insertEdge]
    by_cases hc : (s = i ∧ i < a.length) ∧ d = true
    · obtain ⟨⟨rfl, _⟩, rfl⟩ := hc
      simp only [if_true] at hnew
      simp only [hs, and_self, if_true]
      exact List.Nodup.append (hwf.nodup_data s) (List.nodup_singleton p)
        (by simpa [List.disjoint_singleton] using hnew)
    · simp only [hc, if_false, List.append_nil]
      exact hwf.nodup_data i
  have hno : ∀ i, (nodeAt (insertEdge d a s p) i).other_predecessors_.Nodup := by
    intro i
    rw [other_insertEdge]
    by_cases hc : (s = i ∧ i < a.length) ∧ d = false
    · obtain ⟨⟨rfl, _⟩, rfl⟩ := hc
      simp only [Bool.false_eq_true, if_false] at hnew
      simp only [hs, and_self, if_true]
      exact List.Nodup.append (hwf.nodup_other s) (List.nodup_singleton p)
        (by simpa [List.disjoint_singleton] using hnew)
    · simp only [hc, if_false, List.append_nil]
      exact hwf.nodup_other i
  refine ⟨?_, ?_, hnd, hno⟩
  · intro i hi j hj
    rw [length_insertEdge] at hi ⊢
    rcases (predsAt_insertEdge_mem d a s p i j).mp hj with h | ⟨⟨rfl, _⟩, rfl⟩
    · exact hwf.later i hi j h
    · exact ⟨hsp, hp⟩
  · intro j hj
    rw [length_insertEdge] at hj ⊢
    rw [succCount_insertEdge d a s p j hs, nus_insertEdge, hwf.counts j hj]
    by_cases hjp : j = p
    · subst hjp
      have hle := succCount_le (insertEdge d a s j) (List.range a.length) j
        (fun i => count_predecessors_le _ (hnd i) (hno i) j)
      rw [succCount_insertEdge d a s j j hs, List.length_range] at hle
      simp only [if_true] at hle
      simp only [hj, and_self, if_true]
      apply Nat.mod_eq_of_lt
      unfold kUint32Modulus
      omega
    · have : ¬ (p = j) := fun h => hjp h.symm
      simp [this, hjp]

theorem extends_AddDataPredecessor (a : List SchedulingNode) (s p : Nat) :
    Extends a (AddDataPredecessor a s p) := by
  rw [AddDataPredecessor_eq]
  split
  · exact extends_refl a
  · exact extends_insertEdge true a s p

theorem extends_AddOtherPredecessor (a : List SchedulingNode) (s p : Nat) :
    Extends a (AddOtherPredecessor a s p) := by
  rw [AddOtherPredecessor_eq]
  split
  · exact extends_refl a
  · exact extends_insertEdge false a s p

theorem wf_AddDataPredecessor (a : List SchedulingNode) (s p : Nat) (hwf : ArenaWF a)
    (hsp : s < p) (hp : p < a.length) (hN : a.length < 2147483648) :
    ArenaWF (AddDataPredecessor a s p) := by
  rw [AddDataPredecessor_eq]
  split
  · exact hwf
  · next h => exact wf_insertEdge true a s p hwf hsp hp hN (by simpa using h)

theorem wf_AddOtherPredecessor (a : List SchedulingNode) (s p : Nat) (hwf : ArenaWF a)
    (hsp : s < p) (hp : p < a.length) (hN : a.length < 2147483648) :
    ArenaWF (AddOtherPredecessor a s p) := by
  rw [AddOtherPredecessor_eq]
  split
  · exact hwf
  · next h =>
    refine wf_insertEdge false a s p hwf hsp hp hN ?_
    simp only [Bool.false_eq_true, if_false]
    exact fun hm => h (Or.inl hm)

theorem mem_AddDataPredecessor (a : List SchedulingNode) (s p : Nat) (hs : s < a.length) :
    p ∈ predsAt (AddDataPredecessor a s p) s := by
  rw [AddDataPredecessor_eq]
  split
  · next h =>
    unfold predsAt SchedulingNode.predecessors
    exact List.mem_append_left _ h
  · exact (predsAt_insertEdge_mem true a s p s p).mpr (Or.inr ⟨⟨rfl, hs⟩, rfl⟩)

theorem mem_AddOtherPredecessor (a : List SchedulingNode) (s p : Nat) (hs : s < a.length) :
    p ∈ predsAt (AddOtherPredecessor a s p) s := by
  rw [AddOtherPredecessor_eq]
  split
  · next h =>
    unfold predsAt SchedulingNode.predecessors
    rcases h with h | h
    · exact List.mem_append_right _ h
    · exact List.mem_append_left _ h
  · exact (predsAt_insertEdge_mem false a s p s p).mpr (Or.inr ⟨⟨rfl, hs⟩, rfl⟩)

theorem wf_congr (a a2 : List SchedulingNode) (hwf : ArenaWF a) (hl : a2.length = a.length)
    (hd : ∀ i, (nodeAt a2 i).data_predecessors_ = (nodeAt a i).data_predecessors_)
    (ho : ∀ i, (nodeAt a2 i).other_predecessors_ = (nodeAt a i).other_predecessors_)
    (hn : ∀ i, (nodeAt a2 i).num_unscheduled_successors_
      = (nodeAt a i).num_unscheduled_successors_) : ArenaWF a2 := by
  have hp : ∀ i, predsAt a2 i = predsAt a i := by
    intro i
    unfold predsAt SchedulingNode.predecessors
    rw [hd, ho]
  refine ⟨?_, ?_, ?_, ?_⟩
  · intro i hi j hj
    rw [hl] at hi ⊢
    rw [hp] at hj
    exact hwf.later i hi j hj
  · intro j hj
    rw [hl] at hj ⊢
    rw [hn, hwf.counts j hj]
    unfold succCount
    simp only [hp]
  · intro i
    rw [hd]
    exact hwf.nodup_data i
  · intro i
    rw [ho]
    exact hwf.nodup_other i

theorem nodeAt_modify_field {β : Type} (proj : SchedulingNode → β)
    (f : SchedulingNode → SchedulingNode) (hf : ∀ n, proj (f n) = proj n) (k : Nat)
    (a : List SchedulingNode) (i : Nat) :
    proj (nodeAt (List.modify f k a) i) = proj (nodeAt a i) := by
  rw [nodeAt_modify]
  split
  · exact hf _
  · rfl

theorem extends_AddDependency (a : List SchedulingNode) (s p : Nat) (d : Bool) :
    Extends a (AddDependency a s p d) := by
  unfold AddDependency
  split
  · exact extends_AddDataPredecessor a s p
  · exact extends_AddOtherPredecessor a s p

theorem wf_AddDependency (a : List SchedulingNode) (s p : Nat) (d : Bool) (hwf : ArenaWF a)
    (hsp : s < p) (hp : p < a.length) (hN : a.length < 2147483648) :
    ArenaWF (AddDependency a s p d) := by
  unfold AddDependency
  split
  · exact wf_AddDataPredecessor a s p hwf hsp hp hN
  · exact wf_AddOtherPredecessor a s p hwf hsp hp hN

theorem mem_AddDependency (a : List SchedulingNode) (s p : Nat) (d : Bool)
    (hs : s < a.length) : p ∈ predsAt (AddDependency a s p d) s := by
  unfold AddDependency
  split
  · exact mem_AddDataPredecessor a s p hs
  · exact mem_AddOtherPredecessor a s p hs

theorem edgeStep_refl (node other : Nat) (a : List SchedulingNode) :
    EdgeStep node other a a :=
  ⟨extends_refl a, fun h _ _ _ => h⟩

theorem edgeStep_trans {node other : Nat} {a1 a2 a3 : List SchedulingNode}
    (h12 : EdgeStep node other a1 a2) (h23 : EdgeStep node other a2 a3) :
    EdgeStep node other a1 a3 :=
  ⟨extends_trans h12.ext h23.ext, fun hwf h1 h2 h3 =>
    h23.wf (h12.wf hwf h1 h2 h3) h1 (by rw [h12.ext.length]; exact h2)
      (by rw [h12.ext.length]; exact h3)⟩

theorem edgeStep_AddDependency (a : List SchedulingNode) (node other : Nat) (d : Bool) :
    EdgeStep node other a (AddDependency a other node d) :=
  ⟨extends_AddDependency a other node d,
    fun hwf h1 h2 h3 => wf_AddDependency a other node d hwf h1 h2 h3⟩

theorem edgeStep_cond (c : Bool) (a : List SchedulingNode) (node other : Nat) (d : Bool) :
    EdgeStep node other a (if c then AddDependency a other node d else a) := by
  split
  · exact edgeStep_AddDependency a node other d
  · exact edgeStep_refl node other a

theorem mem_cond (c : Bool) (a : List SchedulingNode) (node other : Nat) (d : Bool)
    (hc : c = true) (ho : other < a.length) :
    node ∈ predsAt (if c then AddDependency a other node d else a) other := by
  rw [if_pos hc]
  exact mem_AddDependency a other node d ho

theorem dataFold_spec (instruction node other : Nat) (ins : List Nat)
    (a : List SchedulingNode) :
    EdgeStep node other a
        (ins.foldl
          (fun a input => if input = instruction then AddDataDependency a other node else a) a)
      ∧ (instruction ∈ ins → other < a.length →
          node ∈ predsAt (ins.foldl
            (fun a input => if input = instruction then AddDataDependency a other node else a)
            a) other) := by
  induction ins generalizing a with
  | nil => exact ⟨edgeStep_refl _ _ _, fun h => absurd h (List.not_mem_nil _)⟩
  | cons x t ih =>
    simp only [List.foldl_cons]
    have hstep : EdgeStep node other a
        (if x = instruction then AddDataDependency a other node else a) := by
      split
      · exact edgeStep_AddDependency a node other true
      · exact edgeStep_refl _ _ _
    obtain ⟨ih1, ih2⟩ := ih (if x = instruction then AddDataDependency a other node else a)
    refine ⟨edgeStep_trans hstep ih1, ?_⟩
    intro hmem ho
    rcases List.mem_cons.mp hmem with h | h
    · apply ih1.ext.mono
      rw [if_pos h.symm]
      exact mem_AddDependency a other node true ho
    · exact ih2 h (by rw [hstep.ext.length]; exact ho)

theorem EdgeWanted_extends (ir : HGraph) (a a2 : List SchedulingNode) (h : Extends a a2)
    (node other : Nat) (b : Bool) : EdgeWanted ir a2 node other b = EdgeWanted ir a node other b := by
  unfold EdgeWanted
  rw [h.instruction node, h.instruction other, h.barrier other]

theorem AddDependenciesAgainst_spec (ir : HGraph) (a : List SchedulingNode) (node other : Nat)
    (isb : Bool) :
    EdgeStep node other a (AddDependenciesAgainst ir a node other isb)
      ∧ (other < a.length → EdgeWanted ir a node other isb = true →
          node ∈ predsAt (AddDependenciesAgainst ir a node other isb) other) := by
  unfold AddDependenciesAgainst
  simp only []
  obtain ⟨h1, m1⟩ := dataFold_spec (nodeAt a node).instruction_ node other
    (ir.GetInputs (nodeAt a other).instruction_) a
  generalize (ir.GetInputs (nodeAt a other).instruction_).foldl
    (fun a_1 input =>
      if input = (nodeAt a node).instruction_ then AddDataDependency a_1 other node else a_1) a
    = a1 at h1 m1 ⊢
  have hb1 : (nodeAt a1 other).is_scheduling_barrier_ = (nodeAt a other).is_scheduling_barrier_ :=
    h1.ext.barrier other
  have h2 := edgeStep_cond (isb || (nodeAt a1 other).is_scheduling_barrier_) a1 node other false
  have m2 := mem_cond (isb || (nodeAt a1 other).is_scheduling_barrier_) a1 node other false
  unfold AddOtherDependency
  generalize (if (isb || (nodeAt a1 other).is_scheduling_barrier_) = true then
    AddDependency a1 other node false else a1) = a2 at h2 m2 ⊢
  have h3 := edgeStep_cond
    (decide ((nodeAt a node).instruction_ ∈ ir.GetEnvInputs (nodeAt a other).instruction_)
      || ir.IsCrossIterationUse (nodeAt a node).instruction_ (nodeAt a other).instruction_)
    a2 node other false
  have m3 := mem_cond
    (decide ((nodeAt a node).instruction_ ∈ ir.GetEnvInputs (nodeAt a other).instruction_)
      || ir.IsCrossIterationUse (nodeAt a node).instruction_ (nodeAt a other).instruction_)
    a2 node other false
  generalize (if (decide ((nodeAt a node).instruction_ ∈
      ir.GetEnvInputs (nodeAt a other).instruction_)
      || ir.IsCrossIterationUse (nodeAt a node).instruction_ (nodeAt a other).instruction_) = true
    then AddDependency a2 other node false else a2) = a3 at h3 m3 ⊢
  have h4 := edgeStep_cond
    (HasSideEffectDependency ir (nodeAt a other).instruction_ (nodeAt a node).instruction_)
    a3 node other false
  have m4 := mem_cond
    (HasSideEffectDependency ir (nodeAt a other).instruction_ (nodeAt a node).instruction_)
    a3 node other false
  generalize (if HasSideEffectDependency ir (nodeAt a other).instruction_
      (nodeAt a node).instruction_ = true
    then AddDependency a3 other node false else a3) = a4 at h4 m4 ⊢
  refine ⟨edgeStep_trans (edgeStep_trans (edgeStep_trans h1 h2) h3) h4, ?_⟩
  intro ho hw
  have ho1 : other < a1.length := by rw [h1.ext.length]; exact ho
  have ho2 : other < a2.length := by rw [h2.ext.length]; exact ho1
  have ho3 : other < a3.length := by rw [h3.ext.length]; exact ho2
  unfold EdgeWanted at hw
  simp only [Bool.or_eq_true, decide_eq_true_eq] at hw
  rcases hw with ((hw | hw) | hw) | hw
  · exact h4.ext.mono _ _ (h3.ext.mono _ _ (h2.ext.mono _ _ (m1 hw ho)))
  · refine h4.ext.mono _ _ (h3.ext.mono _ _ (m2 ?_ ho1))
    rw [hb1]
    simpa using hw
  · exact h4.ext.mono _ _ (m3 (by simpa using hw) ho2)
  · exact m4 hw ho3

theorem addDepsFold_spec (ir : HGraph) (node : Nat) (isb : Bool) (L : List Nat)
    (a : List SchedulingNode) (hL : ∀ o, o ∈ L → o < node) (hwf : ArenaWF a)
    (hn : node < a.length) (hN : a.length < 2147483648) :
    Extends a (L.foldl (fun a o => AddDependenciesAgainst ir a node o isb) a)
      ∧ ArenaWF (L.foldl (fun a o => AddDependenciesAgainst ir a node o isb) a)
      ∧ ∀ o, o ∈ L → EdgeWanted ir a node o isb = true →
          node ∈ predsAt (L.foldl (fun a o => AddDependenciesAgainst ir a node o isb) a) o := by
  induction L generalizing a with
  | nil => exact ⟨extends_refl a, hwf, fun o h => absurd h (List.not_mem_nil _)⟩
  | cons x t ih =>
    simp only [List.foldl_cons]
    obtain ⟨hs, hm⟩ := AddDependenciesAgainst_spec ir a node x isb
    have hx : x < node := hL x (List.mem_cons_self _ _)
    have hlen := hs.ext.length
    obtain ⟨e2, w2, m2⟩ := ih (AddDependenciesAgainst ir a node x isb)
      (fun o ho => hL o (List.mem_cons_of_mem _ ho)) (hs.wf hwf hx hn hN)
      (by rw [hlen]; exact hn) (by rw [hlen]; exact hN)
    refine ⟨extends_trans hs.ext e2, w2, ?_⟩
    intro o ho hw
    rcases List.mem_cons.mp ho with h | h
    · subst h
      exact e2.mono _ _ (hm (by omega) hw)
    · exact m2 o h (by rw [EdgeWanted_extends ir a _ hs.ext]; exact hw)

theorem succCount_eq_zero (a : List SchedulingNode) (U : List Nat) (j : Nat)
    (h : ∀ i, i ∈ U → j ∉ predsAt a i) : succCount a U j = 0 := by
  unfold succCount
  induction U with
  | nil => rfl
  | cons x t ih =>
    simp only [List.map_cons, List.sum_cons]
    rw [ih (fun i hi => h i (List.mem_cons_of_mem _ hi)),
      List.count_eq_zero_of_not_mem (h x (List.mem_cons_self _ _))]

theorem predsAt_default (a : List SchedulingNode) (i : Nat) (h : a.length ≤ i) :
    predsAt a i = [] := by
  unfold predsAt
  rw [nodeAt_of_le a i h]
  rfl

theorem wf_push (a : List SchedulingNode) (instr : Nat) (isb : Bool) (hwf : ArenaWF a) :
    ArenaWF (a ++ [SchedulingNode.new instr isb]) := by
  have hnode : ∀ i, nodeAt (a ++ [SchedulingNode.new instr isb]) i =
      if i < a.length then nodeAt a i
      else if i = a.length then SchedulingNode.new instr isb else default := by
    intro i
    by_cases h1 : i < a.length
    · rw [if_pos h1, nodeAt_append_left a _ i h1]
    · rw [if_neg h1]
      by_cases h2 : i = a.length
      · rw [if_pos h2, h2, nodeAt_append_singleton]
      · rw [if_neg h2, nodeAt_of_le]
        simp only [List.length_append, List.length_singleton]
        omega
  have hpreds : ∀ i, predsAt (a ++ [SchedulingNode.new instr isb]) i = predsAt a i := by
    intro i
    by_cases h1 : i < a.length
    · unfold predsAt
      rw [hnode, if_pos h1]
    · rw [predsAt_default a i (by omega)]
      unfold predsAt
      rw [hnode, if_neg h1]
      split <;> rfl
  refine ⟨?_, ?_, ?_, ?_⟩
  · intro i hi j hj
    rw [hpreds] at hj
    simp only [List.length_append, List.length_singleton] at hi ⊢
    by_cases h1 : i < a.length
    · have := hwf.later i h1 j hj
      omega
    · rw [predsAt_default a i (by omega)] at hj
      exact absurd hj (List.not_mem_nil _)
  · intro j hj
    simp only [List.length_append, List.length_singleton] at hj ⊢
    have hsum : succCount (a ++ [SchedulingNode.new instr isb]) (List.range (a.length + 1)) j
        = succCount a (List.range a.length) j := by
      unfold succCount
      simp only [hpreds]
      rw [List.range_succ, List.map_append, List.sum_append]
      simp [predsAt_default a a.length (Nat.le_refl _)]
    rw [hsum, hnode]
    by_cases h1 : j < a.length
    · rw [if_pos h1]
      exact hwf.counts j h1
    · have h2 : j = a.length := by omega
      rw [if_neg h1, if_pos h2]
      rw [succCount_eq_zero]
      · rfl
      · intro i hi hmem
        have := hwf.later i (List.mem_range.mp hi) j hmem
        omega
  · intro i
    rw [hnode]
    split
    · exact hwf.nodup_data i
    · split
      · exact List.nodup_nil
      · exact List.nodup_nil
  · intro i
    rw [hnode]
    split
    · exact hwf.nodup_other i
    · split
      · exact List.nodup_nil
      · exact List.nodup_nil

theorem arena_insertNode (g : SchedulingGraph) (instr node : Nat) :
    (g.insertNode instr node).arena = g.arena := by
  unfold SchedulingGraph.insertNode
  split <;> rfl

theorem AddNode_spec (ir : HGraph) (g : SchedulingGraph) (instr : Nat) (isb : Bool)
    (hwf : ArenaWF g.arena) (hN : g.arena.length + 1 < 2147483648) :
    (g.AddNode ir instr isb).2 = g.arena.length
      ∧ Extends (g.arena ++ [SchedulingNode.new instr isb]) (g.AddNode ir instr isb).1.arena
      ∧ ArenaWF (g.AddNode ir instr isb).1.arena
      ∧ ∀ o, o < g.arena.length →
          EdgeWanted ir (g.arena ++ [SchedulingNode.new instr isb]) g.arena.length o isb = true →
          g.arena.length ∈ predsAt (g.AddNode ir instr isb).1.arena o := by
  unfold SchedulingGraph.AddNode SchedulingGraph.AddDependencies
  simp only [arena_insertNode]
  obtain ⟨h1, h2, h3⟩ := addDepsFold_spec ir g.arena.length isb (List.range g.arena.length)
    (g.arena ++ [SchedulingNode.new instr isb]) (fun o ho => List.mem_range.mp ho)
    (wf_push g.arena instr isb hwf) (by simp) (by simpa using hN)
  exact ⟨trivial, h1, h2, fun o ho hw => h3 o (List.mem_range.mpr ho) hw⟩

theorem instruction_eq_getD (a : List SchedulingNode) (done : List Nat)
    (h : a.map SchedulingNode.instruction_ = done) (i : Nat) :
    (nodeAt a i).instruction_ = done.getD i 0 := by
  subst h
  unfold nodeAt
  rw [List.getD_eq_getElem?_getD, List.getElem?_map]
  cases a[i]? <;> rfl

theorem map_instruction_of_extends (a1 a2 : List SchedulingNode) (h : Extends a1 a2) :
    a2.map SchedulingNode.instruction_ = a1.map SchedulingNode.instruction_ := by
  apply List.ext_getElem?
  intro i
  have hi := h.instruction i
  unfold nodeAt at hi
  rw [List.getElem?_map, List.getElem?_map]
  by_cases hlt : i < a1.length
  · have hlt2 : i < a2.length := by rw [h.length]; exact hlt
    rw [List.getElem?_eq_getElem hlt, List.getElem?_eq_getElem hlt2] at hi ⊢
    simpa using hi
  · have hl := h.length
    rw [List.getElem?_eq_none (by omega), List.getElem?_eq_none (by omega)]

theorem extends_modify (f : SchedulingNode → SchedulingNode)
    (h1 : ∀ n, (f n).instruction_ = n.instruction_)
    (h2 : ∀ n, (f n).is_scheduling_barrier_ = n.is_scheduling_barrier_)
    (h3 : ∀ n, (f n).predecessors = n.predecessors) (k : Nat) (a : List SchedulingNode) :
    Extends a (List.modify f k a) :=
  ⟨List.length_modify f k a, nodeAt_modify_field _ f h1 k a, nodeAt_modify_field _ f h2 k a,
    fun i j h => by
      unfold predsAt at h ⊢
      rw [nodeAt_modify_field _ f h3 k a i]
      exact h⟩

theorem wf_modify (f : SchedulingNode → SchedulingNode)
    (h1 : ∀ n, (f n).data_predecessors_ = n.data_predecessors_)
    (h2 : ∀ n, (f n).other_predecessors_ = n.other_predecessors_)
    (h3 : ∀ n, (f n).num_unscheduled_successors_ = n.num_unscheduled_successors_) (k : Nat)
    (a : List SchedulingNode) (hwf : ArenaWF a) : ArenaWF (List.modify f k a) :=
  wf_congr a _ hwf (List.length_modify f k a) (nodeAt_modify_field _ f h1 k a)
    (nodeAt_modify_field _ f h2 k a) (nodeAt_modify_field _ f h3 k a)

theorem predsAt_push (a : List SchedulingNode) (n : SchedulingNode)
    (hn : n.predecessors = []) (i : Nat) : predsAt (a ++ [n]) i = predsAt a i := by
  by_cases h1 : i < a.length
  · unfold predsAt
    rw [nodeAt_append_left a _ i h1]
  · rw [predsAt_default a i (by omega)]
    by_cases h2 : i = a.length
    · unfold predsAt
      rw [h2, nodeAt_append_singleton, hn]
    · apply predsAt_default
      simp only [List.length_append, List.length_singleton]
      omega

theorem getD_append_singleton (l : List Nat) (x i : Nat) :
    (l ++ [x]).getD i 0 = if i < l.length then l.getD i 0 else if i = l.length then x else 0 := by
  rw [List.getD_eq_getElem?_getD, List.getD_eq_getElem?_getD]
  by_cases h1 : i < l.length
  · rw [if_pos h1, List.getElem?_append_left h1]
  · rw [if_neg h1]
    by_cases h2 : i = l.length
    · rw [if_pos h2, h2]
      simp
    · rw [if_neg h2, List.getElem?_eq_none]
      · rfl
      · simp only [List.length_append, List.length_singleton]
        omega

theorem graphBuilt_step (ir : HGraph) (isB : Nat → Bool) (done : List Nat)
    (g : SchedulingGraph) (nodes : List Nat) (instruction : Nat)
    (f : SchedulingNode → SchedulingNode)
    (h1 : ∀ n, (f n).instruction_ = n.instruction_)
    (h2 : ∀ n, (f n).is_scheduling_barrier_ = n.is_scheduling_barrier_)
    (h3 : ∀ n, (f n).data_predecessors_ = n.data_predecessors_)
    (h4 : ∀ n, (f n).other_predecessors_ = n.other_predecessors_)
    (h5 : ∀ n, (f n).num_unscheduled_successors_ = n.num_unscheduled_successors_)
    (hb : GraphBuilt ir isB done g nodes) (hN : done.length + 1 < 2147483648) :
    GraphBuilt ir isB (done ++ [instruction])
      { (g.AddNode ir instruction (isB instruction)).1 with
        arena := List.modify f (g.AddNode ir instruction (isB instruction)).2
          (g.AddNode ir instruction (isB instruction)).1.arena }
      (nodes ++ [(g.AddNode ir instruction (isB instruction)).2]) := by
  have hlen : g.arena.length = done.length := by
    rw [← hb.instrs, List.length_map]
  obtain ⟨e1, e2, e3, e4⟩ := AddNode_spec ir g instruction (isB instruction) hb.wf
    (by rw [hlen]; exact hN)
  have hpred : ∀ n, (f n).predecessors = n.predecessors := by
    intro n
    unfold SchedulingNode.predecessors
    rw [h3, h4]
  have ext2 := extends_modify f h1 h2 hpred (g.AddNode ir instruction (isB instruction)).2
    (g.AddNode ir instruction (isB instruction)).1.arena
  have ext := extends_trans e2 ext2
  have hins : (g.arena ++ [SchedulingNode.new instruction (isB instruction)]).map
      SchedulingNode.instruction_ = done ++ [instruction] := by
    rw [List.map_append, hb.instrs]
    rfl
  refine ⟨?_, ?_, ?_, ?_, ?_⟩
  · show (List.modify f _ _).map SchedulingNode.instruction_ = _
    rw [map_instruction_of_extends _ _ ext, hins]
  · rw [e1, hb.nodes_eq, hlen]
    simp [List.range_succ]
  · exact wf_modify f h3 h4 h5 _ _ e3
  · intro i hi
    show (nodeAt (List.modify f _ _) i).is_scheduling_barrier_ = _
    rw [ext.barrier i, getD_append_singleton]
    simp only [List.length_append, List.length_singleton] at hi
    by_cases hlt : i < done.length
    · rw [if_pos hlt, nodeAt_append_left _ _ _ (by rw [hlen]; exact hlt)]
      exact hb.barrier i hlt
    · have hi2 : i = done.length := by omega
      rw [if_neg hlt, if_pos hi2, hi2, ← hlen, nodeAt_append_singleton]
      rfl
  · intro i j hij hj hdep
    show j ∈ predsAt (List.modify f _ _) i
    simp only [List.length_append, List.length_singleton] at hj
    rw [getD_append_singleton, getD_append_singleton] at hdep
    by_cases hlt : j < done.length
    · rw [if_pos hlt, if_pos (by omega : i < done.length)] at hdep
      apply ext.mono
      rw [predsAt_push g.arena (SchedulingNode.new instruction (isB instruction)) rfl]
      exact hb.edges i j hij hlt hdep
    · have hj2 : j = done.length := by omega
      have hi : i < done.length := by omega
      rw [if_neg hlt, if_pos hj2, if_pos hi] at hdep
      apply ext2.mono
      rw [hj2, ← hlen]
      apply e4 i (by rw [hlen]; exact hi)
      unfold EdgeWanted
      rw [nodeAt_append_singleton, nodeAt_append_left _ _ _ (by rw [hlen]; exact hi),
        hb.barrier i hi, instruction_eq_getD _ _ hb.instrs]
      unfold DependsOn at hdep
      exact hdep

theorem wf_nil : ArenaWF [] := by
  refine ⟨?_, ?_, ?_, ?_⟩
  · intro i hi
    simp at hi
  · intro j hj
    simp at hj
  · intro i
    rw [nodeAt_of_le [] i (Nat.zero_le _)]
    exact List.nodup_nil
  · intro i
    rw [nodeAt_of_le [] i (Nat.zero_le _)]
    exact List.nodup_nil

theorem graphBuilt_nil (ir : HGraph) (isB : Nat → Bool) :
    GraphBuilt ir isB [] SchedulingGraph.new [] := by
  refine ⟨rfl, rfl, wf_nil, ?_, ?_⟩
  · intro i hi
    simp at hi
  · intro i j _ hj
    simp at hj

theorem BuildSchedulingGraph_eq_some (ir : HGraph) (isB : Nat → Bool)
    (Accept : Nat → SchedulingLatencyVisitor → Option SchedulingLatencyVisitor)
    (block : HBasicBlock) (v : SchedulingLatencyVisitor) (r : SchedulingGraph × List Nat) :
    BuildSchedulingGraph ir isB Accept block v = some r ↔
      BuildSchedulingGraphOutcome ir isB Accept block v = Except.ok r := by
  unfold BuildSchedulingGraph
  cases BuildSchedulingGraphOutcome ir isB Accept block v with
  | error e => simp [Except.toOption]
  | ok a => simp [Except.toOption]

theorem BuildSchedulingGraphFrom_spec (ir : HGraph) (isB : Nat → Bool)
    (Accept : Nat → SchedulingLatencyVisitor → Option SchedulingLatencyVisitor) (bid : Nat)
    (rest : List Nat) :
    ∀ (done : List Nat) (g : SchedulingGraph) (nodes : List Nat) (v : SchedulingLatencyVisitor)
      (r : SchedulingGraph × List Nat),
      GraphBuilt ir isB done g nodes → done.length + rest.length < 2147483648 →
      BuildSchedulingGraphFrom ir isB Accept bid rest g nodes v = Except.ok r →
      GraphBuilt ir isB (done ++ rest) r.1 r.2 := by
  induction rest with
  | nil =>
    intro done g nodes v r hb _ hr
    simp only [BuildSchedulingGraphFrom, Except.ok.injEq] at hr
    subst hr
    simpa using hb
  | cons x t ih =>
    intro done g nodes v r hb hN hr
    simp only [List.length_cons] at hN
    unfold BuildSchedulingGraphFrom at hr
    split at hr
    · exact absurd hr (by simp)
    · simp only [] at hr
      split at hr
      · exact absurd hr (by simp)
      · next visited _ =>
        have hstep := graphBuilt_step ir isB done g nodes x
          (fun n => (n.SetLatency visited.last_visited_latency_).SetInternalLatency
            visited.last_visited_internal_latency_)
          (fun _ => rfl) (fun _ => rfl) (fun _ => rfl) (fun _ => rfl) (fun _ => rfl) hb
          (by omega)
        have := ih (done ++ [x]) _ _ visited r hstep
          (by simp only [List.length_append, List.length_singleton]; omega) hr
        simpa using this

theorem BuildSchedulingGraph_spec (ir : HGraph) (isB : Nat → Bool)
    (Accept : Nat → SchedulingLatencyVisitor → Option SchedulingLatencyVisitor)
    (block : HBasicBlock) (v : SchedulingLatencyVisitor) (r : SchedulingGraph × List Nat)
    (hN : block.instructions.length < 2147483648)
    (hr : BuildSchedulingGraph ir isB Accept block v = some r) :
    GraphBuilt ir isB block.instructions.reverse r.1 r.2 := by
  rw [BuildSchedulingGraph_eq_some] at hr
  unfold BuildSchedulingGraphOutcome at hr
  have := BuildSchedulingGraphFrom_spec ir isB Accept block.block_id
    block.instructions.reverse [] SchedulingGraph.new [] v r (graphBuilt_nil ir isB)
    (by simpa using hN) hr
  simpa using this

theorem sameLinks_refl (a : List SchedulingNode) : SameLinks a a :=
  ⟨rfl, fun _ => rfl, fun _ => rfl, fun _ => rfl⟩

theorem sameLinks_trans {a1 a2 a3 : List SchedulingNode} (h12 : SameLinks a1 a2)
    (h23 : SameLinks a2 a3) : SameLinks a1 a3 :=
  ⟨h23.length.trans h12.length, fun i => (h23.instruction i).trans (h12.instruction i),
    fun i => (h23.data i).trans (h12.data i), fun i => (h23.other i).trans (h12.other i)⟩

theorem sameLinks_predsAt {a1 a2 : List SchedulingNode} (h : SameLinks a1 a2) (i : Nat) :
    predsAt a2 i = predsAt a1 i := by
  unfold predsAt SchedulingNode.predecessors
  rw [h.data, h.other]

theorem sameLinks_modify (f : SchedulingNode → SchedulingNode)
    (h1 : ∀ n, (f n).instruction_ = n.instruction_)
    (h2 : ∀ n, (f n).data_predecessors_ = n.data_predecessors_)
    (h3 : ∀ n, (f n).other_predecessors_ = n.other_predecessors_) (k : Nat)
    (a : List SchedulingNode) : SameLinks a (List.modify f k a) :=
  ⟨List.length_modify f k a, nodeAt_modify_field _ f h1 k a, nodeAt_modify_field _ f h2 k a,
    nodeAt_modify_field _ f h3 k a⟩

theorem sameLinks_UpdateCriticalPath (path : Option Nat) (a : List SchedulingNode) (p : Nat) :
    SameLinks a (UpdateCriticalPath path a p) := by
  unfold UpdateCriticalPath
  cases path with
  | none => exact sameLinks_refl a
  | some q =>
    exact sameLinks_modify
      (fun n => n.MaybeUpdateCriticalPath ((n.latency_ + q) % kUint32Modulus))
      (fun _ => rfl) (fun _ => rfl) (fun _ => rfl) p a

theorem nusAt_UpdateCriticalPath (path : Option Nat) (a : List SchedulingNode) (p i : Nat) :
    nusAt (UpdateCriticalPath path a p) i = nusAt a i := by
  unfold UpdateCriticalPath nusAt
  cases path with
  | none => rfl
  | some q =>
    exact nodeAt_modify_field SchedulingNode.num_unscheduled_successors_
      (fun n => n.MaybeUpdateCriticalPath ((n.latency_ + q) % kUint32Modulus))
      (fun _ => rfl) p a i

theorem Decrement_instruction (n : SchedulingNode) :
    (n.DecrementNumberOfUnscheduledSuccessors).instruction_ = n.instruction_ := by
  cases n
  rfl

theorem Decrement_data (n : SchedulingNode) :
    (n.DecrementNumberOfUnscheduledSuccessors).data_predecessors_ = n.data_predecessors_ := by
  cases n
  rfl

theorem Decrement_other (n : SchedulingNode) :
    (n.DecrementNumberOfUnscheduledSuccessors).other_predecessors_ = n.other_predecessors_ := by
  cases n
  rfl

theorem VisitPredecessor_spec (path : Option Nat) (a : List SchedulingNode) (c : List Nat)
    (p : Nat) (hp : p < a.length) (h1 : 1 ≤ nusAt a p) (h2 : nusAt a p < kUint32Modulus) :
    SameLinks a (VisitPredecessor path (a, c) p).1
      ∧ (∀ i, nusAt (VisitPredecessor path (a, c) p).1 i
          = if i = p then nusAt a p - 1 else nusAt a i)
      ∧ (VisitPredecessor path (a, c) p).2 = c ++ (if nusAt a p = 1 then [p] else []) := by
  have hlinks1 := sameLinks_UpdateCriticalPath path a p
  have hnus1 := nusAt_UpdateCriticalPath path a p
  unfold VisitPredecessor
  simp only []
  generalize UpdateCriticalPath path a p = a1 at hlinks1 hnus1 ⊢
  have hp1 : p < a1.length := by rw [hlinks1.length]; exact hp
  have hnus2 : ∀ i, nusAt
      (List.modify SchedulingNode.DecrementNumberOfUnscheduledSuccessors p a1) i
        = if i = p then nusAt a p - 1 else nusAt a i := by
    intro i
    have h3 := hnus1 i
    unfold nusAt at h3 h1 h2 ⊢
    rw [nodeAt_modify]
    by_cases hi : i = p
    · subst hi
      simp only [hp1, and_self, if_true, SchedulingNode.DecrementNumberOfUnscheduledSuccessors,
        h3]
      unfold kUint32Modulus at h2 ⊢
      omega
    · have hne : ¬ (p = i) := fun h => hi h.symm
      simp only [hne, false_and, if_false, hi]
      exact h3
  have hlinks2 : SameLinks a
      (List.modify SchedulingNode.DecrementNumberOfUnscheduledSuccessors p a1) :=
    sameLinks_trans hlinks1 (sameLinks_modify SchedulingNode.DecrementNumberOfUnscheduledSuccessors
      Decrement_instruction Decrement_data Decrement_other p a1)
  have hdec : (nodeAt (List.modify SchedulingNode.DecrementNumberOfUnscheduledSuccessors p a1)
      p).HasUnscheduledSuccessors = decide (nusAt a p ≠ 1) := by
    have h3 := hnus2 p
    unfold nusAt at h3 h1 ⊢
    unfold SchedulingNode.HasUnscheduledSuccessors
    rw [h3]
    simp only [if_true]
    by_cases h : (nodeAt a p).num_unscheduled_successors_ = 1
    · simp [h]
    · have : (nodeAt a p).num_unscheduled_successors_ - 1 ≠ 0 := by omega
      simp [h, this]
  rw [hdec]
  by_cases h : nusAt a p = 1
  · simp only [h, ne_eq, not_true_eq_false, decide_False, Bool.false_eq_true, if_false, if_true]
    refine ⟨hlinks2, ?_, trivial⟩
    intro i
    rw [hnus2 i, h]
  · simp only [h, ne_eq, not_false_eq_true, decide_True, if_true, if_false, List.append_nil]
    exact ⟨hlinks2, hnus2, trivial⟩

theorem visitFold_spec (PL : List (Option Nat × Nat)) :
    ∀ (acc : List SchedulingNode × List Nat),
      (∀ q, q ∈ PL → q.2 < acc.1.length) →
      (∀ j, (PL.map Prod.snd).count j ≤ nusAt acc.1 j) →
      (∀ q, q ∈ PL → nusAt acc.1 q.2 < kUint32Modulus) →
      SameLinks acc.1 (PL.foldl (fun r q => VisitPredecessor q.1 r q.2) acc).1
        ∧ (∀ j, nusAt (PL.foldl (fun r q => VisitPredecessor q.1 r q.2) acc).1 j
            = nusAt acc.1 j - (PL.map Prod.snd).count j)
        ∧ ∃ added, (PL.foldl (fun r q => VisitPredecessor q.1 r q.2) acc).2 = acc.2 ++ added
            ∧ added.Nodup
            ∧ ∀ x, x ∈ added ↔
                (x ∈ PL.map Prod.snd ∧ nusAt acc.1 x = (PL.map Prod.snd).count x) := by
  induction PL with
  | nil =>
    intro acc _ _ _
    refine ⟨sameLinks_refl _, fun j => by simp, [], by simp, List.nodup_nil, ?_⟩
    intro x
    simp
  | cons q t ih =>
    intro acc hlt hcnt hbound
    obtain ⟨a, c⟩ := acc
    simp only [List.foldl_cons, List.map_cons] at hcnt ⊢
    simp only at hlt hbound
    have hp : q.2 < a.length := hlt q (List.mem_cons_self _ _)
    have hc1 : 1 ≤ nusAt a q.2 := by
      have := hcnt q.2
      rw [List.count_cons_self] at this
      omega
    obtain ⟨s1, s2, s3⟩ := VisitPredecessor_spec q.1 a c q.2 hp hc1
      (hbound q (List.mem_cons_self _ _))
    generalize VisitPredecessor q.1 (a, c) q.2 = r1 at s1 s2 s3 ⊢
    obtain ⟨i1, i2, added, i3, i4, i5⟩ := ih r1
      (fun q2 hq2 => by rw [s1.length]; exact hlt q2 (List.mem_cons_of_mem _ hq2))
      (fun j => by
        rw [s2 j]
        have := hcnt j
        rw [List.count_cons] at this
        by_cases hj : j = q.2
        · subst hj
          simp only [beq_self_eq_true, if_true] at this ⊢
          omega
        · have hne : ¬ (q.2 = j) := fun h => hj h.symm
          simp only [hj, if_false] at this ⊢
          simpa [hne] using this)
      (fun q2 hq2 => by
        rw [s2 q2.2]
        have := hbound q2 (List.mem_cons_of_mem _ hq2)
        have := hbound q (List.mem_cons_self _ _)
        split <;> omega)
    refine ⟨sameLinks_trans s1 i1, ?_, (if nusAt a q.2 = 1 then [q.2] else []) ++ added, ?_, ?_, ?_⟩
    · intro j
      rw [i2 j, s2 j, List.count_cons]
      by_cases hj : j = q.2
      · subst hj
        simp only [beq_self_eq_true, if_true]
        omega
      · have hne : ¬ (q.2 = j) := fun h => hj h.symm
        simp [hj, hne]
    · rw [i3, s3, List.append_assoc]
    · by_cases h1 : nusAt a q.2 = 1
      · simp only [h1, if_true, List.singleton_append, List.nodup_cons]
        refine ⟨?_, i4⟩
        intro hmem
        have h5 := (i5 q.2).mp hmem
        have h6 := hcnt q.2
        rw [List.count_cons_self] at h6
        have h7 : List.count q.2 (List.map Prod.snd t) = 0 := by omega
        exact (List.count_eq_zero.mp h7) h5.1
      · simpa [h1] using i4
    · intro x
      rw [List.mem_append, i5 x, s2 x, List.count_cons, List.mem_cons]
      have h6 := hcnt x
      rw [List.count_cons] at h6
      by_cases hx : x = q.2
      · subst hx
        simp only [beq_self_eq_true, if_true, true_or, true_and] at h6 ⊢
        by_cases h1 : nusAt a q.2 = 1
        · have h7 : List.count q.2 (List.map Prod.snd t) = 0 := by omega
          simp [h1, h7]
        · simp only [h1, if_false, List.not_mem_nil, false_or]
          constructor
          · rintro ⟨_, h⟩
            omega
          · intro h
            refine ⟨?_, by omega⟩
            apply List.count_pos_iff.mp
            omega
      · have hne : ¬ (q.2 = x) := fun h => hx h.symm
        have hne2 : (q.2 == x) = false := by simpa using hne
        simp only [hx, if_false, hne2, Bool.false_eq_true, false_or, Nat.add_zero]
        constructor
        · rintro (h | h)
          · split at h
            · simp at h
              exact absurd h hx
            · simp at h
          · exact h
        · intro h
          exact Or.inr h

theorem succCount_perm (a : List SchedulingNode) (U V : List Nat) (j : Nat) (h : U.Perm V) :
    succCount a U j = succCount a V j := by
  unfold succCount
  exact (h.map _).sum_eq

theorem succCount_cons (a : List SchedulingNode) (c : Nat) (U : List Nat) (j : Nat) :
    succCount a (c :: U) j = (predsAt a c).count j + succCount a U j := by
  unfold succCount
  simp

theorem succCount_erase (a : List SchedulingNode) (c : Nat) (U : List Nat) (j : Nat)
    (hc : c ∈ U) : succCount a U j = (predsAt a c).count j + succCount a (U.erase c) j := by
  rw [succCount_perm a U _ j (List.perm_cons_erase hc), succCount_cons]

theorem not_mem_of_succCount_eq_zero (a : List SchedulingNode) (U : List Nat) (j : Nat)
    (h : succCount a U j = 0) : ∀ i, i ∈ U → j ∉ predsAt a i := by
  intro i hi hmem
  rw [succCount_erase a i U j hi] at h
  have := List.count_pos_iff.mpr hmem
  omega

theorem map_erase_of_inj (f : Nat → Nat) (U : List Nat) (c : Nat)
    (h : ∀ x, x ∈ U → f x = f c → x = c) : (U.map f).erase (f c) = (U.erase c).map f := by
  induction U with
  | nil => rfl
  | cons x t ih =>
    by_cases hx : x = c
    · subst hx
      simp
    · have hfx : f x ≠ f c := fun hf => hx (h x (List.mem_cons_self _ _) hf)
      rw [List.map_cons, List.erase_cons_tail (by simpa using hfx),
        List.erase_cons_tail (by simpa using hx), List.map_cons,
        ih (fun y hy => h y (List.mem_cons_of_mem _ hy))]

theorem visit_two_folds (path : Nat) (data other : List Nat)
    (acc : List SchedulingNode × List Nat) :
    other.foldl (VisitPredecessor none) (data.foldl (VisitPredecessor (some path)) acc)
      = (data.map (fun p => (some path, p)) ++ other.map (fun p => (none, p))).foldl
          (fun r (q : Option Nat × Nat) => VisitPredecessor q.1 r q.2) acc := by
  rw [List.foldl_append, List.foldl_map, List.foldl_map]

theorem ScheduleNode_inv {σ : Type} (a0 : List SchedulingNode) (hwf : ArenaWF a0)
    (hN : a0.length < 2147483648)
    (hinj : ∀ i j, i < a0.length → j < a0.length → instrAt a0 i = instrAt a0 j → i = j)
    (st : ScheduleState σ) (U : List Nat) (c : Nat) (cands : List Nat) (s2 : σ)
    (hinv : LoopInv a0 st U) (hperm : st.candidates.Perm (c :: cands)) :
    LoopInv a0 (ScheduleNode { st with candidates := cands, selector_state := s2 } c)
        (U.erase c)
      ∧ (ScheduleNode { st with candidates := cands, selector_state := s2 } c).scheduled
          = c :: st.scheduled
      ∧ (ScheduleNode { st with candidates := cands, selector_state := s2 } c).selector_state
          = s2 := by
  have hcmem : c ∈ st.candidates := hperm.mem_iff.mpr (List.mem_cons_self _ _)
  obtain ⟨hcU, hc0⟩ := (hinv.cands_iff c).mp hcmem
  have hnd : (U ++ st.scheduled).Nodup := hinv.perm.nodup_iff.mpr (List.nodup_range _)
  obtain ⟨hUnd, hSnd, hdisj⟩ := List.nodup_append.mp hnd
  have hUlt : ∀ x, x ∈ U → x < a0.length := fun x hx =>
    List.mem_range.mp (hinv.perm.mem_iff.mp (List.mem_append_left _ hx))
  have hcN : c < a0.length := hUlt c hcU
  have hcnd : (c :: cands).Nodup := hperm.nodup_iff.mp hinv.cands_nodup
  obtain ⟨hcnot, hcands_nd⟩ := List.nodup_cons.mp hcnd
  have hlen : st.graph.arena.length = a0.length := hinv.links.length
  have hP : ∀ x, x ∈ predsAt a0 c → x < a0.length := fun x hx => (hwf.later c hcN x hx).2
  have hcount2 : ∀ i j, (predsAt a0 i).count j ≤ 2 := fun i j =>
    count_predecessors_le _ (hwf.nodup_data i) (hwf.nodup_other i) j
  have hUlen : U.length ≤ a0.length := by
    have := hinv.perm.length_eq
    simp only [List.length_append, List.length_range] at this
    omega
  have hnus_le : ∀ j, (predsAt a0 c).count j ≤ nusAt st.graph.arena j := by
    intro j
    by_cases hj : j < a0.length
    · rw [hinv.counts j hj, succCount_erase a0 c U j hcU]
      omega
    · rw [List.count_eq_zero_of_not_mem (fun h => hj (hP j h))]
      exact Nat.zero_le _
  have hbound : ∀ j, j < a0.length → nusAt st.graph.arena j < kUint32Modulus := by
    intro j hj
    rw [hinv.counts j hj]
    have := succCount_le a0 U j (fun i => hcount2 i j)
    unfold kUint32Modulus
    omega
  have hPL : List.map Prod.snd
      ((nodeAt a0 c).data_predecessors_.map
          (fun p => (some (((nodeAt st.graph.arena c).internal_latency_
            + (nodeAt st.graph.arena c).critical_path_) % kUint32Modulus), p))
        ++ (nodeAt a0 c).other_predecessors_.map (fun p => ((none : Option Nat), p)))
      = predsAt a0 c := by
    simp [predsAt, SchedulingNode.predecessors, Function.comp_def]
  obtain ⟨f1, f2, added, f3, f4, f5⟩ := visitFold_spec
    ((nodeAt a0 c).data_predecessors_.map
        (fun p => (some (((nodeAt st.graph.arena c).internal_latency_
          + (nodeAt st.graph.arena c).critical_path_) % kUint32Modulus), p))
      ++ (nodeAt a0 c).other_predecessors_.map (fun p => ((none : Option Nat), p)))
    (st.graph.arena, cands)
    (by
      intro q hq
      have : q.2 ∈ predsAt a0 c := by
        rw [← hPL]
        exact List.mem_map_of_mem _ hq
      show q.2 < st.graph.arena.length
      rw [hlen]
      exact hP _ this)
    (by
      intro j
      rw [hPL]
      exact hnus_le j)
    (by
      intro q hq
      have : q.2 ∈ predsAt a0 c := by
        rw [← hPL]
        exact List.mem_map_of_mem _ hq
      exact hbound _ (hP _ this))
  rw [hPL] at f2 f5
  rw [← visit_two_folds] at f1 f2 f3
  unfold ScheduleNode ScheduleInstruction
  simp only [hinv.links.data c, hinv.links.other c]
  generalize List.foldl (VisitPredecessor none)
    (List.foldl (VisitPredecessor (some (((nodeAt st.graph.arena c).internal_latency_
      + (nodeAt st.graph.arena c).critical_path_) % kUint32Modulus)))
      (st.graph.arena, cands) (nodeAt a0 c).data_predecessors_)
    (nodeAt a0 c).other_predecessors_ = r2 at f1 f2 f3 ⊢
  simp only at f1 f2 f3 f5
  have hcnotP : c ∉ predsAt a0 c := by
    have h0 : succCount a0 U c = 0 := by rw [← hinv.counts c hcN]; exact hc0
    exact not_mem_of_succCount_eq_zero a0 U c h0 c hcU
  have hclosed_c : ∀ i, i ∈ U → c ∉ predsAt a0 i := by
    have h0 : succCount a0 U c = 0 := by rw [← hinv.counts c hcN]; exact hc0
    exact not_mem_of_succCount_eq_zero a0 U c h0
  refine ⟨⟨?_, ?_, ?_, ?_, ?_, ?_, ?_, ?_, ?_⟩, by trivial, by trivial⟩
  · exact sameLinks_trans hinv.links f1
  · show (U.erase c ++ c :: st.scheduled).Perm _
    refine List.Perm.trans ?_ hinv.perm
    refine List.perm_middle.trans ?_
    rw [← List.cons_append]
    exact (List.perm_cons_erase hcU).symm.append_right _
  · intro j hj
    show nusAt r2.1 j = _
    rw [f2 j, hinv.counts j hj, succCount_erase a0 c U j hcU]
    omega
  · show (r2.2).Nodup
    rw [f3]
    refine List.nodup_append.mpr ⟨hcands_nd, f4, ?_⟩
    intro x hx1 hx2
    obtain ⟨hxP, hxn⟩ := (f5 x).mp hx2
    have hxc : x ∈ st.candidates := hperm.mem_iff.mpr (List.mem_cons_of_mem _ hx1)
    have hx0 := ((hinv.cands_iff x).mp hxc).2
    have hxpos := List.count_pos_iff.mpr hxP
    omega
  · intro x
    show x ∈ r2.2 ↔ x ∈ U.erase c ∧ nusAt r2.1 x = 0
    rw [f3, List.mem_append, f5 x, f2 x, hUnd.mem_erase_iff]
    constructor
    · rintro (h | ⟨hxP, hxn⟩)
      · have hxc : x ∈ st.candidates := hperm.mem_iff.mpr (List.mem_cons_of_mem _ h)
        obtain ⟨hxU, hx0⟩ := (hinv.cands_iff x).mp hxc
        refine ⟨⟨?_, hxU⟩, by omega⟩
        intro hxeq
        exact hcnot (hxeq ▸ h)
      · refine ⟨⟨?_, ?_⟩, by omega⟩
        · intro hxeq
          exact hcnotP (hxeq ▸ hxP)
        · have hxN := hP x hxP
          have hmem := hinv.perm.mem_iff.mpr (List.mem_range.mpr hxN)
          rcases List.mem_append.mp hmem with h | h
          · exact h
          · exact absurd hxP (hinv.closed x h c hcU)
    · rintro ⟨⟨hxc, hxU⟩, hx0⟩
      have hle := hnus_le x
      by_cases hxP : x ∈ predsAt a0 c
      · exact Or.inr ⟨hxP, by omega⟩
      · have h0 := List.count_eq_zero_of_not_mem hxP
        have hx00 : nusAt st.graph.arena x = 0 := by omega
        have hxm : x ∈ st.candidates := (hinv.cands_iff x).mpr ⟨hxU, hx00⟩
        rcases List.mem_cons.mp (hperm.mem_iff.mp hxm) with h | h
        · exact absurd h hxc
        · exact Or.inl h
  · show (List.take st.cursor_ st.instructions).erase (nodeAt st.graph.arena c).instruction_
        ++ (nodeAt st.graph.arena c).instruction_ :: List.drop st.cursor_ st.instructions
      = (U.erase c).map (instrAt a0) ++ (c :: st.scheduled).map (instrAt a0)
    rw [hinv.instrs, hinv.cursor, List.take_left' (by simp), List.drop_left' (by simp),
      hinv.links.instruction c]
    show ((U.map (instrAt a0)).erase (instrAt a0 c)) ++ _ = _
    rw [map_erase_of_inj (instrAt a0) U c (fun x hx hf => hinj x c (hUlt x hx) hcN hf)]
    rfl
  · show st.cursor_ - 1 = (U.erase c).length
    rw [hinv.cursor, List.length_erase_of_mem hcU]
  · show (c :: st.scheduled).Pairwise _
    exact List.pairwise_cons.mpr ⟨fun y hy => hinv.closed y hy c hcU, hinv.topo⟩
  · intro s hs i hi
    have hiU : i ∈ U := List.mem_of_mem_erase hi
    rcases List.mem_cons.mp hs with h | h
    · subst h
      exact hclosed_c i hiU
    · exact hinv.closed s h i hiU

theorem ScheduleStep_inv {σ : Type} (selector_ : SchedulingNodeSelector σ)
    (hsel : SelectorContract selector_) (a0 : List SchedulingNode) (hwf : ArenaWF a0)
    (hN : a0.length < 2147483648)
    (hinj : ∀ i j, i < a0.length → j < a0.length → instrAt a0 i = instrAt a0 j → i = j)
    (st : ScheduleState σ) (U : List Nat) (hinv : LoopInv a0 st U)
    (hne : st.candidates ≠ []) :
    ∃ c, c ∈ U ∧ LoopInv a0 (ScheduleStep selector_ st) (U.erase c)
      ∧ (ScheduleStep selector_ st).scheduled = c :: st.scheduled := by
  have hperm := hsel st.selector_state st.candidates st.graph hne
  obtain ⟨h1, h2, _⟩ := ScheduleNode_inv a0 hwf hN hinj st U
    (selector_.PopHighestPriorityNode st.selector_state st.candidates st.graph).1
    (selector_.PopHighestPriorityNode st.selector_state st.candidates st.graph).2.1
    (selector_.PopHighestPriorityNode st.selector_state st.candidates st.graph).2.2
    hinv hperm
  refine ⟨_, ?_, h1, h2⟩
  exact ((hinv.cands_iff _).mp (hperm.mem_iff.mpr (List.mem_cons_self _ _))).1

theorem loopInv_done {σ : Type} (a0 : List SchedulingNode) (hwf : ArenaWF a0)
    (st : ScheduleState σ) (U : List Nat) (hinv : LoopInv a0 st U)
    (hempty : st.candidates = []) : U = [] := by
  have hUlt : ∀ x, x ∈ U → x < a0.length := fun x hx =>
    List.mem_range.mp (hinv.perm.mem_iff.mp (List.mem_append_left _ hx))
  have hnone : ∀ m, m ∉ U := by
    intro m
    induction m using Nat.strong_induction_on with
    | _ m ih =>
      intro hm
      have h0 : succCount a0 U m = 0 := by
        apply succCount_eq_zero
        intro i hi hmem
        have := hwf.later i (hUlt i hi) m hmem
        exact ih i this.1 hi
      have hc : m ∈ st.candidates :=
        (hinv.cands_iff m).mpr ⟨hm, by rw [hinv.counts m (hUlt m hm)]; exact h0⟩
      rw [hempty] at hc
      exact absurd hc (List.not_mem_nil _)
  exact List.eq_nil_iff_forall_not_mem.mpr hnone

theorem loopInv_candidates_of_nil {σ : Type} (a0 : List SchedulingNode)
    (st : ScheduleState σ) (hinv : LoopInv a0 st []) : st.candidates = [] := by
  apply List.eq_nil_iff_forall_not_mem.mpr
  intro c hc
  exact absurd ((hinv.cands_iff c).mp hc).1 (List.not_mem_nil _)

theorem ScheduleLoop_spec {σ : Type} (selector_ : SchedulingNodeSelector σ)
    (hsel : SelectorContract selector_) (a0 : List SchedulingNode) (hwf : ArenaWF a0)
    (hN : a0.length < 2147483648)
    (hinj : ∀ i j, i < a0.length → j < a0.length → instrAt a0 i = instrAt a0 j → i = j)
    (fuel : Nat) :
    ∀ (st : ScheduleState σ) (U : List Nat), LoopInv a0 st U →
      (U.length ≤ fuel → ∃ st2, ScheduleLoop selector_ fuel st = some st2 ∧ LoopInv a0 st2 []
        ∧ st2.scheduled.length = st.scheduled.length + U.length)
      ∧ (fuel < U.length → ScheduleLoop selector_ fuel st = none) := by
  induction fuel with
  | zero =>
    intro st U hinv
    constructor
    · intro hU
      have hU0 : U = [] := List.length_eq_zero.mp (by omega)
      subst hU0
      refine ⟨st, ?_, hinv, rfl⟩
      unfold ScheduleLoop
      rw [if_pos (loopInv_candidates_of_nil a0 st hinv)]
    · intro hU
      have hne : st.candidates ≠ [] := by
        intro hempty
        have := loopInv_done a0 hwf st U hinv hempty
        rw [this] at hU
        simp at hU
      unfold ScheduleLoop
      rw [if_neg hne]
  | succ n ih =>
    intro st U hinv
    by_cases hempty : st.candidates = []
    · have hU0 := loopInv_done a0 hwf st U hinv hempty
      subst hU0
      constructor
      · intro _
        refine ⟨st, ?_, hinv, rfl⟩
        unfold ScheduleLoop
        rw [if_pos hempty]
      · intro hU
        simp at hU
    · obtain ⟨c, hc, hinv2, hsched⟩ :=
        ScheduleStep_inv selector_ hsel a0 hwf hN hinj st U hinv hempty
      have hlen : (U.erase c).length + 1 = U.length := by
        rw [List.length_erase_of_mem hc]
        have := List.length_pos_of_mem hc
        omega
      obtain ⟨ih1, ih2⟩ := ih (ScheduleStep selector_ st) (U.erase c) hinv2
      constructor
      · intro hU
        obtain ⟨st2, e1, e2, e3⟩ := ih1 (by omega)
        refine ⟨st2, ?_, e2, ?_⟩
        · unfold ScheduleLoop
          rw [if_neg hempty]
          exact e1
        · rw [e3, hsched, List.length_cons]
          omega
      · intro hU
        unfold ScheduleLoop
        rw [if_neg hempty]
        exact ih2 (by omega)

theorem seedFold_spec (L : List Nat) :
    ∀ (acc : List SchedulingNode × List Nat),
      SameLinks acc.1 (L.foldl SeedCandidates acc).1
        ∧ (∀ i, nusAt (L.foldl SeedCandidates acc).1 i = nusAt acc.1 i)
        ∧ (L.foldl SeedCandidates acc).2
            = acc.2 ++ L.filter (fun n => decide (nusAt acc.1 n = 0)) := by
  induction L with
  | nil =>
    intro acc
    exact ⟨sameLinks_refl _, fun _ => rfl, by simp⟩
  | cons x t ih =>
    intro acc
    simp only [List.foldl_cons]
    have hstep : SameLinks acc.1 (SeedCandidates acc x).1
        ∧ (∀ i, nusAt (SeedCandidates acc x).1 i = nusAt acc.1 i)
        ∧ (SeedCandidates acc x).2
            = acc.2 ++ (if nusAt acc.1 x = 0 then [x] else []) := by
      unfold SeedCandidates SchedulingNode.HasUnscheduledSuccessors
      by_cases h : nusAt acc.1 x = 0
      · have h2 : (nodeAt acc.1 x).num_unscheduled_successors_ = 0 := h
        simp only [h2, ne_eq, not_true_eq_false, decide_False, Bool.false_eq_true, if_false, h,
          if_true]
        refine ⟨sameLinks_modify (fun n => n.MaybeUpdateCriticalPath n.latency_)
          (fun _ => rfl) (fun _ => rfl) (fun _ => rfl) x acc.1, ?_, trivial⟩
        intro i
        exact nodeAt_modify_field SchedulingNode.num_unscheduled_successors_
          (fun n => n.MaybeUpdateCriticalPath n.latency_) (fun _ => rfl) x acc.1 i
      · have h2 : ¬ (nodeAt acc.1 x).num_unscheduled_successors_ = 0 := h
        simp only [h2, ne_eq, not_false_eq_true, decide_True, if_true, h, if_false,
          List.append_nil]
        exact ⟨sameLinks_refl _, fun _ => trivial, trivial⟩
    obtain ⟨s1, s2, s3⟩ := hstep
    obtain ⟨i1, i2, i3⟩ := ih (SeedCandidates acc x)
    refine ⟨sameLinks_trans s1 i1, fun i => (i2 i).trans (s2 i), ?_⟩
    rw [i3, s3, List.append_assoc, List.filter_cons]
    simp only [s2]
    by_cases h : nusAt acc.1 x = 0
    · simp [h]
    · simp [h]

theorem map_instrAt_range (a : List SchedulingNode) :
    (List.range a.length).map (instrAt a) = a.map SchedulingNode.instruction_ := by
  apply List.ext_getElem
  · simp
  · intro i h1 h2
    simp only [List.length_map, List.length_range] at h1
    simp only [List.getElem_map, List.getElem_range]
    unfold instrAt nodeAt
    rw [List.getElem?_eq_getElem h1]
    rfl

theorem initial_inv {σ : Type} (selector_ : SchedulingNodeSelector σ) (ir : HGraph)
    (isB : Nat → Bool) (block : HBasicBlock) (s : σ) (built : SchedulingGraph × List Nat)
    (hb : GraphBuilt ir isB block.instructions.reverse built.1 built.2) :
    LoopInv built.1.arena (InitialScheduleState selector_ block s built)
      (List.range built.1.arena.length).reverse := by
  have hlen : built.1.arena.length = block.instructions.length := by
    have := congrArg List.length hb.instrs
    simpa using this
  obtain ⟨s1, s2, s3⟩ := seedFold_spec built.2 (built.1.arena, [])
  unfold InitialScheduleState
  simp only at s1 s2 s3 ⊢
  generalize List.foldl SeedCandidates (built.1.arena, []) built.2 = seeded at s1 s2 s3 ⊢
  have hnodes : built.2 = List.range built.1.arena.length := by
    rw [hb.nodes_eq, List.length_reverse, hlen]
  refine ⟨s1, ?_, ?_, ?_, ?_, ?_, ?_, List.Pairwise.nil, ?_⟩
  · show ((List.range built.1.arena.length).reverse ++ []).Perm _
    rw [List.append_nil]
    exact List.reverse_perm _
  · intro j hj
    show nusAt seeded.1 j = _
    rw [s2 j, succCount_perm _ _ _ j (List.reverse_perm _)]
    exact hb.wf.counts j hj
  · show seeded.2.Nodup
    rw [s3, List.nil_append, hnodes]
    exact (List.nodup_range _).filter _
  · intro c
    show c ∈ seeded.2 ↔ _ ∧ nusAt seeded.1 c = 0
    rw [s3, List.nil_append, hnodes, List.mem_filter, List.mem_reverse, s2 c]
    simp
  · show block.instructions = _ ++ List.map _ []
    rw [List.map_nil, List.append_nil, List.map_reverse, map_instrAt_range, hb.instrs,
      List.reverse_reverse]
  · show block.instructions.length = _
    rw [List.length_reverse, List.length_range, hlen]
  · intro x hx
    exact absurd hx (List.not_mem_nil _)

theorem indexOf_lt_of_pairwise {R : Nat → Nat → Prop} (l : List Nat) (hp : l.Pairwise R)
    (x y : Nat) (hx : x ∈ l) (hy : y ∈ l) (hne : x ≠ y) (hR : ¬ R y x) :
    l.indexOf x < l.indexOf y := by
  induction l with
  | nil => exact absurd hx (List.not_mem_nil _)
  | cons h t ih =>
    obtain ⟨hh, ht⟩ := List.pairwise_cons.mp hp
    by_cases h1 : h = x
    · subst h1
      rw [List.indexOf_cons_self, List.indexOf_cons_ne _ hne]
      omega
    · have hxt : x ∈ t := by
        rcases List.mem_cons.mp hx with e | e
        · exact absurd e.symm h1
        · exact e
      by_cases h2 : h = y
      · subst h2
        exact absurd (hh x hxt) hR
      · have hyt : y ∈ t := by
          rcases List.mem_cons.mp hy with e | e
          · exact absurd e.symm h2
          · exact e
        rw [List.indexOf_cons_ne _ h1, List.indexOf_cons_ne _ h2]
        have := ih ht hxt hyt
        omega

theorem indexOf_map_of_inj (f : Nat → Nat) (l : List Nat) (x : Nat)
    (hinj : ∀ y, y ∈ l → f y = f x → y = x) :
    (l.map f).indexOf (f x) = l.indexOf x := by
  induction l with
  | nil => rfl
  | cons h t ih =>
    rw [List.map_cons]
    by_cases h1 : h = x
    · subst h1
      rw [List.indexOf_cons_self, List.indexOf_cons_self]
    · have h2 : f h ≠ f x := fun e => h1 (hinj h (List.mem_cons_self _ _) e)
      rw [List.indexOf_cons_ne _ h2, List.indexOf_cons_ne _ h1,
        ih (fun y hy => hinj y (List.mem_cons_of_mem _ hy))]

theorem instrAt_inj (ir : HGraph) (isB : Nat → Bool) (block : HBasicBlock)
    (built : SchedulingGraph × List Nat)
    (hb : GraphBuilt ir isB block.instructions.reverse built.1 built.2)
    (hnodup : block.instructions.Nodup) :
    ∀ i j, i < built.1.arena.length → j < built.1.arena.length →
      instrAt built.1.arena i = instrAt built.1.arena j → i = j := by
  intro i j hi hj h
  have hlen : built.1.arena.length = block.instructions.reverse.length := by
    rw [← hb.instrs, List.length_map]
  unfold instrAt at h
  rw [instruction_eq_getD _ _ hb.instrs, instruction_eq_getD _ _ hb.instrs,
    List.getD_eq_getElem _ _ (show i < block.instructions.reverse.length by omega),
    List.getD_eq_getElem _ _ (show j < block.instructions.reverse.length by omega)] at h
  exact (List.Nodup.getElem_inj_iff (List.nodup_reverse.mpr hnodup)).mp h

theorem finished_of_inv {σ : Type} (ir : HGraph) (isB : Nat → Bool) (block : HBasicBlock)
    (built : SchedulingGraph × List Nat)
    (hb : GraphBuilt ir isB block.instructions.reverse built.1 built.2)
    (hnodup : block.instructions.Nodup) (st : ScheduleState σ)
    (hinv : LoopInv built.1.arena st []) : Finished built.1.arena block st := by
  have hperm : st.scheduled.Perm (List.range built.1.arena.length) := by
    simpa using hinv.perm
  have hinstr : st.instructions = st.scheduled.map (instrAt built.1.arena) := by
    simpa using hinv.instrs
  have hinj := instrAt_inj ir isB block built hb hnodup
  have hmem : ∀ x, x ∈ st.scheduled ↔ x < built.1.arena.length := fun x =>
    hperm.mem_iff.trans List.mem_range
  refine ⟨loopInv_candidates_of_nil _ st hinv, hperm, hinstr, ?_, ?_, hinv.links⟩
  · rw [hinstr]
    refine (hperm.map _).trans ?_
    rw [map_instrAt_range, hb.instrs]
    exact List.reverse_perm _
  · intro s p hs hp
    have hpN : p < built.1.arena.length := (hb.wf.later s hs p hp).2
    have hne : p ≠ s := by
      have := (hb.wf.later s hs p hp).1
      omega
    rw [hinstr,
      indexOf_map_of_inj _ _ p (fun y hy e => hinj y p ((hmem y).mp hy) hpN e),
      indexOf_map_of_inj _ _ s (fun y hy e => hinj y s ((hmem y).mp hy) hs e)]
    exact indexOf_lt_of_pairwise st.scheduled hinv.topo p s ((hmem p).mpr hpN)
      ((hmem s).mpr hs) hne (fun h => h hp)

theorem Schedule_master {σ : Type} (self : HScheduler σ) (ir : HGraph) (block : HBasicBlock)
    (s : σ) (built : SchedulingGraph × List Nat)
    (hbuild : BuildSchedulingGraph ir self.IsSchedulingBarrier self.Accept block
      SchedulingLatencyVisitor.new = some built)
    (hnodup : block.instructions.Nodup) (hN : block.instructions.length < 2147483648)
    (hsel : SelectorContract self.selector_) (fuel : Nat) :
    (block.instructions.length ≤ fuel →
        ∃ st, self.Schedule ir block s fuel = some st ∧ Finished built.1.arena block st
          ∧ st.scheduled.length = block.instructions.length)
      ∧ (fuel < block.instructions.length → self.Schedule ir block s fuel = none) := by
  have hb := BuildSchedulingGraph_spec ir self.IsSchedulingBarrier self.Accept block
    SchedulingLatencyVisitor.new built hN hbuild
  have hlen : built.1.arena.length = block.instructions.length := by
    have := congrArg List.length hb.instrs
    simpa using this
  have hinj := instrAt_inj ir self.IsSchedulingBarrier block built hb hnodup
  have hinit := initial_inv self.selector_ ir self.IsSchedulingBarrier block s built hb
  obtain ⟨h1, h2⟩ := ScheduleLoop_spec self.selector_ hsel built.1.arena hb.wf
    (by rw [hlen]; exact hN) hinj fuel _ _ hinit
  simp only [List.length_reverse, List.length_range, hlen] at h1 h2
  unfold HScheduler.Schedule
  rw [hbuild]
  simp only
  constructor
  · intro hf
    obtain ⟨st, e1, e2, e3⟩ := h1 hf
    refine ⟨st, e1, finished_of_inv ir self.IsSchedulingBarrier block built hb hnodup st e2, ?_⟩
    rw [e3]
    show ([] : List Nat).length + _ = _
    simp
  · intro hf
    exact h2 hf

theorem set_perm (l : List Nat) (x : Nat) :
    ∀ i, i < l.length → (l.getD i 0 :: l.set i x).Perm (x :: l) := by
  induction l with
  | nil =>
    intro i hi
    simp at hi
  | cons h t ih =>
    intro i hi
    cases i with
    | zero =>
      simp only [List.getD_cons_zero, List.set_cons_zero]
      exact List.Perm.swap x h t
    | succ k =>
      simp only [List.getD_cons_succ, List.set_cons_succ]
      have hk : k < t.length := by simpa using hi
      exact (List.Perm.swap h (t.getD k 0) (t.set k x)).trans
        (((ih k hk).cons h).trans (List.Perm.swap x h t))

theorem DeleteNodeAtIndex_perm (nodes : List Nat) (index : Nat) (h : index < nodes.length) :
    nodes.Perm (nodes.getD index 0 :: DeleteNodeAtIndex nodes index) := by
  unfold DeleteNodeAtIndex
  rcases List.eq_nil_or_concat nodes with hnil | ⟨L, b, hL⟩
  · subst hnil
    simp at h
  · subst hL
    simp only [List.concat_eq_append, List.length_append, List.length_singleton] at h ⊢
    have hlast : (L ++ [b]).getLastD 0 = b := List.getLastD_concat 0 b L
    rw [hlast]
    by_cases hi : index < L.length
    · rw [List.set_append_left _ _ hi, List.dropLast_concat,
        List.getD_append _ _ _ _ hi]
      exact (List.perm_append_comm.trans (by simp)).trans (set_perm L b index hi).symm
    · have hidx : index = L.length := by omega
      subst hidx
      rw [List.set_append_right _ _ (Nat.le_refl _)]
      simp only [Nat.sub_self, List.set_cons_zero, List.dropLast_concat]
      rw [List.getD_eq_getElem?_getD]
      simp only [List.getElem?_concat_length, Option.getD_some]
      exact List.perm_append_comm

theorem random_contract (rand_r : Nat → Nat × Nat) :
    SelectorContract (RandomSchedulingNodeSelector rand_r) := by
  intro s nodes g hne
  unfold RandomSchedulingNodeSelector
  simp only
  apply DeleteNodeAtIndex_perm
  exact Nat.mod_lt _ (List.length_pos.mpr hne)

theorem foldl_select_lt (f : Nat → Nat → Bool) (n : Nat) (L : List Nat)
    (hL : ∀ i, i ∈ L → i < n) :
    ∀ sel, sel < n → L.foldl (fun select i => if f select i then select else i) sel < n := by
  induction L with
  | nil =>
    intro sel h
    exact h
  | cons x t ih =>
    intro sel h
    simp only [List.foldl_cons]
    apply ih (fun i hi => hL i (List.mem_cons_of_mem _ hi))
    split
    · exact h
    · exact hL x (List.mem_cons_self _ _)

theorem critical_path_contract (ir : HGraph) :
    SelectorContract (CriticalPathSchedulingNodeSelector ir) := by
  intro s nodes g hne
  unfold CriticalPathSchedulingNodeSelector
  simp only
  apply DeleteNodeAtIndex_perm
  have := foldl_select_lt
    (fun select i => decide (GetHigherPrioritySchedulingNode ir g s (nodes.getD select 0)
      (nodes.getD i 0) = nodes.getD select 0))
    nodes.length (List.range nodes.length) (fun i hi => List.mem_range.mp hi) 0
    (List.length_pos.mpr hne)
  simpa using this

theorem GetNode_eq_none (g : SchedulingGraph) (instr : Nat)
    (h : instr ∉ g.nodes_map_.map Prod.fst) : g.GetNode instr = none := by
  unfold SchedulingGraph.GetNode
  rw [Option.map_eq_none', List.find?_eq_none]
  intro kv hkv hk
  apply h
  have : kv.1 = instr := by simpa using hk
  rw [← this]
  exact List.mem_map_of_mem _ hkv

theorem nodes_map_AddNode (ir : HGraph) (g : SchedulingGraph) (instr : Nat) (isb : Bool)
    (h : instr ∉ g.nodes_map_.map Prod.fst) :
    (g.AddNode ir instr isb).1.nodes_map_ = g.nodes_map_ ++ [(instr, g.arena.length)] := by
  unfold SchedulingGraph.AddNode SchedulingGraph.AddDependencies SchedulingGraph.insertNode
  simp only
  have hnone : SchedulingGraph.GetNode
      { arena := g.arena ++ [SchedulingNode.new instr isb],
        contains_scheduling_barrier_ := g.contains_scheduling_barrier_,
        nodes_map_ := g.nodes_map_ } instr = none := GetNode_eq_none _ instr h
  rw [hnone]

theorem BuildSchedulingGraphFrom_map (ir : HGraph) (isB : Nat → Bool)
    (Accept : Nat → SchedulingLatencyVisitor → Option SchedulingLatencyVisitor) (bid : Nat)
    (rest : List Nat) :
    ∀ (done : List Nat) (g : SchedulingGraph) (nodes : List Nat) (v : SchedulingLatencyVisitor)
      (r : SchedulingGraph × List Nat),
      GraphBuilt ir isB done g nodes → done.length + rest.length < 2147483648 →
      (done ++ rest).Nodup → g.nodes_map_ = done.zip (List.range done.length) →
      BuildSchedulingGraphFrom ir isB Accept bid rest g nodes v = Except.ok r →
      r.1.nodes_map_ = (done ++ rest).zip (List.range (done ++ rest).length) := by
  induction rest with
  | nil =>
    intro done g nodes v r _ _ _ hmap hr
    simp only [BuildSchedulingGraphFrom, Except.ok.injEq] at hr
    subst hr
    simpa using hmap
  | cons x t ih =>
    intro done g nodes v r hb hN hnd hmap hr
    simp only [List.length_cons] at hN
    unfold BuildSchedulingGraphFrom at hr
    split at hr
    · exact absurd hr (by simp)
    · simp only [] at hr
      split at hr
      · exact absurd hr (by simp)
      · next visited _ =>
        have hstep := graphBuilt_step ir isB done g nodes x
          (fun n => (n.SetLatency visited.last_visited_latency_).SetInternalLatency
            visited.last_visited_internal_latency_)
          (fun _ => rfl) (fun _ => rfl) (fun _ => rfl) (fun _ => rfl) (fun _ => rfl) hb
          (by omega)
        have hlen : g.arena.length = done.length := by
          rw [← hb.instrs, List.length_map]
        have hx : x ∉ g.nodes_map_.map Prod.fst := by
          rw [hmap]
          intro hmem
          have hxd : x ∈ done := by
            obtain ⟨kv, hkv, hk⟩ := List.mem_map.mp hmem
            rw [← hk]
            exact (List.of_mem_zip hkv).1
          have hdisj := (List.nodup_append.mp hnd).2.2
          exact hdisj hxd (List.mem_cons_self _ _)
        have hmap2 : (g.AddNode ir x (isB x)).1.nodes_map_
            = (done ++ [x]).zip (List.range (done ++ [x]).length) := by
          rw [nodes_map_AddNode ir g x (isB x) hx, hmap, hlen, List.length_append,
            List.length_singleton, List.range_succ,
            List.zip_append (by simp)]
          rfl
        have := ih (done ++ [x]) _ _ visited r hstep
          (by simp only [List.length_append, List.length_singleton]; omega)
          (by simpa using hnd) hmap2 hr
        simpa using this

theorem BuildSchedulingGraph_map (ir : HGraph) (isB : Nat → Bool)
    (Accept : Nat → SchedulingLatencyVisitor → Option SchedulingLatencyVisitor)
    (block : HBasicBlock) (v : SchedulingLatencyVisitor) (r : SchedulingGraph × List Nat)
    (hN : block.instructions.length < 2147483648) (hnd : block.instructions.Nodup)
    (hr : BuildSchedulingGraph ir isB Accept block v = some r) :
    r.1.nodes_map_ = block.instructions.reverse.zip (List.range block.instructions.length) := by
  rw [BuildSchedulingGraph_eq_some] at hr
  unfold BuildSchedulingGraphOutcome at hr
  have := BuildSchedulingGraphFrom_map ir isB Accept block.block_id
    block.instructions.reverse [] SchedulingGraph.new [] v r (graphBuilt_nil ir isB)
    (by simpa using hN) (by simpa using hnd) rfl hr
  simpa using this

theorem BuildSchedulingGraph_Size (ir : HGraph) (isB : Nat → Bool)
    (Accept : Nat → SchedulingLatencyVisitor → Option SchedulingLatencyVisitor)
    (block : HBasicBlock) (v : SchedulingLatencyVisitor) (r : SchedulingGraph × List Nat)
    (hN : block.instructions.length < 2147483648) (hnd : block.instructions.Nodup)
    (hr : BuildSchedulingGraph ir isB Accept block v = some r) :
    r.1.Size = block.instructions.length := by
  unfold SchedulingGraph.Size
  rw [BuildSchedulingGraph_map ir isB Accept block v r hN hnd hr]
  simp

theorem instrAt_eq_block (ir : HGraph) (isB : Nat → Bool) (block : HBasicBlock)
    (built : SchedulingGraph × List Nat)
    (hb : GraphBuilt ir isB block.instructions.reverse built.1 built.2) (h : Nat)
    (hh : h < block.instructions.length) :
    instrAt built.1.arena h
      = block.instructions.getD (block.instructions.length - 1 - h) 0 := by
  unfold instrAt
  rw [instruction_eq_getD _ _ hb.instrs,
    List.getD_eq_getElem _ _ (show h < block.instructions.reverse.length by simpa using hh),
    List.getElem_reverse,
    List.getD_eq_getElem _ _ (show block.instructions.length - 1 - h
      < block.instructions.length by omega)]

theorem order_of_position {σ : Type} (ir : HGraph) (isB : Nat → Bool) (block : HBasicBlock)
    (built : SchedulingGraph × List Nat)
    (hb : GraphBuilt ir isB block.instructions.reverse built.1 built.2)
    (st : ScheduleState σ) (hfin : Finished built.1.arena block st) (x y : Nat)
    (hy : y ∈ block.instructions)
    (hxy : block.instructions.indexOf x < block.instructions.indexOf y)
    (hdep : DependsOn ir isB y x = true) :
    st.instructions.indexOf x < st.instructions.indexOf y := by
  have hlen : built.1.arena.length = block.instructions.length := by
    have := congrArg List.length hb.instrs
    simpa using this
  have hyi : block.instructions.indexOf y < block.instructions.length :=
    List.indexOf_lt_length.mpr hy
  have hxi : block.instructions.indexOf x < block.instructions.length := by omega
  have ex : instrAt built.1.arena
      (block.instructions.length - 1 - block.instructions.indexOf x) = x := by
    rw [instrAt_eq_block ir isB block built hb _ (by omega),
      List.getD_eq_getElem _ _ (by omega)]
    have : block.instructions.length - 1
        - (block.instructions.length - 1 - block.instructions.indexOf x)
        = block.instructions.indexOf x := by omega
    simp only [this]
    exact List.getElem_indexOf hxi
  have ey : instrAt built.1.arena
      (block.instructions.length - 1 - block.instructions.indexOf y) = y := by
    rw [instrAt_eq_block ir isB block built hb _ (by omega),
      List.getD_eq_getElem _ _ (by omega)]
    have : block.instructions.length - 1
        - (block.instructions.length - 1 - block.instructions.indexOf y)
        = block.instructions.indexOf y := by omega
    simp only [this]
    exact List.getElem_indexOf hyi
  have hedge := hb.edges (block.instructions.length - 1 - block.instructions.indexOf y)
    (block.instructions.length - 1 - block.instructions.indexOf x) (by omega)
    (by simp only [List.length_reverse]; omega)
    (by
      rw [← instruction_eq_getD _ _ hb.instrs, ← instruction_eq_getD _ _ hb.instrs]
      unfold instrAt at ex ey
      rw [ex, ey]
      exact hdep)
  have := hfin.order _ _ (by rw [hlen]; omega) hedge
  rw [ex, ey] at this
  exact this

theorem chain_scheduled (n : Nat) (sched : List Nat) (hperm : sched.Perm (List.range n))
    (hidx : ∀ k, k + 1 < n → sched.indexOf (k + 1) < sched.indexOf k) :
    sched = (List.range n).reverse := by
  have hnd : sched.Nodup := hperm.nodup_iff.mpr (List.nodup_range n)
  have hmem : ∀ x, x ∈ sched ↔ x < n := fun x => hperm.mem_iff.trans List.mem_range
  have hlt : ∀ d x, x + d + 1 < n → sched.indexOf (x + d + 1) < sched.indexOf x := by
    intro d
    induction d with
    | zero =>
      intro x hx
      exact hidx x hx
    | succ d ih =>
      intro x hx
      have h1 := ih x (by omega)
      have h2 := hidx (x + d + 1) (by omega)
      have : x + (d + 1) + 1 = x + d + 1 + 1 := by omega
      rw [this]
      omega
  have hsorted : List.Sorted (· > ·) sched := by
    unfold List.Sorted
    rw [List.pairwise_iff_getElem]
    intro i j hi hj hij
    by_contra hle
    have hne : sched[i] ≠ sched[j] := by
      intro e
      have := (List.Nodup.getElem_inj_iff hnd).mp e
      omega
    have hlt2 : sched[i] < sched[j] := by omega
    have hjn : sched[j] < n := (hmem _).mp (List.getElem_mem hj)
    have := hlt (sched[j] - sched[i] - 1) sched[i] (by omega)
    have e : sched[i] + (sched[j] - sched[i] - 1) + 1 = sched[j] := by omega
    rw [e, List.indexOf_getElem hnd, List.indexOf_getElem hnd] at this
    omega
  have hsorted2 : List.Sorted (· > ·) (List.range n).reverse := by
    unfold List.Sorted
    rw [List.pairwise_reverse]
    exact List.pairwise_lt_range n
  exact List.eq_of_perm_of_sorted (hperm.trans (List.reverse_perm _).symm) hsorted hsorted2

theorem chain_order {σ : Type} (ir : HGraph) (isB : Nat → Bool) (block : HBasicBlock)
    (built : SchedulingGraph × List Nat)
    (hb : GraphBuilt ir isB block.instructions.reverse built.1 built.2)
    (hnodup : block.instructions.Nodup)
    (st : ScheduleState σ) (hfin : Finished built.1.arena block st)
    (hchain : ∀ k, k + 1 < built.1.arena.length → (k + 1) ∈ predsAt built.1.arena k) :
    st.instructions = block.instructions := by
  have hinj := instrAt_inj ir isB block built hb hnodup
  have hmem : ∀ x, x ∈ st.scheduled ↔ x < built.1.arena.length := fun x =>
    hfin.scheduled.mem_iff.trans List.mem_range
  have hsched := chain_scheduled built.1.arena.length st.scheduled hfin.scheduled (by
    intro k hk
    have := hfin.order k (k + 1) (by omega) (hchain k hk)
    rw [hfin.instructions,
      indexOf_map_of_inj _ _ (k + 1) (fun y hy e => hinj y (k + 1) ((hmem y).mp hy) hk e),
      indexOf_map_of_inj _ _ k (fun y hy e => hinj y k ((hmem y).mp hy) (by omega) e)]
      at this
    exact this)
  rw [hfin.instructions, hsched, List.map_reverse, map_instrAt_range, hb.instrs,
    List.reverse_reverse]

theorem ScheduleLoop_mono {σ : Type} (selector_ : SchedulingNodeSelector σ) (fuel : Nat) :
    ∀ (st r : ScheduleState σ), ScheduleLoop selector_ fuel st = some r →
      ∀ k, ScheduleLoop selector_ (fuel + k) st = some r := by
  induction fuel with
  | zero =>
    intro st r h k
    unfold ScheduleLoop at h
    split at h
    · next hempty =>
      unfold ScheduleLoop
      rw [if_pos hempty]
      exact h
    · exact absurd h (by simp)
  | succ n ih =>
    intro st r h k
    unfold ScheduleLoop at h
    split at h
    · next hempty =>
      unfold ScheduleLoop
      rw [if_pos hempty]
      exact h
    · next hne =>
      have e : n + 1 + k = (n + k) + 1 := by omega
      rw [e]
      unfold ScheduleLoop
      rw [if_neg hne]
      exact ih _ r h k

theorem Schedule_mono {σ : Type} (self : HScheduler σ) (ir : HGraph) (block : HBasicBlock)
    (s : σ) (fuel : Nat) (r : ScheduleState σ) (h : self.Schedule ir block s fuel = some r)
    (k : Nat) : self.Schedule ir block s (fuel + k) = some r := by
  unfold HScheduler.Schedule at h ⊢
  split at h
  · exact absurd h (by simp)
  · exact ScheduleLoop_mono self.selector_ fuel _ r h k

theorem reverse_getD (ir : HGraph) (isB : Nat → Bool) (block : HBasicBlock)
    (built : SchedulingGraph × List Nat)
    (hb : GraphBuilt ir isB block.instructions.reverse built.1 built.2) (h : Nat)
    (hh : h < block.instructions.length) :
    block.instructions.reverse.getD h 0
      = block.instructions.getD (block.instructions.length - 1 - h) 0 := by
  rw [← instrAt_eq_block ir isB block built hb h hh]
  unfold instrAt
  rw [instruction_eq_getD _ _ hb.instrs]

theorem schedule_chain_general {σ : Type} (self : HScheduler σ) (ir : HGraph)
    (block : HBasicBlock) (s : σ) (built : SchedulingGraph × List Nat) (fuel : Nat)
    (hbuild : BuildSchedulingGraph ir self.IsSchedulingBarrier self.Accept block
      SchedulingLatencyVisitor.new = some built)
    (hnodup : block.instructions.Nodup) (hN : block.instructions.length < 2147483648)
    (hsel : SelectorContract self.selector_) (hfuel : block.instructions.length ≤ fuel)
    (hchain : ∀ k, k < block.instructions.length - 1 →
      DependsOn ir self.IsSchedulingBarrier (block.instructions.getD (k + 1) 0)
        (block.instructions.getD k 0) = true) :
    ∃ st, self.Schedule ir block s fuel = some st
      ∧ st.instructions = block.instructions := by
  have hb := BuildSchedulingGraph_spec ir self.IsSchedulingBarrier self.Accept block
    SchedulingLatencyVisitor.new built hN hbuild
  have hlen : built.1.arena.length = block.instructions.length := by
    have := congrArg List.length hb.instrs
    simpa using this
  obtain ⟨st, h1, hfin, _⟩ :=
    (Schedule_master self ir block s built hbuild hnodup hN hsel fuel).1 hfuel
  refine ⟨st, h1, ?_⟩
  apply chain_order ir self.IsSchedulingBarrier block built hb hnodup st hfin
  intro k hk
  rw [hlen] at hk
  apply hb.edges k (k + 1) (by omega) (by simpa using hk)
  rw [reverse_getD ir self.IsSchedulingBarrier block built hb k (by omega),
    reverse_getD ir self.IsSchedulingBarrier block built hb (k + 1) hk]
  have := hchain (block.instructions.length - 1 - (k + 1)) (by omega)
  have e : block.instructions.length - 1 - (k + 1) + 1 = block.instructions.length - 1 - k := by
    omega
  rw [e] at this
  exact this

theorem ScheduleNode_candidates {σ : Type} (st : ScheduleState σ) (c : Nat)
    (arena : List SchedulingNode) (cands : List Nat) (h1 : st.graph.arena = arena)
    (h2 : st.candidates = cands) :
    (ScheduleNode st c).candidates
      = ((nodeAt arena c).other_predecessors_.foldl (VisitPredecessor none)
          ((nodeAt arena c).data_predecessors_.foldl
            (VisitPredecessor (some (((nodeAt arena c).internal_latency_
              + (nodeAt arena c).critical_path_) % kUint32Modulus)))
            (arena, cands))).2 := by
  subst h1 h2
  rfl

theorem exampleBuilt_eq :
    BuildSchedulingGraph exampleIR (fun _ => false) genericAccept exampleBlock
      SchedulingLatencyVisitor.new = some exampleBuilt := by
  decide

/-- C1, topological validity.  For a block whose graph `BuildSchedulingGraph` built, for
every selector that keeps the contract of `PopHighestPriorityNode`, and with enough
iterations allowed, `HScheduler::Schedule(block)` returns, and for every node `s` of the
graph and every `p` in the data or other predecessors of `s`, the instruction of `p` is
placed before the instruction of `s` in the final order of the block. -/
theorem schedule_topological_validity {σ : Type} (self : HScheduler σ) (ir : HGraph)
    (block : HBasicBlock) (selector_state : σ) (built : SchedulingGraph × List Nat)
    (fuel : Nat)
    (hbuild : BuildSchedulingGraph ir self.IsSchedulingBarrier self.Accept block
      SchedulingLatencyVisitor.new = some built)
    (hnodup : block.instructions.Nodup) (hN : block.instructions.length < 2147483648)
    (hsel : SelectorContract self.selector_) (hfuel : block.instructions.length ≤ fuel) :
    ∃ st, self.Schedule ir block selector_state fuel = some st
      ∧ ∀ s p, s ∈ built.2 →
          (p ∈ (nodeAt built.1.arena s).data_predecessors_
            ∨ p ∈ (nodeAt built.1.arena s).other_predecessors_) →
          st.instructions.indexOf (nodeAt built.1.arena p).instruction_
              < st.instructions.indexOf (nodeAt built.1.arena s).instruction_
            ∧ (nodeAt built.1.arena s).instruction_ ∈ st.instructions := by
  have hb := BuildSchedulingGraph_spec ir self.IsSchedulingBarrier self.Accept block
    SchedulingLatencyVisitor.new built hN hbuild
  have hlen : built.1.arena.length = block.instructions.length := by
    have := congrArg List.length hb.instrs
    simpa using this
  obtain ⟨st, h1, hfin, _⟩ :=
    (Schedule_master self ir block selector_state built hbuild hnodup hN hsel fuel).1 hfuel
  refine ⟨st, h1, ?_⟩
  intro s p hs hp
  have hsN : s < built.1.arena.length := by
    rw [hb.nodes_eq] at hs
    rw [hlen]
    simpa using hs
  have hmem : p ∈ predsAt built.1.arena s := by
    unfold predsAt SchedulingNode.predecessors
    exact List.mem_append.mpr hp
  refine ⟨hfin.order s p hsN hmem, ?_⟩
  rw [hfin.instructions]
  exact List.mem_map_of_mem _ (hfin.scheduled.mem_iff.mpr (List.mem_range.mpr hsN))

/-- Witness of C1 on the example of the header with the random selector: `i2` (node 1) is a
data predecessor of `i3` (node 0) and ends before it. -/
theorem schedule_topological_validity_witness :
    ∃ st, (exampleScheduler (RandomSchedulingNodeSelector (constantDraw 1))).Schedule
        exampleIR exampleBlock 0 3 = some st
      ∧ st.instructions.indexOf 2 < st.instructions.indexOf 3 := by
  obtain ⟨st, h1, h2⟩ := schedule_topological_validity
    (exampleScheduler (RandomSchedulingNodeSelector (constantDraw 1))) exampleIR exampleBlock 0
    exampleBuilt 3 (by decide) (by decide) (by decide) (random_contract (constantDraw 1))
    (by decide)
  exact ⟨st, h1, (h2 0 1 (by decide) (Or.inl (by decide))).1⟩

/-- C2, conservation.  Under the same conditions the instruction sequence of the block
after `HScheduler::Schedule(block)` is a permutation of the sequence before it: nothing is
created, destroyed or duplicated. -/
theorem schedule_conservation {σ : Type} (self : HScheduler σ) (ir : HGraph)
    (block : HBasicBlock) (selector_state : σ) (built : SchedulingGraph × List Nat)
    (fuel : Nat)
    (hbuild : BuildSchedulingGraph ir self.IsSchedulingBarrier self.Accept block
      SchedulingLatencyVisitor.new = some built)
    (hnodup : block.instructions.Nodup) (hN : block.instructions.length < 2147483648)
    (hsel : SelectorContract self.selector_) (hfuel : block.instructions.length ≤ fuel) :
    ∃ st, self.Schedule ir block selector_state fuel = some st
      ∧ st.instructions.Perm block.instructions
      ∧ st.instructions.Nodup
      ∧ st.instructions.length = block.instructions.length := by
  obtain ⟨st, h1, hfin, _⟩ :=
    (Schedule_master self ir block selector_state built hbuild hnodup hN hsel fuel).1 hfuel
  exact ⟨st, h1, hfin.perm, hfin.perm.nodup_iff.mpr hnodup, hfin.perm.length_eq⟩

/-- Witness of C2 on the example of the header with the critical-path selector. -/
theorem schedule_conservation_witness :
    ∃ st, (exampleScheduler (CriticalPathSchedulingNodeSelector exampleIR)).Schedule
        exampleIR exampleBlock none 3 = some st
      ∧ st.instructions.Perm [1, 2, 3] := by
  obtain ⟨st, h1, h2, _⟩ := schedule_conservation
    (exampleScheduler (CriticalPathSchedulingNodeSelector exampleIR)) exampleIR exampleBlock
    none exampleBuilt 3 (by decide) (by decide) (by decide) (critical_path_contract exampleIR)
    (by decide)
  exact ⟨st, h1, h2⟩

/-- C3, barrier invariance.  Under the same conditions, for every node of the graph with
`is_scheduling_barrier_ = true` and every instruction `x` of the block: if `x` preceded
the barrier instruction in the original order it precedes it in the scheduled order, and
if it followed it, it still follows it. -/
theorem schedule_barrier_invariance {σ : Type} (self : HScheduler σ) (ir : HGraph)
    (block : HBasicBlock) (selector_state : σ) (built : SchedulingGraph × List Nat)
    (fuel : Nat)
    (hbuild : BuildSchedulingGraph ir self.IsSchedulingBarrier self.Accept block
      SchedulingLatencyVisitor.new = some built)
    (hnodup : block.instructions.Nodup) (hN : block.instructions.length < 2147483648)
    (hsel : SelectorContract self.selector_) (hfuel : block.instructions.length ≤ fuel) :
    ∃ st, self.Schedule ir block selector_state fuel = some st
      ∧ ∀ b, b ∈ built.2 → (nodeAt built.1.arena b).is_scheduling_barrier_ = true →
          ∀ x, x ∈ block.instructions →
            (block.instructions.indexOf x
                < block.instructions.indexOf (nodeAt built.1.arena b).instruction_ →
              st.instructions.indexOf x
                < st.instructions.indexOf (nodeAt built.1.arena b).instruction_)
            ∧ (block.instructions.indexOf (nodeAt built.1.arena b).instruction_
                < block.instructions.indexOf x →
              st.instructions.indexOf (nodeAt built.1.arena b).instruction_
                < st.instructions.indexOf x) := by
  have hb := BuildSchedulingGraph_spec ir self.IsSchedulingBarrier self.Accept block
    SchedulingLatencyVisitor.new built hN hbuild
  have hlen : built.1.arena.length = block.instructions.length := by
    have := congrArg List.length hb.instrs
    simpa using this
  obtain ⟨st, h1, hfin, _⟩ :=
    (Schedule_master self ir block selector_state built hbuild hnodup hN hsel fuel).1 hfuel
  refine ⟨st, h1, ?_⟩
  intro b hbmem hflag x hx
  have hbN : b < block.instructions.length := by
    rw [hb.nodes_eq] at hbmem
    simpa using hbmem
  have hisB : self.IsSchedulingBarrier (nodeAt built.1.arena b).instruction_ = true := by
    rw [instruction_eq_getD _ _ hb.instrs, ← hb.barrier b (by simpa using hbN)]
    exact hflag
  have hbin : (nodeAt built.1.arena b).instruction_ ∈ block.instructions := by
    have := instrAt_eq_block ir self.IsSchedulingBarrier block built hb b hbN
    unfold instrAt at this
    rw [this, List.getD_eq_getElem _ _ (by omega)]
    exact List.getElem_mem _
  constructor
  · intro hlt
    exact order_of_position ir self.IsSchedulingBarrier block built hb st hfin x _ hbin hlt
      (by unfold DependsOn; simp [hisB])
  · intro hlt
    exact order_of_position ir self.IsSchedulingBarrier block built hb st hfin _ x hx hlt
      (by unfold DependsOn; simp [hisB])

/-- Witness of C3: with `i2` a barrier in the example block, `i1` stays before `i2` and `i3`
stays after it. -/
theorem schedule_barrier_invariance_witness :
    ∃ st, (barrierScheduler (RandomSchedulingNodeSelector (constantDraw 1))).Schedule
        exampleIR exampleBlock 0 3 = some st
      ∧ st.instructions.indexOf 1 < st.instructions.indexOf 2
      ∧ st.instructions.indexOf 2 < st.instructions.indexOf 3 := by
  obtain ⟨st, h1, h2⟩ := schedule_barrier_invariance
    (barrierScheduler (RandomSchedulingNodeSelector (constantDraw 1))) exampleIR exampleBlock 0
    barrierBuilt 3 (by decide) (by decide) (by decide) (random_contract (constantDraw 1))
    (by decide)
  exact ⟨st, h1, (h2 1 (by decide) (by decide) 1 (by decide)).1 (by decide),
    (h2 1 (by decide) (by decide) 3 (by decide)).2 (by decide)⟩

/-- C4, termination.  On a graph produced by `BuildSchedulingGraph`, whose predecessor
relation is acyclic (a predecessor always has a larger handle than its successor), the
scheduling loop ends after exactly `Size()` selector pops: `Size()` iterations suffice,
fewer do not, and the state it ends in has no candidate left and has popped every node of
the graph exactly once. -/
theorem schedule_termination {σ : Type} (self : HScheduler σ) (ir : HGraph)
    (block : HBasicBlock) (selector_state : σ) (built : SchedulingGraph × List Nat)
    (hbuild : BuildSchedulingGraph ir self.IsSchedulingBarrier self.Accept block
      SchedulingLatencyVisitor.new = some built)
    (hnodup : block.instructions.Nodup) (hN : block.instructions.length < 2147483648)
    (hsel : SelectorContract self.selector_) :
    (∀ s p, s ∈ built.2 →
        (p ∈ (nodeAt built.1.arena s).data_predecessors_
          ∨ p ∈ (nodeAt built.1.arena s).other_predecessors_) → s < p ∧ p ∈ built.2)
      ∧ ∃ st,
          (∀ fuel, built.1.Size ≤ fuel →
            self.Schedule ir block selector_state fuel = some st)
          ∧ (∀ fuel, fuel < built.1.Size →
            self.Schedule ir block selector_state fuel = none)
          ∧ st.candidates = []
          ∧ st.scheduled.length = built.1.Size
          ∧ st.scheduled.Perm built.2
          ∧ st.scheduled.Nodup := by
  have hb := BuildSchedulingGraph_spec ir self.IsSchedulingBarrier self.Accept block
    SchedulingLatencyVisitor.new built hN hbuild
  have hlen : built.1.arena.length = block.instructions.length := by
    have := congrArg List.length hb.instrs
    simpa using this
  have hsize := BuildSchedulingGraph_Size ir self.IsSchedulingBarrier self.Accept block
    SchedulingLatencyVisitor.new built hN hnodup hbuild
  have hnodes : built.2 = List.range built.1.arena.length := by
    rw [hb.nodes_eq, List.length_reverse, hlen]
  constructor
  · intro s p hs hp
    rw [hnodes] at hs ⊢
    have hmem : p ∈ predsAt built.1.arena s := by
      unfold predsAt SchedulingNode.predecessors
      exact List.mem_append.mpr hp
    have := hb.wf.later s (List.mem_range.mp hs) p hmem
    exact ⟨this.1, List.mem_range.mpr this.2⟩
  · obtain ⟨st, h1, hfin, h3⟩ :=
      (Schedule_master self ir block selector_state built hbuild hnodup hN hsel
        block.instructions.length).1 (Nat.le_refl _)
    refine ⟨st, ?_, ?_, hfin.candidates, ?_, ?_, ?_⟩
    · intro fuel hfuel
      rw [hsize] at hfuel
      have := Schedule_mono self ir block selector_state _ st h1
        (fuel - block.instructions.length)
      rw [Nat.add_sub_cancel' hfuel] at this
      exact this
    · intro fuel hfuel
      rw [hsize] at hfuel
      exact (Schedule_master self ir block selector_state built hbuild hnodup hN hsel fuel).2
        hfuel
    · rw [h3, hsize]
    · rw [hnodes]
      exact hfin.scheduled
    · exact hfin.scheduled.nodup_iff.mpr (List.nodup_range _)

/-- Witness of C4 on the example of the header: three pops, not two. -/
theorem schedule_termination_witness :
    ∃ st, (exampleScheduler (RandomSchedulingNodeSelector (constantDraw 0))).Schedule
        exampleIR exampleBlock 0 3 = some st
      ∧ (exampleScheduler (RandomSchedulingNodeSelector (constantDraw 0))).Schedule
        exampleIR exampleBlock 0 2 = none
      ∧ st.candidates = [] ∧ st.scheduled.length = 3 := by
  obtain ⟨_, st, h1, h2, h3, h4, _⟩ := schedule_termination
    (exampleScheduler (RandomSchedulingNodeSelector (constantDraw 0))) exampleIR exampleBlock 0
    exampleBuilt (by decide) (by decide) (by decide) (random_contract (constantDraw 0))
  exact ⟨st, h1 3 (by decide), h2 2 (by decide), h3, h4⟩

/-- C6, idempotence on a linear chain.  For a block in which each instruction depends on
the immediately preceding one, scheduling returns exactly the original order, with the
random selector for every `rand_r` (every sequence of draws) and every seed, and with the
critical-path selector. -/
theorem schedule_linear_chain (ir : HGraph) (IsSchedulingBarrier : Nat → Bool)
    (Accept : Nat → SchedulingLatencyVisitor → Option SchedulingLatencyVisitor)
    (block : HBasicBlock) (built : SchedulingGraph × List Nat) (fuel : Nat)
    (hbuild : BuildSchedulingGraph ir IsSchedulingBarrier Accept block
      SchedulingLatencyVisitor.new = some built)
    (hnodup : block.instructions.Nodup) (hN : block.instructions.length < 2147483648)
    (hfuel : block.instructions.length ≤ fuel)
    (hchain : ∀ k, k < block.instructions.length - 1 →
      DependsOn ir IsSchedulingBarrier (block.instructions.getD (k + 1) 0)
        (block.instructions.getD k 0) = true) :
    (∀ (rand_r : Nat → Nat × Nat) (seed_ : Nat),
        ∃ st, (HScheduler.new (RandomSchedulingNodeSelector rand_r) IsSchedulingBarrier
            Accept).Schedule ir block seed_ fuel = some st
          ∧ st.instructions = block.instructions)
      ∧ (∀ prev_select_ : Option Nat,
        ∃ st, (HScheduler.new (CriticalPathSchedulingNodeSelector ir) IsSchedulingBarrier
            Accept).Schedule ir block prev_select_ fuel = some st
          ∧ st.instructions = block.instructions) := by
  constructor
  · intro rand_r seed_
    exact schedule_chain_general
      (HScheduler.new (RandomSchedulingNodeSelector rand_r) IsSchedulingBarrier Accept)
      ir block seed_ built fuel hbuild hnodup hN (random_contract rand_r) hfuel hchain
  · intro prev_select_
    exact schedule_chain_general
      (HScheduler.new (CriticalPathSchedulingNodeSelector ir) IsSchedulingBarrier Accept)
      ir block prev_select_ built fuel hbuild hnodup hN (critical_path_contract ir) hfuel hchain

/-- Witness of C6 on a chain of four instructions. -/
theorem schedule_linear_chain_witness :
    (∃ st, (HScheduler.new (RandomSchedulingNodeSelector (constantDraw 5)) (fun _ => false)
          genericAccept).Schedule chainIR chainBlock 7 4 = some st
        ∧ st.instructions = [1, 2, 3, 4])
      ∧ (∃ st, (HScheduler.new (CriticalPathSchedulingNodeSelector chainIR)
          (fun _ => false) genericAccept).Schedule chainIR chainBlock none 4 = some st
        ∧ st.instructions = [1, 2, 3, 4]) := by
  have h := schedule_linear_chain chainIR (fun _ => false) genericAccept chainBlock chainBuilt 4
    (by decide) (by decide) (by decide) (by decide) (by decide)
  exact ⟨h.1 (constantDraw 5) 7, h.2 none⟩

/-- C7, example 1 (`i1 = const 1`, `i2 = const 2`, `i3 = add(i1, i2)`).  Adding the nodes in
reverse order gives the handles 0, 1, 2 to `n3`, `n2`, `n1`; `n3` gets the data
predecessors `n2` and `n1`, which get an unscheduled-successor count of 1 while `n3` keeps
0, so `n3` is the only initial candidate; after the first pop both `n1` and `n2` are
candidates; every selector that keeps its contract ends with `i3` last, the order being
`i1,i2,i3` or `i2,i1,i3`, and the random selector reaches both. -/
theorem header_example :
    BuildSchedulingGraph exampleIR (fun _ => false) genericAccept exampleBlock
        SchedulingLatencyVisitor.new = some exampleBuilt
      ∧ exampleBuilt.2 = [0, 1, 2]
      ∧ exampleBuilt.1.arena.map SchedulingNode.instruction_ = [3, 2, 1]
      ∧ (nodeAt exampleBuilt.1.arena 0).data_predecessors_ = [1, 2]
      ∧ exampleBuilt.1.arena.map SchedulingNode.num_unscheduled_successors_ = [0, 1, 1]
      ∧ (∀ (σ : Type) (selector_ : SchedulingNodeSelector σ) (s : σ),
          (InitialScheduleState selector_ exampleBlock s exampleBuilt).candidates = [0])
      ∧ (∀ (σ : Type) (selector_ : SchedulingNodeSelector σ) (s : σ),
          SelectorContract selector_ →
          (ScheduleStep selector_
            (InitialScheduleState selector_ exampleBlock s exampleBuilt)).candidates = [1, 2])
      ∧ (∀ (σ : Type) (selector_ : SchedulingNodeSelector σ) (s : σ) (fuel : Nat),
          SelectorContract selector_ → 3 ≤ fuel →
          ∃ st, (exampleScheduler selector_).Schedule exampleIR exampleBlock s fuel = some st
            ∧ st.instructions.getLast? = some 3
            ∧ (st.instructions = [1, 2, 3] ∨ st.instructions = [2, 1, 3]))
      ∧ ((exampleScheduler (RandomSchedulingNodeSelector (constantDraw 0))).Schedule
          exampleIR exampleBlock 0 3).map (fun st => st.instructions) = some [1, 2, 3]
      ∧ ((exampleScheduler (RandomSchedulingNodeSelector (constantDraw 1))).Schedule
          exampleIR exampleBlock 0 3).map (fun st => st.instructions) = some [2, 1, 3] := by
  refine ⟨by decide, by decide, by decide, by decide, by decide, ?_, ?_, ?_, by decide,
    by decide⟩
  · intro σ selector_ s
    rfl
  · intro σ selector_ s hsel
    have hperm := hsel (InitialScheduleState selector_ exampleBlock s exampleBuilt).selector_state
      [0] (InitialScheduleState selector_ exampleBlock s exampleBuilt).graph (by simp)
    have hcons := List.cons.inj (List.singleton_perm.mp hperm)
    have hinit : (InitialScheduleState selector_ exampleBlock s exampleBuilt).candidates
        = [0] := rfl
    unfold ScheduleStep
    simp only [hinit]
    rw [← hcons.1]
    rw [ScheduleNode_candidates _ 0
      (exampleBuilt.2.foldl SeedCandidates (exampleBuilt.1.arena, [])).1 [] rfl hcons.2.symm]
    decide
  · intro σ selector_ s fuel hsel hfuel
    obtain ⟨st, h1, hfin, _⟩ := (Schedule_master (exampleScheduler selector_) exampleIR
      exampleBlock s exampleBuilt exampleBuilt_eq (by decide) (by decide) hsel fuel).1 hfuel
    have h13 := hfin.order 0 2 (by decide) (by decide)
    have h23 := hfin.order 0 1 (by decide) (by decide)
    have e0 : instrAt exampleBuilt.1.arena 0 = 3 := by decide
    have e1 : instrAt exampleBuilt.1.arena 1 = 2 := by decide
    have e2 : instrAt exampleBuilt.1.arena 2 = 1 := by decide
    rw [e0, e2] at h13
    rw [e0, e1] at h23
    have hperm : st.instructions.Perm [1, 2, 3] := hfin.perm
    have hnd : st.instructions.Nodup := hperm.nodup_iff.mpr (by decide)
    have hlen : st.instructions.length = 3 := hperm.length_eq
    have hcases : st.instructions = [1, 2, 3] ∨ st.instructions = [2, 1, 3] := by
      generalize st.instructions = l at h13 h23 hperm hnd hlen
      match l, hlen with
      | [a, b, c], _ =>
        have ha : a ∈ [1, 2, 3] := hperm.mem_iff.mp (by simp)
        have hb : b ∈ [1, 2, 3] := hperm.mem_iff.mp (by simp)
        have hc : c ∈ [1, 2, 3] := hperm.mem_iff.mp (by simp)
        simp only [List.mem_cons, List.mem_singleton, List.not_mem_nil, or_false] at ha hb hc
        rcases ha with rfl | rfl | rfl <;> rcases hb with rfl | rfl | rfl <;>
          rcases hc with rfl | rfl | rfl <;>
          first
            | exact Or.inl rfl
            | exact Or.inr rfl
            | exact absurd hnd (by decide)
            | exact absurd h13 (by decide)
            | exact absurd h23 (by decide)
    refine ⟨st, h1, ?_, hcases⟩
    rcases hcases with h | h <;> rw [h] <;> rfl

/-- Witness of C7 for the random selector that always draws 1. -/
theorem header_example_witness :
    ∃ st, (exampleScheduler (RandomSchedulingNodeSelector (constantDraw 1))).Schedule
        exampleIR exampleBlock 0 3 = some st
      ∧ st.instructions.getLast? = some 3 := by
  obtain ⟨st, h1, h2, _⟩ := header_example.2.2.2.2.2.2.2.1 Nat
    (RandomSchedulingNodeSelector (constantDraw 1)) 0 3 (random_contract (constantDraw 1))
    (by decide)
  exact ⟨st, h1, h2⟩

/-! ## `SideEffectDependencyAnalysis` and `SchedulingNode` (C8 to C10) -/

/-- C8.  `HasSideEffectDependency(a, b)` is true exactly when `HasMemoryDependency(a, b)` or
`HasExceptionDependency(a, b)` is; and when one of the two instructions can throw and the
other writes memory, in either argument order, it is true whatever the alias analysis
answers, also when it proves the locations disjoint and there is no memory dependency. -/
theorem HasSideEffectDependency_spec (ir : HGraph) (a b : Nat) :
    HasSideEffectDependency ir a b
        = (HasMemoryDependency ir a b || HasExceptionDependency ir a b)
      ∧ ((ir.CanThrow a = true ∧ ir.DoesAnyWrite b = true)
          ∨ (ir.CanThrow b = true ∧ ir.DoesAnyWrite a = true) →
        HasSideEffectDependency ir a b = true
          ∧ (ir.MayAlias a b = false →
            HasMemoryDependency ir a b = false ∧ HasSideEffectDependency ir a b = true)) := by
  have h1 : HasSideEffectDependency ir a b
      = (HasMemoryDependency ir a b || HasExceptionDependency ir a b) := by
    unfold HasSideEffectDependency
    cases HasMemoryDependency ir a b <;> cases HasExceptionDependency ir a b <;> rfl
  refine ⟨h1, ?_⟩
  intro h
  have hexc : HasExceptionDependency ir a b = true := by
    unfold HasExceptionDependency
    rcases h with ⟨h2, h3⟩ | ⟨h2, h3⟩
    · simp [h2, h3]
    · simp [h2, h3]
  have hside : HasSideEffectDependency ir a b = true := by
    rw [h1, hexc, Bool.or_true]
  refine ⟨hside, ?_⟩
  intro hal
  refine ⟨?_, hside⟩
  unfold HasMemoryDependency
  rw [hal, Bool.and_false]

/-- Witness of C8: a throwing instruction and a store that the alias analysis proves
disjoint are dependent in both argument orders, with no memory dependency. -/
theorem HasSideEffectDependency_spec_witness :
    HasSideEffectDependency throwStoreIR 1 2 = true
      ∧ HasSideEffectDependency throwStoreIR 2 1 = true
      ∧ HasMemoryDependency throwStoreIR 1 2 = false := by
  have h12 := (HasSideEffectDependency_spec throwStoreIR 1 2).2 (Or.inl ⟨rfl, rfl⟩)
  have h21 := (HasSideEffectDependency_spec throwStoreIR 2 1).2 (Or.inr ⟨rfl, rfl⟩)
  exact ⟨h12.1, h21.1, (h12.2 rfl).1⟩

/-- C9.  Adding the same predecessor twice is a no-op: `AddDataPredecessor(p)` on a node
that already has `p` in `data_predecessors_`, and `AddOtherPredecessor(p)` on a node that
already has `p` in `other_predecessors_`, return the arena unchanged, so both predecessor
lists of the node and the counter of `p` are unchanged; hence a second identical call on
a node of the arena changes nothing after the first. -/
theorem add_same_predecessor_twice (arena : List SchedulingNode) (self p : Nat) :
    (p ∈ (nodeAt arena self).data_predecessors_ → AddDataPredecessor arena self p = arena)
      ∧ (p ∈ (nodeAt arena self).other_predecessors_ →
          AddOtherPredecessor arena self p = arena)
      ∧ (self < arena.length →
          AddDataPredecessor (AddDataPredecessor arena self p) self p
            = AddDataPredecessor arena self p)
      ∧ (self < arena.length →
          AddOtherPredecessor (AddOtherPredecessor arena self p) self p
            = AddOtherPredecessor arena self p) := by
  have hd : ∀ a : List SchedulingNode, p ∈ (nodeAt a self).data_predecessors_ →
      AddDataPredecessor a self p = a := by
    intro a h
    rw [AddDataPredecessor_eq, if_pos h]
  have ho : ∀ a : List SchedulingNode, p ∈ (nodeAt a self).other_predecessors_ →
      AddOtherPredecessor a self p = a := by
    intro a h
    rw [AddOtherPredecessor_eq, if_pos (Or.inl h)]
  refine ⟨hd arena, ho arena, ?_, ?_⟩
  · intro hs
    by_cases h : p ∈ (nodeAt arena self).data_predecessors_
    · rw [hd arena h, hd arena h]
    · apply hd
      rw [AddDataPredecessor_eq, if_neg h, data_insertEdge]
      simp [hs]
  · intro hs
    by_cases h : p ∈ (nodeAt arena self).other_predecessors_
        ∨ p ∈ (nodeAt arena self).data_predecessors_
    · have e : AddOtherPredecessor arena self p = arena := by
        rw [AddOtherPredecessor_eq, if_pos h]
      rw [e, e]
    · apply ho
      rw [AddOtherPredecessor_eq, if_neg h, other_insertEdge]
      simp [hs]

/-- Witness of C9: the node 0 of `linkedArena` already has node 1 as data predecessor, the
node 0 of `otherLinkedArena` as other predecessor; the lists and the counter stay. -/
theorem add_same_predecessor_twice_witness :
    AddDataPredecessor linkedArena 0 1 = linkedArena
      ∧ AddOtherPredecessor otherLinkedArena 0 1 = otherLinkedArena
      ∧ (nodeAt (AddDataPredecessor linkedArena 0 1) 1).num_unscheduled_successors_ = 1 := by
  have h := add_same_predecessor_twice linkedArena 0 1
  have h2 := add_same_predecessor_twice otherLinkedArena 0 1
  exact ⟨h.1 (by decide), h2.2.1 (by decide), by rw [h.1 (by decide)]; decide⟩

/-- C10.  `AddOtherPredecessor(p)` on a node that already has `p` in `data_predecessors_`
changes nothing: the arena is returned as it was, so `p` is not appended to
`other_predecessors_` and the counter of `p` is not incremented. -/
theorem add_other_predecessor_of_data (arena : List SchedulingNode) (self p : Nat)
    (h : p ∈ (nodeAt arena self).data_predecessors_) :
    AddOtherPredecessor arena self p = arena
      ∧ (nodeAt (AddOtherPredecessor arena self p) self).other_predecessors_
          = (nodeAt arena self).other_predecessors_
      ∧ (nodeAt (AddOtherPredecessor arena self p) p).num_unscheduled_successors_
          = (nodeAt arena p).num_unscheduled_successors_ := by
  have e : AddOtherPredecessor arena self p = arena := by
    rw [AddOtherPredecessor_eq, if_pos (Or.inr h)]
  rw [e]
  exact ⟨rfl, rfl, rfl⟩

/-- Witness of C10 on `linkedArena`, whose node 0 has node 1 as data predecessor. -/
theorem add_other_predecessor_of_data_witness :
    1 ∈ (nodeAt linkedArena 0).data_predecessors_
      ∧ AddOtherPredecessor linkedArena 0 1 = linkedArena
      ∧ (nodeAt (AddOtherPredecessor linkedArena 0 1) 0).other_predecessors_ = []
      ∧ (nodeAt (AddOtherPredecessor linkedArena 0 1) 1).num_unscheduled_successors_ = 1 := by
  have h := add_other_predecessor_of_data linkedArena 0 1 (by decide)
  refine ⟨by decide, h.1, ?_, ?_⟩
  · rw [h.2.1]
    decide
  · rw [h.2.2]
    decide

/-! ## Lemmas on call sequences, on the abort of the construction and on the selectors -/

theorem nodeAt_FreshNodes (l : List (Nat × Bool)) (i : Nat) :
    (nodeAt (FreshNodes l) i).data_predecessors_ = []
      ∧ (nodeAt (FreshNodes l) i).other_predecessors_ = []
      ∧ (nodeAt (FreshNodes l) i).num_unscheduled_successors_ = 0 := by
  unfold nodeAt FreshNodes
  rw [List.getElem?_map]
  cases l[i]? <;> exact ⟨rfl, rfl, rfl⟩

theorem length_run (a : List SchedulingNode) (c : PredecessorCall) :
    (c.run a).length = a.length := by
  unfold PredecessorCall.run
  split
  · exact (extends_AddDataPredecessor a c.self c.predecessor).length
  · exact (extends_AddOtherPredecessor a c.self c.predecessor).length

theorem length_RunCalls (calls : List PredecessorCall) :
    ∀ a : List SchedulingNode, (RunCalls a calls).length = a.length := by
  induction calls with
  | nil => intro a; rfl
  | cons c t ih =>
    intro a
    unfold RunCalls
    rw [List.foldl_cons]
    exact (ih (c.run a)).trans (length_run a c)

theorem run_eq (a : List SchedulingNode) (c : PredecessorCall) :
    c.run a =
      if (if c.is_data = true then c.predecessor ∈ (nodeAt a c.self).data_predecessors_
          else c.predecessor ∈ (nodeAt a c.self).other_predecessors_
            ∨ c.predecessor ∈ (nodeAt a c.self).data_predecessors_) then a
      else insertEdge c.is_data a c.self c.predecessor := by
  unfold PredecessorCall.run
  cases hd : c.is_data
  · simp only [Bool.false_eq_true, if_false]
    exact AddOtherPredecessor_eq a c.self c.predecessor
  · simp only [if_true]
    exact AddDataPredecessor_eq a c.self c.predecessor

theorem disjoint_RunCalls (calls : List PredecessorCall) :
    ∀ a : List SchedulingNode, DataCallsFirst calls →
      (∀ i, (nodeAt a i).ListsDisjoint) →
      (∀ c, c ∈ calls → c.is_data = true →
        c.predecessor ∉ (nodeAt a c.self).other_predecessors_) →
      ∀ i, (nodeAt (RunCalls a calls) i).ListsDisjoint := by
  induction calls with
  | nil => intro a _ h _; exact h
  | cons c t ih =>
    intro a hfirst hdis hpending
    unfold RunCalls
    rw [List.foldl_cons]
    have hp := List.pairwise_cons.mp hfirst
    by_cases hg : (if c.is_data = true then
        c.predecessor ∈ (nodeAt a c.self).data_predecessors_
        else c.predecessor ∈ (nodeAt a c.self).other_predecessors_
          ∨ c.predecessor ∈ (nodeAt a c.self).data_predecessors_)
    · have hrun : c.run a = a := by rw [run_eq, if_pos hg]
      rw [hrun]
      exact ih a hp.2 hdis (fun c2 h2 => hpending c2 (List.mem_cons_of_mem _ h2))
    · have hrun : c.run a = insertEdge c.is_data a c.self c.predecessor := by
        rw [run_eq, if_neg hg]
      rw [hrun]
      apply ih _ hp.2
      · intro i p hpd hpo
        rw [data_insertEdge] at hpd
        rw [other_insertEdge] at hpo
        cases hd : c.is_data
        · rw [hd] at hpd hpo hg
          simp only [Bool.false_eq_true, and_false, if_false, List.append_nil] at hpd
          simp only [Bool.false_eq_true, if_false, not_or] at hg
          by_cases hc : c.self = i ∧ i < a.length
          · simp only [hc, and_self, if_true, List.mem_append, List.mem_singleton] at hpo
            rcases hpo with h | h
            · exact hdis i p hpd h
            · obtain ⟨rfl, _⟩ := hc
              subst h
              exact hg.2 hpd
          · simp only [hc, false_and, if_false, List.append_nil] at hpo
            exact hdis i p hpd hpo
        · rw [hd] at hpd hpo
          simp only [Bool.true_eq_false, and_false, if_false, List.append_nil] at hpo
          by_cases hc : c.self = i ∧ i < a.length
          · simp only [hc, and_self, if_true, List.mem_append, List.mem_singleton] at hpd
            rcases hpd with h | h
            · exact hdis i p h hpo
            · obtain ⟨rfl, _⟩ := hc
              subst h
              exact hpending c (List.mem_cons_self _ _) hd hpo
          · simp only [hc, false_and, if_false, List.append_nil] at hpd
            exact hdis i p hpd hpo
      · intro c2 h2 hd2 hmem
        rw [other_insertEdge] at hmem
        by_cases hc : (c.self = c2.self ∧ c2.self < a.length) ∧ c.is_data = false
        · simp only [hc, and_self, if_true, List.mem_append, List.mem_singleton] at hmem
          rcases hmem with h | h
          · exact hpending c2 (List.mem_cons_of_mem _ h2) hd2 h
          · exact hp.1 c2 h2 ⟨hc.1.1, h.symm, hc.2, hd2⟩
        · simp only [hc, if_false, List.append_nil] at hmem
          exact hpending c2 (List.mem_cons_of_mem _ h2) hd2 hmem

theorem map_nodeAt_range (f : SchedulingNode → Nat) (a : List SchedulingNode) :
    (List.range a.length).map (fun i => f (nodeAt a i)) = a.map f := by
  apply List.ext_getElem
  · simp
  · intro i h1 h2
    simp only [List.length_map, List.length_range] at h1
    simp only [List.getElem_map, List.getElem_range]
    unfold nodeAt
    rw [List.getElem?_eq_getElem h1]
    rfl

theorem TotalOccurrences_eq (a : List SchedulingNode) (p : Nat) :
    TotalOccurrences a p = succCount a (List.range a.length) p := by
  unfold TotalOccurrences succCount predsAt SchedulingNode.predecessors
  rw [← map_nodeAt_range]
  apply congrArg
  apply List.map_congr_left
  intro i _
  rw [List.count_append]

theorem accurate_FreshNodes (l : List (Nat × Bool)) : CountsAccurate (FreshNodes l) := by
  refine ⟨?_, ?_, ?_⟩
  · intro j _
    unfold nusAt
    rw [(nodeAt_FreshNodes l j).2.2]
    symm
    unfold succCount
    apply List.sum_eq_zero
    intro x hx
    obtain ⟨i, _, rfl⟩ := List.mem_map.mp hx
    unfold predsAt SchedulingNode.predecessors
    rw [(nodeAt_FreshNodes l i).1, (nodeAt_FreshNodes l i).2.1]
    rfl
  · intro i
    rw [(nodeAt_FreshNodes l i).1]
    exact List.nodup_nil
  · intro i
    rw [(nodeAt_FreshNodes l i).2.1]
    exact List.nodup_nil

theorem accurate_insertEdge (d : Bool) (a : List SchedulingNode) (s p : Nat)
    (hacc : CountsAccurate a) (hs : s < a.length) (hN : a.length < 2147483648)
    (hnew : if d = true then p ∉ (nodeAt a s).data_predecessors_
      else p ∉ (nodeAt a s).other_predecessors_) :
    CountsAccurate (insertEdge d a s p) := by
  have hnd : ∀ i, (nodeAt (insertEdge d a s p) i).data_predecessors_.Nodup := by
    intro i
    rw [data_insertEdge]
    by_cases hc : (s = i ∧ i < a.length) ∧ d = true
    · obtain ⟨⟨rfl, _⟩, rfl⟩ := hc
      simp only [if_true] at hnew
      simp only [hs, and_self, if_true]
      exact List.Nodup.append (hacc.nodup_data s) (List.nodup_singleton p)
        (by simpa [List.disjoint_singleton] using hnew)
    · simp only [hc, if_false, List.append_nil]
      exact hacc.nodup_data i
  have hno : ∀ i, (nodeAt (insertEdge d a s p) i).other_predecessors_.Nodup := by
    intro i
    rw [other_insertEdge]
    by_cases hc : (s = i ∧ i < a.length) ∧ d = false
    · obtain ⟨⟨rfl, _⟩, rfl⟩ := hc
      simp only [Bool.false_eq_true, if_false] at hnew
      simp only [hs, and_self, if_true]
      exact List.Nodup.append (hacc.nodup_other s) (List.nodup_singleton p)
        (by simpa [List.disjoint_singleton] using hnew)
    · simp only [hc, if_false, List.append_nil]
      exact hacc.nodup_other i
  refine ⟨?_, hnd, hno⟩
  intro j hj
  rw [length_insertEdge] at hj ⊢
  unfold nusAt
  rw [succCount_insertEdge d a s p j hs, nus_insertEdge]
  have hc := hacc.counts j hj
  unfold nusAt at hc
  rw [hc]
  by_cases hjp : j = p
  · subst hjp
    have hle := succCount_le (insertEdge d a s j) (List.range a.length) j
      (fun i => count_predecessors_le _ (hnd i) (hno i) j)
    rw [succCount_insertEdge d a s j j hs, List.length_range] at hle
    simp only [if_true] at hle
    simp only [hj, and_self, if_true]
    apply Nat.mod_eq_of_lt
    unfold kUint32Modulus
    omega
  · have : ¬ (p = j) := fun h => hjp h.symm
    simp [this, hjp]

theorem accurate_run (a : List SchedulingNode) (c : PredecessorCall) (hacc : CountsAccurate a)
    (hs : c.self < a.length) (hN : a.length < 2147483648) : CountsAccurate (c.run a) := by
  by_cases hg : (if c.is_data = true then
      c.predecessor ∈ (nodeAt a c.self).data_predecessors_
      else c.predecessor ∈ (nodeAt a c.self).other_predecessors_
        ∨ c.predecessor ∈ (nodeAt a c.self).data_predecessors_)
  · rw [run_eq, if_pos hg]
    exact hacc
  · rw [run_eq, if_neg hg]
    apply accurate_insertEdge c.is_data a c.self c.predecessor hacc hs hN
    cases hd : c.is_data
    · rw [hd] at hg
      simp only [Bool.false_eq_true, if_false, not_or] at hg ⊢
      exact hg.1
    · rw [hd] at hg
      simpa using hg

theorem accurate_RunCalls (calls : List PredecessorCall) :
    ∀ a : List SchedulingNode, CountsAccurate a → a.length < 2147483648 →
      (∀ c, c ∈ calls → c.self < a.length) → CountsAccurate (RunCalls a calls) := by
  induction calls with
  | nil => intro a h _ _; exact h
  | cons c t ih =>
    intro a hacc hN hv
    unfold RunCalls
    rw [List.foldl_cons]
    apply ih (c.run a) (accurate_run a c hacc (hv c (List.mem_cons_self _ _)) hN)
    · rw [length_run]; exact hN
    · intro c2 h2
      rw [length_run]
      exact hv c2 (List.mem_cons_of_mem _ h2)

theorem nusAt_lt_of_accurate (a : List SchedulingNode) (hacc : CountsAccurate a)
    (hN : a.length < 2147483648) (j : Nat) (hj : j < a.length) :
    nusAt a j + 1 < kUint32Modulus := by
  rw [hacc.counts j hj]
  have hle := succCount_le a (List.range a.length) j
    (fun i => count_predecessors_le _ (hacc.nodup_data i) (hacc.nodup_other i) j)
  rw [List.length_range] at hle
  unfold kUint32Modulus
  omega

theorem inserting_run (a : List SchedulingNode) (c : PredecessorCall) (hacc : CountsAccurate a)
    (hN : a.length < 2147483648) (hp : c.predecessor < a.length)
    (hins : c.Inserts a) :
    nusAt (c.run a) c.predecessor = nusAt a c.predecessor + 1
      ∧ ∀ q, q ≠ c.predecessor → nusAt (c.run a) q = nusAt a q := by
  unfold PredecessorCall.Inserts at hins
  by_cases hg : (if c.is_data = true then
      c.predecessor ∈ (nodeAt a c.self).data_predecessors_
      else c.predecessor ∈ (nodeAt a c.self).other_predecessors_
        ∨ c.predecessor ∈ (nodeAt a c.self).data_predecessors_)
  · rw [run_eq, if_pos hg] at hins
    exact absurd rfl hins
  · rw [run_eq, if_neg hg]
    unfold nusAt
    constructor
    · rw [nus_insertEdge]
      simp only [hp, and_self, if_true]
      exact Nat.mod_eq_of_lt (nusAt_lt_of_accurate a hacc hN c.predecessor hp)
    · intro q hq
      rw [nus_insertEdge]
      have : ¬ (c.predecessor = q) := fun h => hq h.symm
      simp [this]

theorem addDepsFold_extends (ir : HGraph) (node : Nat) (isb : Bool) (L : List Nat) :
    ∀ a : List SchedulingNode,
      Extends a (L.foldl (fun a o => AddDependenciesAgainst ir a node o isb) a) := by
  induction L with
  | nil => intro a; exact extends_refl a
  | cons x t ih =>
    intro a
    simp only [List.foldl_cons]
    exact extends_trans (AddDependenciesAgainst_spec ir a node x isb).1.ext (ih _)

theorem AddNode_instruction (ir : HGraph) (g : SchedulingGraph) (instr : Nat) (isb : Bool) :
    (nodeAt (g.AddNode ir instr isb).1.arena (g.AddNode ir instr isb).2).instruction_
      = instr := by
  unfold SchedulingGraph.AddNode SchedulingGraph.AddDependencies
  simp only [arena_insertNode]
  rw [(addDepsFold_extends ir g.arena.length isb (List.range g.arena.length)
    (g.arena ++ [SchedulingNode.new instr isb])).instruction, nodeAt_append_singleton]
  rfl

theorem BuildSchedulingGraphFrom_fatal (ir : HGraph) (isB : Nat → Bool)
    (Accept : Nat → SchedulingLatencyVisitor → Option SchedulingLatencyVisitor) (bid : Nat)
    (x : Nat) (hx : ∀ w, Accept x w = none) (rest : List Nat) :
    ∀ (g : SchedulingGraph) (nodes : List Nat) (v : SchedulingLatencyVisitor), x ∈ rest →
      ∃ e, BuildSchedulingGraphFrom ir isB Accept bid rest g nodes v = Except.error e := by
  induction rest with
  | nil => intro g nodes v h; exact absurd h (List.not_mem_nil _)
  | cons y t ih =>
    intro g nodes v h
    unfold BuildSchedulingGraphFrom
    split
    · exact ⟨_, rfl⟩
    · simp only []
      split
      · exact ⟨_, rfl⟩
      · next visited hv =>
        rcases List.mem_cons.mp h with rfl | ht
        · unfold SchedulingLatencyVisitor.CalculateLatency at hv
          rw [AddNode_instruction, hx] at hv
          exact absurd hv (by simp)
        · exact ih _ _ _ ht

theorem BuildSchedulingGraphFrom_check (ir : HGraph) (isB : Nat → Bool)
    (Accept : Nat → SchedulingLatencyVisitor → Option SchedulingLatencyVisitor) (bid : Nat)
    (rest : List Nat) :
    ∀ (g : SchedulingGraph) (nodes : List Nat) (v : SchedulingLatencyVisitor),
      (∀ x, x ∈ rest → ∀ w, (Accept x w).isSome = true) →
      (BuildSchedulingGraphFrom ir isB Accept bid rest g nodes v
          = Except.error BuildAbort.CheckFailed ↔ ∃ x, x ∈ rest ∧ ir.GetBlock x ≠ bid)
      ∧ BuildSchedulingGraphFrom ir isB Accept bid rest g nodes v
          ≠ Except.error BuildAbort.LatencyFatal := by
  induction rest with
  | nil =>
    intro g nodes v _
    simp [BuildSchedulingGraphFrom]
  | cons y t ih =>
    intro g nodes v hret
    unfold BuildSchedulingGraphFrom
    split
    · next hb =>
      exact ⟨⟨fun _ => ⟨y, List.mem_cons_self _ _, hb⟩, fun _ => rfl⟩, by simp⟩
    · next hb =>
      simp only []
      split
      · next hv =>
        unfold SchedulingLatencyVisitor.CalculateLatency at hv
        rw [AddNode_instruction] at hv
        have := hret y (List.mem_cons_self _ _)
          { v with last_visited_internal_latency_ := 0 }
        rw [hv] at this
        exact absurd this (by simp)
      · next visited hv =>
        obtain ⟨h1, h2⟩ := ih
          { (g.AddNode ir y (isB y)).1 with
            arena := List.modify
              (fun n => (n.SetLatency visited.last_visited_latency_).SetInternalLatency
                visited.last_visited_internal_latency_)
              (g.AddNode ir y (isB y)).2 (g.AddNode ir y (isB y)).1.arena }
          (nodes ++ [(g.AddNode ir y (isB y)).2]) visited
          (fun x hx => hret x (List.mem_cons_of_mem _ hx))
        refine ⟨?_, h2⟩
        rw [h1]
        constructor
        · rintro ⟨x, hx, hne⟩
          exact ⟨x, List.mem_cons_of_mem _ hx, hne⟩
        · rintro ⟨x, hx, hne⟩
          rcases List.mem_cons.mp hx with rfl | ht
          · exact absurd hne (by simpa using hb)
          · exact ⟨x, ht, hne⟩

theorem GetHigherPrioritySchedulingNode_path (ir : HGraph) (graph : SchedulingGraph)
    (prev : Option Nat) (candidate check : Nat) :
    (GetHigherPrioritySchedulingNode ir graph prev candidate check = candidate
      ∧ (nodeAt graph.arena check).critical_path_
          ≤ (nodeAt graph.arena candidate).critical_path_)
    ∨ (GetHigherPrioritySchedulingNode ir graph prev candidate check = check
      ∧ (nodeAt graph.arena candidate).critical_path_
          ≤ (nodeAt graph.arena check).critical_path_) := by
  unfold GetHigherPrioritySchedulingNode
  simp only []
  split
  · split
    · exact Or.inr ⟨rfl, by omega⟩
    · exact Or.inl ⟨rfl, by omega⟩
  · next heq =>
    have heq2 : (nodeAt graph.arena check).critical_path_
        = (nodeAt graph.arena candidate).critical_path_ := by
      simpa using heq
    split
    · split
      · exact Or.inr ⟨rfl, by omega⟩
      · exact Or.inl ⟨rfl, by omega⟩
    · split
      · exact Or.inr ⟨rfl, by omega⟩
      · exact Or.inl ⟨rfl, by omega⟩

theorem foldl_select_max (ir : HGraph) (graph : SchedulingGraph) (prev : Option Nat)
    (nodes : List Nat) (L : List Nat) :
    ∀ sel,
      (nodeAt graph.arena (nodes.getD sel 0)).critical_path_
          ≤ (nodeAt graph.arena (nodes.getD (L.foldl
              (fun select i =>
                if GetHigherPrioritySchedulingNode ir graph prev
                    (nodes.getD select 0) (nodes.getD i 0) = nodes.getD select 0 then
                  select
                else i) sel) 0)).critical_path_
      ∧ ∀ i, i ∈ L →
          (nodeAt graph.arena (nodes.getD i 0)).critical_path_
            ≤ (nodeAt graph.arena (nodes.getD (L.foldl
                (fun select i =>
                  if GetHigherPrioritySchedulingNode ir graph prev
                      (nodes.getD select 0) (nodes.getD i 0) = nodes.getD select 0 then
                    select
                  else i) sel) 0)).critical_path_ := by
  induction L with
  | nil =>
    intro sel
    exact ⟨Nat.le_refl _, fun i h => absurd h (List.not_mem_nil _)⟩
  | cons x t ih =>
    intro sel
    simp only [List.foldl_cons]
    have hstep : (nodeAt graph.arena (nodes.getD sel 0)).critical_path_
          ≤ (nodeAt graph.arena (nodes.getD
              (if GetHigherPrioritySchedulingNode ir graph prev
                  (nodes.getD sel 0) (nodes.getD x 0) = nodes.getD sel 0 then sel
                else x) 0)).critical_path_
        ∧ (nodeAt graph.arena (nodes.getD x 0)).critical_path_
          ≤ (nodeAt graph.arena (nodes.getD
              (if GetHigherPrioritySchedulingNode ir graph prev
                  (nodes.getD sel 0) (nodes.getD x 0) = nodes.getD sel 0 then sel
                else x) 0)).critical_path_ := by
      rcases GetHigherPrioritySchedulingNode_path ir graph prev (nodes.getD sel 0)
        (nodes.getD x 0) with ⟨h1, h2⟩ | ⟨h1, h2⟩
      · rw [if_pos h1]
        exact ⟨Nat.le_refl _, h2⟩
      · by_cases hc : GetHigherPrioritySchedulingNode ir graph prev
            (nodes.getD sel 0) (nodes.getD x 0) = nodes.getD sel 0
        · rw [if_pos hc]
          rw [h1] at hc
          rw [hc]
          exact ⟨Nat.le_refl _, Nat.le_refl _⟩
        · rw [if_neg hc]
          exact ⟨h2, Nat.le_refl _⟩
    obtain ⟨i1, i2⟩ := ih (if GetHigherPrioritySchedulingNode ir graph prev
      (nodes.getD sel 0) (nodes.getD x 0) = nodes.getD sel 0 then sel else x)
    refine ⟨Nat.le_trans hstep.1 i1, ?_⟩
    intro i hi
    rcases List.mem_cons.mp hi with rfl | ht
    · exact Nat.le_trans hstep.2 i1
    · exact i2 i ht

theorem length_DeleteNodeAtIndex (nodes : List Nat) (index : Nat) :
    (DeleteNodeAtIndex nodes index).length = nodes.length - 1 := by
  simp [DeleteNodeAtIndex]

theorem getElem?_DeleteNodeAtIndex (nodes : List Nat) (index j : Nat)
    (hj : j < nodes.length - 1) :
    (DeleteNodeAtIndex nodes index)[j]? =
      if j = index then nodes.getLast? else nodes[j]? := by
  unfold DeleteNodeAtIndex
  rw [List.dropLast_eq_take, List.getElem?_take_of_lt (by simpa using hj), List.getElem?_set]
  by_cases h : index = j
  · subst h
    have hlt : index < nodes.length := by omega
    simp only [if_true, hlt]
    cases nodes with
    | nil => simp at hlt
    | cons a t => simp [List.getLastD, List.getLast?_eq_getLast]
  · have h2 : ¬ (j = index) := fun e => h e.symm
    simp [h, h2]

theorem IsFloatingPointType_false (t : DataType) (h : t.IsFloatingPointType = false) :
    t ≠ DataType.kFloat32 ∧ t ≠ DataType.kFloat64 := by
  cases t <;> simp [DataType.IsFloatingPointType] at h ⊢

theorem VisitDiv_integer_le (v : SchedulingLatencyVisitor) (instr : HInstruction)
    (h : instr.GetResultType.IsFloatingPointType = false) :
    (SchedulingLatencyVisitorARM64.VisitDiv v instr).last_visited_latency_ ≤ 6 := by
  obtain ⟨h1, h2⟩ := IsFloatingPointType_false _ h
  unfold SchedulingLatencyVisitorARM64.VisitDiv
  split
  · next heq => exact absurd heq h1
  · next heq => exact absurd heq h2
  · split
    · split
      · simp
      · split
        · simp [kArm64IntegerOpLatency]
        · split
          · simp [kArm64IntegerOpLatency]
          · simp [kArm64MulIntegerLatency]
    · simp [kArm64DivIntegerLatency]

theorem VisitDiv_floating_ge (v : SchedulingLatencyVisitor) (instr : HInstruction)
    (h : instr.GetResultType.IsFloatingPointType = true) :
    15 ≤ (SchedulingLatencyVisitorARM64.VisitDiv v instr).last_visited_latency_ := by
  unfold SchedulingLatencyVisitorARM64.VisitDiv
  cases ht : instr.GetResultType <;> rw [ht] at h <;>
    simp [DataType.IsFloatingPointType, kArm64DivFloatLatency, kArm64DivDoubleLatency] at h ⊢

/-! ## The predecessor lists and the successor counter (C11, C12) -/

/-- C11, as the code has it: from freshly constructed nodes, after every sequence of
`AddDataPredecessor` and `AddOtherPredecessor` calls in which no `AddDataPredecessor(p)`
on a node comes after an `AddOtherPredecessor(p)` on the same node, no node appears in
both the `data_predecessors_` and the `other_predecessors_` of a node. -/
theorem predecessor_lists_disjoint (instructions : List (Nat × Bool))
    (calls : List PredecessorCall) (hfirst : DataCallsFirst calls) :
    ∀ n, n ∈ RunCalls (FreshNodes instructions) calls → n.ListsDisjoint := by
  intro n hn
  obtain ⟨i, hi, rfl⟩ := List.getElem_of_mem hn
  have h := disjoint_RunCalls calls (FreshNodes instructions) hfirst
    (fun i p hp => by rw [(nodeAt_FreshNodes instructions i).1] at hp; simp at hp)
    (fun c _ _ hp => by
      rw [(nodeAt_FreshNodes instructions c.self).2.1] at hp; simp at hp) i
  unfold nodeAt at h
  rw [List.getElem?_eq_getElem hi] at h
  exact h

/-- Three calls on two fresh nodes, the data call first: the lists of both nodes stay
disjoint. -/
theorem predecessor_lists_disjoint_witness :
    DataCallsFirst [⟨0, true, 1⟩, ⟨0, false, 1⟩, ⟨1, false, 0⟩]
      ∧ ∀ n, n ∈ RunCalls (FreshNodes [(3, false), (1, false)])
          [⟨0, true, 1⟩, ⟨0, false, 1⟩, ⟨1, false, 0⟩] → n.ListsDisjoint :=
  ⟨by decide, predecessor_lists_disjoint [(3, false), (1, false)]
    [⟨0, true, 1⟩, ⟨0, false, 1⟩, ⟨1, false, 0⟩] (by decide)⟩

/-- C11 as stated fails: after `AddOtherPredecessor(n1)` and then `AddDataPredecessor(n1)` on
the fresh node `n0`, the node `n1` is in both lists of `n0`. -/
theorem data_after_other_in_both_lists :
    1 ∈ (nodeAt (RunCalls (FreshNodes [(3, false), (1, false)])
        [⟨0, false, 1⟩, ⟨0, true, 1⟩]) 0).data_predecessors_
    ∧ 1 ∈ (nodeAt (RunCalls (FreshNodes [(3, false), (1, false)])
        [⟨0, false, 1⟩, ⟨0, true, 1⟩]) 0).other_predecessors_
    ∧ ¬ (∀ n, n ∈ RunCalls (FreshNodes [(3, false), (1, false)])
        [⟨0, false, 1⟩, ⟨0, true, 1⟩] → n.ListsDisjoint) := by
  decide

/-- C12: from freshly constructed nodes (fewer than 2^31 of them) and after any sequence of
`AddDataPredecessor` and `AddOtherPredecessor` calls on them, the counter
`num_unscheduled_successors_` of each node `p` is the total number of occurrences of `p`
in the predecessor lists of all nodes; and one more call that actually inserts `p` raises
the counter of `p` by exactly one and leaves every other counter as it was. -/
theorem successor_count_accuracy (instructions : List (Nat × Bool))
    (calls : List PredecessorCall) (hN : instructions.length < 2147483648)
    (hvalid : ∀ c, c ∈ calls →
      c.self < instructions.length ∧ c.predecessor < instructions.length) :
    (∀ p, p < instructions.length →
      (nodeAt (RunCalls (FreshNodes instructions) calls) p).num_unscheduled_successors_
        = TotalOccurrences (RunCalls (FreshNodes instructions) calls) p)
    ∧ ∀ call : PredecessorCall, call.self < instructions.length →
        call.predecessor < instructions.length →
        call.Inserts (RunCalls (FreshNodes instructions) calls) →
        (nodeAt (call.run (RunCalls (FreshNodes instructions) calls))
            call.predecessor).num_unscheduled_successors_
          = (nodeAt (RunCalls (FreshNodes instructions) calls)
              call.predecessor).num_unscheduled_successors_ + 1
        ∧ ∀ q, q ≠ call.predecessor →
            (nodeAt (call.run (RunCalls (FreshNodes instructions) calls))
                q).num_unscheduled_successors_
              = (nodeAt (RunCalls (FreshNodes instructions) calls)
                  q).num_unscheduled_successors_ := by
  have hlen0 : (FreshNodes instructions).length = instructions.length := by
    simp [FreshNodes]
  have hlen : (RunCalls (FreshNodes instructions) calls).length = instructions.length :=
    (length_RunCalls calls _).trans hlen0
  have hacc : CountsAccurate (RunCalls (FreshNodes instructions) calls) :=
    accurate_RunCalls calls _ (accurate_FreshNodes instructions) (by omega)
      (fun c hc => by rw [hlen0]; exact (hvalid c hc).1)
  constructor
  · intro p hp
    rw [TotalOccurrences_eq]
    exact hacc.counts p (by omega)
  · intro call _ hp hins
    exact inserting_run _ call hacc (by omega) (by omega) hins

/-- Four calls on two fresh nodes, one of them a repetition: the counters are the numbers of
occurrences, and a fifth call that inserts raises one counter by one. -/
theorem successor_count_accuracy_witness :
    ((∀ p, p < 2 →
      (nodeAt (RunCalls (FreshNodes [(3, false), (1, false)])
          [⟨0, true, 1⟩, ⟨0, false, 1⟩, ⟨1, false, 0⟩, ⟨0, true, 1⟩]) p).num_unscheduled_successors_
        = TotalOccurrences (RunCalls (FreshNodes [(3, false), (1, false)])
          [⟨0, true, 1⟩, ⟨0, false, 1⟩, ⟨1, false, 0⟩, ⟨0, true, 1⟩]) p))
    ∧ (nodeAt (RunCalls (FreshNodes [(3, false), (1, false)])
          [⟨0, true, 1⟩, ⟨0, false, 1⟩, ⟨1, false, 0⟩, ⟨0, true, 1⟩]) 1).num_unscheduled_successors_
        = 1 :=
  ⟨(successor_count_accuracy [(3, false), (1, false)]
      [⟨0, true, 1⟩, ⟨0, false, 1⟩, ⟨1, false, 0⟩, ⟨0, true, 1⟩] (by decide) (by decide)).1,
    by decide⟩

/-! ## The latency visitor of the base class (C13) -/

/-- C13: the generic `SchedulingLatencyVisitor::VisitInstruction` is fatal.  It returns on
no visitor state; `CalculateLatency` on a node whose instruction the visitor does not
handle (its dispatch reaches `VisitInstruction`) does not return either, and so the
construction of the graph of a block that holds such an instruction returns nothing. -/
theorem generic_visit_instruction_fatal
    (Accept : Nat → SchedulingLatencyVisitor → Option SchedulingLatencyVisitor)
    (instruction : Nat)
    (hunhandled : ∀ w, Accept instruction w = w.VisitInstruction instruction) :
    (∀ v : SchedulingLatencyVisitor, v.VisitInstruction instruction = none)
    ∧ (∀ (v : SchedulingLatencyVisitor) (node : SchedulingNode),
        node.instruction_ = instruction → v.CalculateLatency Accept node = none)
    ∧ ∀ (ir : HGraph) (isB : Nat → Bool) (block : HBasicBlock)
        (v : SchedulingLatencyVisitor), instruction ∈ block.instructions →
        BuildSchedulingGraph ir isB Accept block v = none := by
  refine ⟨fun _ => rfl, ?_, ?_⟩
  · intro v node hn
    unfold SchedulingLatencyVisitor.CalculateLatency
    rw [hn, hunhandled]
    rfl
  · intro ir isB block v hmem
    obtain ⟨e, he⟩ := BuildSchedulingGraphFrom_fatal ir isB Accept block.block_id instruction
      (fun w => (hunhandled w).trans rfl) block.instructions.reverse SchedulingGraph.new []
      v (List.mem_reverse.mpr hmem)
    unfold BuildSchedulingGraph BuildSchedulingGraphOutcome
    rw [he]
    rfl

/-- The visitor that handles nothing, on the instruction `i2` of the header example. -/
theorem generic_visit_instruction_fatal_witness :
    (∀ w, unhandledAccept 2 w = w.VisitInstruction 2)
    ∧ SchedulingLatencyVisitor.new.CalculateLatency unhandledAccept
        (SchedulingNode.new 2 false) = none
    ∧ BuildSchedulingGraph exampleIR (fun _ => false) unhandledAccept exampleBlock
        SchedulingLatencyVisitor.new = none :=
  ⟨fun _ => rfl,
    (generic_visit_instruction_fatal unhandledAccept 2 (fun _ => rfl)).2.1
      SchedulingLatencyVisitor.new (SchedulingNode.new 2 false) rfl,
    (generic_visit_instruction_fatal unhandledAccept 2 (fun _ => rfl)).2.2
      exampleIR (fun _ => false) exampleBlock SchedulingLatencyVisitor.new (by decide)⟩

/-! ## The ARM64 latency visitor (C14 to C17) -/

/-- C14, as the code has it: the ARM64 visitor aborts on no instruction.  `CalculateLatency`
returns for every kind, and for a kind that has no case of its own nor of a super class
it leaves the default latency `kArm64IntegerOpLatency` (2) with internal latency 0,
because `SchedulingLatencyVisitorARM64` overrides the fatal `VisitInstruction`. -/
theorem arm64_default_latency (code : Nat → HInstruction) (kUseStringCompression : Bool)
    (v : SchedulingLatencyVisitor) (node : SchedulingNode) :
    (v.CalculateLatency (SchedulingLatencyVisitorARM64.Accept code kUseStringCompression)
        node).isSome = true
    ∧ ((code node.instruction_).GetKind = InstructionKind.kOther →
        v.CalculateLatency (SchedulingLatencyVisitorARM64.Accept code kUseStringCompression)
            node
          = some { last_visited_latency_ := 2, last_visited_internal_latency_ := 0 }) := by
  refine ⟨rfl, ?_⟩
  intro hkind
  unfold SchedulingLatencyVisitor.CalculateLatency SchedulingLatencyVisitorARM64.Accept
    HInstruction.Accept
  rw [hkind]
  rfl

/-- C14 as stated fails: on the constant `i1` of the header example, whose kind has no case,
`CalculateLatency` of the ARM64 visitor does not abort; it returns with latency 2. -/
theorem arm64_unhandled_kind_returns :
    (exampleCode 1).GetKind = InstructionKind.kOther
    ∧ SchedulingLatencyVisitor.new.CalculateLatency
        (SchedulingLatencyVisitorARM64.Accept exampleCode true) (SchedulingNode.new 1 false)
      ≠ none := by
  decide

/-- C15: the internal latency defaults to zero.  For every visitor, if the case of the
instruction of `node` does not write `last_visited_internal_latency_`, then
`GetLastVisitedInternalLatency()` after `CalculateLatency(node)` is 0, whatever state `v`
the earlier visits left; on ARM64 this is so for `HMul`, `HArraySet`, a binary operation
without a case of its own and `HInstanceFieldGet`, on which `CalculateLatency` returns. -/
theorem internal_latency_defaults_to_zero (v : SchedulingLatencyVisitor)
    (node : SchedulingNode) :
    (∀ (Accept : Nat → SchedulingLatencyVisitor → Option SchedulingLatencyVisitor)
        (visited : SchedulingLatencyVisitor),
        (∀ w w2, Accept node.instruction_ w = some w2 →
          w2.last_visited_internal_latency_ = w.last_visited_internal_latency_) →
        v.CalculateLatency Accept node = some visited →
        visited.last_visited_internal_latency_ = 0)
    ∧ ∀ (code : Nat → HInstruction) (kUseStringCompression : Bool),
        (code node.instruction_).GetKind ∈
          [InstructionKind.kMul, InstructionKind.kArraySet,
            InstructionKind.kOtherBinaryOperation, InstructionKind.kInstanceFieldGet] →
        ∃ visited,
          v.CalculateLatency (SchedulingLatencyVisitorARM64.Accept code kUseStringCompression)
              node = some visited
          ∧ visited.last_visited_internal_latency_ = 0 := by
  constructor
  · intro Accept visited hkeeps hvisit
    unfold SchedulingLatencyVisitor.CalculateLatency at hvisit
    exact hkeeps _ _ hvisit
  · intro code k hkind
    refine ⟨_, rfl, ?_⟩
    unfold HInstruction.Accept
    simp only [List.mem_cons, List.mem_singleton, List.not_mem_nil, or_false] at hkind
    rcases hkind with h | h | h | h <;> rw [h] <;> rfl

/-- C16, as the code has it: wherever the ARM64 visitor chooses the latency by a test for a
floating-point type, the latency of the floating-point case is strictly greater than the
latency of the integer case for `HBinaryOperation`, `HDiv`, `HTypeConversion` and the
simple SIMD arithmetic, and equal to it for `HMul` (6 and 6) and `HVecMul` (12 and 12).
For `HRem` the floating-point case gets 5; the integer case gets 6 when the divisor is
not a constant or is a constant other than 0, 1, -1 and one whose absolute value is a
power of two, 0 for the constant 0, and 2 for the remaining constants, so that the
floating-point latency is the smaller one exactly for the divisors of the first kind. -/
theorem floating_point_latency_order (kUseStringCompression : Bool)
    (v1 v2 : SchedulingLatencyVisitor) (fp int : HInstruction)
    (hkind : fp.GetKind = int.GetKind)
    (hchoice : fp.GetKind.ChoosesByFloatingPoint = true)
    (hfp : fp.IsFloatingPointCase = true) (hint : int.IsFloatingPointCase = false) :
    (fp.GetKind ≠ InstructionKind.kRem →
      (int.Accept kUseStringCompression v2).last_visited_latency_
          ≤ (fp.Accept kUseStringCompression v1).last_visited_latency_
        ∧ ((int.Accept kUseStringCompression v2).last_visited_latency_
              < (fp.Accept kUseStringCompression v1).last_visited_latency_
            ↔ fp.GetKind ≠ InstructionKind.kMul ∧ fp.GetKind ≠ InstructionKind.kVecMul))
    ∧ (fp.GetKind = InstructionKind.kRem →
      (fp.Accept kUseStringCompression v1).last_visited_latency_ = 5
        ∧ (int.RightConstant = none →
          (int.Accept kUseStringCompression v2).last_visited_latency_ = 6)
        ∧ (∀ imm, int.RightConstant = some imm →
          (int.Accept kUseStringCompression v2).last_visited_latency_
            = if imm = 0 then 0
              else if imm = 1 ∨ imm = -1 ∨ IsPowerOfTwo (AbsOrMin imm) = true then 2
              else 6)
        ∧ ((fp.Accept kUseStringCompression v1).last_visited_latency_
              < (int.Accept kUseStringCompression v2).last_visited_latency_
            ↔ int.RightConstant = none
              ∨ ∃ imm, int.RightConstant = some imm ∧ imm ≠ 0 ∧ imm ≠ 1 ∧ imm ≠ -1
                ∧ IsPowerOfTwo (AbsOrMin imm) = false)) := by
  unfold HInstruction.IsFloatingPointCase at hfp hint
  unfold HInstruction.Accept
  rw [← hkind] at hint ⊢
  cases hk : fp.GetKind <;> rw [hk] at hchoice hfp hint <;>
    simp only [InstructionKind.ChoosesByFloatingPoint, Bool.false_eq_true] at hchoice
  all_goals simp only [] at hfp hint ⊢
  case kDiv =>
    have h1 := VisitDiv_integer_le v2 int hint
    have h2 := VisitDiv_floating_ge v1 fp hfp
    simp only [ne_eq, reduceCtorEq, not_false_eq_true, and_self, iff_true, true_implies,
      false_implies, and_true]
    omega
  case kRem =>
    simp only [ne_eq, not_true_eq_false, false_implies, true_implies, true_and]
    unfold SchedulingLatencyVisitorARM64.VisitRem
    rw [if_pos hfp, if_neg (by rw [hint]; exact Bool.false_ne_true)]
    cases hc : int.RightConstant with
    | none => simp [kArm64CallLatency, kArm64MulIntegerLatency]
    | some imm =>
      by_cases h0 : imm = 0
      · simp [h0, kArm64CallLatency]
      · by_cases h1 : imm = 1 ∨ imm = -1
        · rcases h1 with h1 | h1 <;>
            simp [h1, kArm64CallLatency, kArm64IntegerOpLatency]
        · have h1a : imm ≠ 1 := fun e => h1 (Or.inl e)
          have h1b : imm ≠ -1 := fun e => h1 (Or.inr e)
          cases hp : IsPowerOfTwo (AbsOrMin imm) <;>
            simp [h0, h1, h1a, h1b, hp, kArm64CallLatency, kArm64IntegerOpLatency,
              kArm64MulIntegerLatency]
  all_goals
    simp [SchedulingLatencyVisitorARM64.VisitBinaryOperation,
      SchedulingLatencyVisitorARM64.VisitMul, SchedulingLatencyVisitorARM64.VisitTypeConversion,
      SchedulingLatencyVisitorARM64.VisitVecMul,
      SchedulingLatencyVisitorARM64.VisitVecExtractScalar,
      SchedulingLatencyVisitorARM64.VisitVecReduce, SchedulingLatencyVisitorARM64.VisitVecNeg,
      SchedulingLatencyVisitorARM64.VisitVecAbs, SchedulingLatencyVisitorARM64.VisitVecAdd,
      SchedulingLatencyVisitorARM64.VisitVecHalvingAdd,
      SchedulingLatencyVisitorARM64.VisitVecSub, SchedulingLatencyVisitorARM64.VisitVecMin,
      SchedulingLatencyVisitorARM64.VisitVecMax, SchedulingLatencyVisitorARM64.VisitVecShl,
      SchedulingLatencyVisitorARM64.VisitVecShr, SchedulingLatencyVisitorARM64.VisitVecUShr,
      SchedulingLatencyVisitorARM64.VisitVecSetScalars,
      SchedulingLatencyVisitorARM64.HandleSimpleArithmeticSIMD, hfp, hint,
      kArm64FloatingPointOpLatency, kArm64IntegerOpLatency, kArm64MulFloatingPointLatency,
      kArm64MulIntegerLatency, kArm64TypeConversionFloatingPointIntegerLatency,
      kArm64SIMDFloatingPointOpLatency, kArm64SIMDIntegerOpLatency,
      kArm64SIMDMulFloatingPointLatency, kArm64SIMDMulIntegerLatency]

/-- A floating-point and an integer `HAdd`, 5 against 2; a floating-point `HRem` and an
integer `HRem` by a variable divisor, 5 against 6. -/
theorem floating_point_latency_order_witness :
    ((plainInstruction InstructionKind.kOtherBinaryOperation DataType.kInt32).Accept true
          SchedulingLatencyVisitor.new).last_visited_latency_
        < ((plainInstruction InstructionKind.kOtherBinaryOperation DataType.kFloat64).Accept
            true SchedulingLatencyVisitor.new).last_visited_latency_
    ∧ ((plainInstruction InstructionKind.kRem DataType.kInt32).Accept true
          SchedulingLatencyVisitor.new).last_visited_latency_ = 6 :=
  ⟨(((floating_point_latency_order true SchedulingLatencyVisitor.new
      SchedulingLatencyVisitor.new
      (plainInstruction InstructionKind.kOtherBinaryOperation DataType.kFloat64)
      (plainInstruction InstructionKind.kOtherBinaryOperation DataType.kInt32)
      rfl (by decide) (by decide) (by decide)).1 (by decide)).2).mpr
      ⟨by decide, by decide⟩,
    ((floating_point_latency_order true SchedulingLatencyVisitor.new
      SchedulingLatencyVisitor.new
      (plainInstruction InstructionKind.kRem DataType.kFloat64)
      (plainInstruction InstructionKind.kRem DataType.kInt32)
      rfl (by decide) (by decide) (by decide)).2 rfl).2.1 rfl⟩

/-- C16 as stated fails: for `HMul` the latency of the floating-point case, 6, is not
strictly greater than the latency of the integer case, 6; and for `HRem`, whose latency
is chosen by the same test, the floating-point case gets 5, less than the 6 of the integer
case with a variable divisor. -/
theorem floating_point_latency_not_greater :
    ((plainInstruction InstructionKind.kMul DataType.kFloat32).IsFloatingPointCase = true
      ∧ (plainInstruction InstructionKind.kMul DataType.kInt32).IsFloatingPointCase = false
      ∧ ¬ (((plainInstruction InstructionKind.kMul DataType.kInt32).Accept true
              SchedulingLatencyVisitor.new).last_visited_latency_
            < ((plainInstruction InstructionKind.kMul DataType.kFloat32).Accept true
                SchedulingLatencyVisitor.new).last_visited_latency_))
    ∧ ((plainInstruction InstructionKind.kRem DataType.kFloat32).IsFloatingPointCase = true
      ∧ (plainInstruction InstructionKind.kRem DataType.kInt32).IsFloatingPointCase = false
      ∧ InstructionKind.ChoosesByFloatingPoint InstructionKind.kRem = true
      ∧ ((plainInstruction InstructionKind.kRem DataType.kFloat32).Accept true
            SchedulingLatencyVisitor.new).last_visited_latency_ = 5
      ∧ ((plainInstruction InstructionKind.kRem DataType.kInt32).Accept true
            SchedulingLatencyVisitor.new).last_visited_latency_ = 6) := by
  decide

/-- C17, as the code has it: every ARM64 case that models an operation lowered through a
runtime or helper call assigns an internal latency of at least `kArm64CallInternalLatency`
(10).  An invoke, a floating-point `HRem` and an `HNewInstance` that is not a string
allocation get the pair (latency 5, internal latency 10); `HNewArray` gets (5, 12), an
`HNewInstance` that is a string allocation (5, 17), and `HInstanceOf` (2, 10). -/
theorem helper_call_latencies (kUseStringCompression : Bool) (v : SchedulingLatencyVisitor)
    (instr : HInstruction) (hcall : instr.IsHelperCallCase = true) :
    10 ≤ (instr.Accept kUseStringCompression v).last_visited_internal_latency_
    ∧ (instr.GetKind = InstructionKind.kOtherInvoke ∨ instr.GetKind = InstructionKind.kRem
        ∨ (instr.GetKind = InstructionKind.kNewInstance ∧ instr.IsStringAlloc = false) →
      instr.Accept kUseStringCompression v
        = { last_visited_latency_ := 5, last_visited_internal_latency_ := 10 })
    ∧ (instr.GetKind = InstructionKind.kNewArray →
      instr.Accept kUseStringCompression v
        = { last_visited_latency_ := 5, last_visited_internal_latency_ := 12 })
    ∧ (instr.GetKind = InstructionKind.kNewInstance ∧ instr.IsStringAlloc = true →
      instr.Accept kUseStringCompression v
        = { last_visited_latency_ := 5, last_visited_internal_latency_ := 17 })
    ∧ (instr.GetKind = InstructionKind.kInstanceOf →
      instr.Accept kUseStringCompression v
        = { last_visited_latency_ := 2, last_visited_internal_latency_ := 10 }) := by
  unfold HInstruction.IsHelperCallCase at hcall
  unfold HInstruction.Accept
  cases hk : instr.GetKind <;> rw [hk] at hcall <;>
    simp only [Bool.false_eq_true] at hcall
  case kOtherInvoke =>
    simp [SchedulingLatencyVisitorARM64.VisitInvoke, kArm64CallInternalLatency,
      kArm64CallLatency]
  case kRem =>
    simp [SchedulingLatencyVisitorARM64.VisitRem, hcall, kArm64CallInternalLatency,
      kArm64CallLatency]
  case kInstanceOf =>
    simp [SchedulingLatencyVisitorARM64.VisitInstanceOf, kArm64CallInternalLatency,
      kArm64IntegerOpLatency]
  case kNewArray =>
    simp [SchedulingLatencyVisitorARM64.VisitNewArray, kArm64CallInternalLatency,
      kArm64IntegerOpLatency, kArm64CallLatency]
  case kNewInstance =>
    cases hs : instr.IsStringAlloc <;>
      simp [SchedulingLatencyVisitorARM64.VisitNewInstance, hs, kArm64CallInternalLatency,
        kArm64MemoryLoadLatency, kArm64CallLatency]

/-- An invoke gets the pair (5, 10), whatever the visitor held before. -/
theorem helper_call_latencies_witness :
    (plainInstruction InstructionKind.kOtherInvoke DataType.kInt32).IsHelperCallCase = true
    ∧ (plainInstruction InstructionKind.kOtherInvoke DataType.kInt32).Accept true
          { last_visited_latency_ := 30, last_visited_internal_latency_ := 7 }
        = { last_visited_latency_ := 5, last_visited_internal_latency_ := 10 } :=
  ⟨rfl, (helper_call_latencies true
    { last_visited_latency_ := 30, last_visited_internal_latency_ := 7 }
    (plainInstruction InstructionKind.kOtherInvoke DataType.kInt32) rfl).2.1 (Or.inl rfl)⟩

/-- C17 as stated fails: `HInstanceOf` is given the latency `kArm64IntegerOpLatency` (2), not
`kArm64CallLatency` (5). -/
theorem instance_of_latency_not_call_latency :
    (plainInstruction InstructionKind.kInstanceOf DataType.kBool).IsHelperCallCase = true
    ∧ ((plainInstruction InstructionKind.kInstanceOf DataType.kBool).Accept true
          SchedulingLatencyVisitor.new).last_visited_latency_ ≠ kArm64CallLatency := by
  decide

/-! ## The two selectors (C18, C19) -/

/-- C18: on a non-empty candidate vector and for every draw of `rand_r`, the random
selector computes the index `draw % size`, which is in bounds, returns the node stored at
that index and leaves the vector one element shorter: the last element is moved into the
vacated slot, the other slots keep their node, so that the vector holds, as a multiset,
exactly the other candidates. -/
theorem random_pop_spec (rand_r : Nat → Nat × Nat) (seed_ : Nat) (nodes : List Nat)
    (graph : SchedulingGraph) (hne : nodes ≠ []) :
    (rand_r seed_).1 % nodes.length < nodes.length
    ∧ nodes[(rand_r seed_).1 % nodes.length]?
        = some ((RandomSchedulingNodeSelector rand_r).PopHighestPriorityNode
            seed_ nodes graph).1
    ∧ ((RandomSchedulingNodeSelector rand_r).PopHighestPriorityNode
          seed_ nodes graph).2.1.length + 1 = nodes.length
    ∧ nodes.Perm
        (((RandomSchedulingNodeSelector rand_r).PopHighestPriorityNode seed_ nodes graph).1
          :: ((RandomSchedulingNodeSelector rand_r).PopHighestPriorityNode
                seed_ nodes graph).2.1)
    ∧ ∀ j, j < nodes.length - 1 →
        ((RandomSchedulingNodeSelector rand_r).PopHighestPriorityNode
            seed_ nodes graph).2.1[j]?
          = if j = (rand_r seed_).1 % nodes.length then nodes.getLast? else nodes[j]? := by
  have hpos : 0 < nodes.length := List.length_pos.mpr hne
  have hlt : (rand_r seed_).1 % nodes.length < nodes.length := Nat.mod_lt _ hpos
  refine ⟨hlt, ?_, ?_, ?_, ?_⟩
  · unfold RandomSchedulingNodeSelector
    simp only [List.getD_eq_getElem?_getD]
    rw [List.getElem?_eq_getElem hlt]
    rfl
  · unfold RandomSchedulingNodeSelector
    simp only [length_DeleteNodeAtIndex]
    omega
  · unfold RandomSchedulingNodeSelector
    exact DeleteNodeAtIndex_perm nodes _ hlt
  · intro j hj
    unfold RandomSchedulingNodeSelector
    exact getElem?_DeleteNodeAtIndex nodes _ j hj

/-- The candidates `[7, 8, 9]` and a draw of 4: the index is 1, the node `8` is returned and
`[7, 9]` is left. -/
theorem random_pop_spec_witness :
    ([7, 8, 9] : List Nat) ≠ []
    ∧ ((RandomSchedulingNodeSelector (constantDraw 4)).PopHighestPriorityNode
          0 [7, 8, 9] SchedulingGraph.new).1 = 8
    ∧ ((RandomSchedulingNodeSelector (constantDraw 4)).PopHighestPriorityNode
          0 [7, 8, 9] SchedulingGraph.new).2.1 = [7, 9]
    ∧ ([7, 8, 9] : List Nat).Perm
        (((RandomSchedulingNodeSelector (constantDraw 4)).PopHighestPriorityNode
            0 [7, 8, 9] SchedulingGraph.new).1
          :: ((RandomSchedulingNodeSelector (constantDraw 4)).PopHighestPriorityNode
                0 [7, 8, 9] SchedulingGraph.new).2.1) :=
  ⟨by decide, by decide, by decide,
    (random_pop_spec (constantDraw 4) 0 [7, 8, 9] SchedulingGraph.new (by decide)).2.2.2.1⟩

/-- C19: on a non-empty candidate vector the critical-path selector removes and returns one of
the candidates, whose `critical_path_` is maximal among them whatever the tie-breaks
say; afterwards `prev_select_` is the returned node, and `Reset()` sets it back to null. -/
theorem critical_path_pop_spec (ir : HGraph) (prev_select_ : Option Nat) (nodes : List Nat)
    (graph : SchedulingGraph) (hne : nodes ≠ []) :
    nodes.Perm
        (((CriticalPathSchedulingNodeSelector ir).PopHighestPriorityNode
            prev_select_ nodes graph).1
          :: ((CriticalPathSchedulingNodeSelector ir).PopHighestPriorityNode
                prev_select_ nodes graph).2.1)
    ∧ (∀ c, c ∈ nodes →
        (nodeAt graph.arena c).critical_path_
          ≤ (nodeAt graph.arena ((CriticalPathSchedulingNodeSelector ir).PopHighestPriorityNode
              prev_select_ nodes graph).1).critical_path_)
    ∧ ((CriticalPathSchedulingNodeSelector ir).PopHighestPriorityNode
          prev_select_ nodes graph).2.2
        = some ((CriticalPathSchedulingNodeSelector ir).PopHighestPriorityNode
            prev_select_ nodes graph).1
    ∧ (CriticalPathSchedulingNodeSelector ir).Reset
        ((CriticalPathSchedulingNodeSelector ir).PopHighestPriorityNode
          prev_select_ nodes graph).2.2 = none := by
  refine ⟨critical_path_contract ir prev_select_ nodes graph hne, ?_, rfl, rfl⟩
  intro c hc
  obtain ⟨i, hi, rfl⟩ := List.getElem_of_mem hc
  have h := (foldl_select_max ir graph prev_select_ nodes (List.range nodes.length) 0).2 i
    (List.mem_range.mpr hi)
  rw [List.getD_eq_getElem?_getD, List.getElem?_eq_getElem hi] at h
  exact h

/-- The three nodes of the header example after seeding, the candidates `[1, 0, 2]` of which
`0` has the longest critical path. -/
theorem critical_path_pop_spec_witness :
    ([1, 0, 2] : List Nat) ≠ []
    ∧ ((CriticalPathSchedulingNodeSelector exampleIR).PopHighestPriorityNode
          none [1, 0, 2] criticalGraph).1 = 0
    ∧ ∀ c, c ∈ ([1, 0, 2] : List Nat) →
        (nodeAt criticalGraph.arena c).critical_path_
          ≤ (nodeAt criticalGraph.arena
              ((CriticalPathSchedulingNodeSelector exampleIR).PopHighestPriorityNode
                none [1, 0, 2] criticalGraph).1).critical_path_ :=
  ⟨by decide, by decide,
    (critical_path_pop_spec exampleIR none [1, 0, 2] criticalGraph (by decide)).2.1⟩

/-! ## The abort of `BuildSchedulingGraph` (C20) -/

/-- C20, as the code has it: when the latency visitor returns on every instruction of the
block, `BuildSchedulingGraph` aborts with the failure of its `CHECK_EQ` if and only if
some instruction of the block reports an owning block other than the block being built,
and when every instruction reports that block it completes and returns the graph and the
node list. -/
theorem build_check_failure_iff (ir : HGraph) (isB : Nat → Bool)
    (Accept : Nat → SchedulingLatencyVisitor → Option SchedulingLatencyVisitor)
    (block : HBasicBlock) (v : SchedulingLatencyVisitor)
    (hreturns : ∀ x, x ∈ block.instructions → ∀ w, (Accept x w).isSome = true) :
    (BuildSchedulingGraphOutcome ir isB Accept block v = Except.error BuildAbort.CheckFailed
      ↔ ∃ x, x ∈ block.instructions ∧ ir.GetBlock x ≠ block.block_id)
    ∧ ((∀ x, x ∈ block.instructions → ir.GetBlock x = block.block_id) →
        ∃ built, BuildSchedulingGraphOutcome ir isB Accept block v = Except.ok built
          ∧ BuildSchedulingGraph ir isB Accept block v = some built) := by
  obtain ⟨h1, h2⟩ := BuildSchedulingGraphFrom_check ir isB Accept block.block_id
    block.instructions.reverse SchedulingGraph.new [] v
    (fun x hx => hreturns x (List.mem_reverse.mp hx))
  have hiff : BuildSchedulingGraphOutcome ir isB Accept block v
      = Except.error BuildAbort.CheckFailed
      ↔ ∃ x, x ∈ block.instructions ∧ ir.GetBlock x ≠ block.block_id := by
    unfold BuildSchedulingGraphOutcome
    rw [h1]
    constructor
    · rintro ⟨x, hx, hne⟩
      exact ⟨x, List.mem_reverse.mp hx, hne⟩
    · rintro ⟨x, hx, hne⟩
      exact ⟨x, List.mem_reverse.mpr hx, hne⟩
  refine ⟨hiff, ?_⟩
  intro hall
  have hnc : BuildSchedulingGraphOutcome ir isB Accept block v
      ≠ Except.error BuildAbort.CheckFailed := by
    intro hc
    obtain ⟨x, hx, hne⟩ := hiff.mp hc
    exact hne (hall x hx)
  have hnf : BuildSchedulingGraphOutcome ir isB Accept block v
      ≠ Except.error BuildAbort.LatencyFatal := h2
  unfold BuildSchedulingGraph
  cases hout : BuildSchedulingGraphOutcome ir isB Accept block v with
  | ok built => exact ⟨built, rfl, rfl⟩
  | error e =>
    cases e
    · exact absurd hout hnc
    · exact absurd hout hnf

/-- The header example under the ARM64 latency visitor, which returns on every instruction:
all three instructions are in block 0 and the construction returns. -/
theorem build_check_failure_iff_witness :
    (∀ x, x ∈ exampleBlock.instructions → ∀ w,
      (SchedulingLatencyVisitorARM64.Accept exampleCode true x w).isSome = true)
    ∧ (∀ x, x ∈ exampleBlock.instructions → exampleIR.GetBlock x = exampleBlock.block_id)
    ∧ ∃ built, BuildSchedulingGraphOutcome exampleIR (fun _ => false)
          (SchedulingLatencyVisitorARM64.Accept exampleCode true) exampleBlock
          SchedulingLatencyVisitor.new = Except.ok built
        ∧ BuildSchedulingGraph exampleIR (fun _ => false)
          (SchedulingLatencyVisitorARM64.Accept exampleCode true) exampleBlock
          SchedulingLatencyVisitor.new = some built :=
  ⟨fun _ _ _ => rfl, by decide,
    (build_check_failure_iff exampleIR (fun _ => false)
      (SchedulingLatencyVisitorARM64.Accept exampleCode true) exampleBlock
      SchedulingLatencyVisitor.new (fun _ _ _ => rfl)).2 (by decide)⟩

/-- C20 as stated fails for a visitor that aborts: every instruction of the header example
reports block 0, yet under the visitor that handles no kind the construction does not
return; it ends in the `LOG(FATAL)` of the visit, not in a `CHECK` failure. -/
theorem build_aborts_in_latency_visit :
    (∀ x, x ∈ exampleBlock.instructions → exampleIR.GetBlock x = exampleBlock.block_id)
    ∧ BuildSchedulingGraphOutcome exampleIR (fun _ => false) unhandledAccept exampleBlock
        SchedulingLatencyVisitor.new = Except.error BuildAbort.LatencyFatal := by
  decide

/-! ## Lemmas on the ARM64 tables, on the construction and on the loop states -/

theorem land_pred_eq_zero_iff (n : Nat) (hn : 0 < n) :
    n &&& (n - 1) = 0 ↔ ∃ k, n = 2 ^ k := by
  induction n using Nat.strong_induction_on with
  | _ n ih =>
    rcases Nat.even_or_odd' n with ⟨m, hm | hm⟩
    · -- n = 2 * m
      have hm0 : 0 < m := by omega
      have h1 : n = Nat.bit false m := by simp [Nat.bit_val, hm]
      have h2 : n - 1 = Nat.bit true (m - 1) := by simp [Nat.bit_val]; omega
      rw [h2]
      nth_rewrite 1 [h1]
      rw [Nat.land_bit]
      simp only [Bool.false_and, Nat.bit_false]
      have ihm := ih m (by omega) hm0
      constructor
      · intro h
        have : m &&& (m - 1) = 0 := by omega
        obtain ⟨k, hk⟩ := ihm.mp this
        exact ⟨k + 1, by rw [hm, hk, pow_succ]; ring⟩
      · rintro ⟨k, hk⟩
        cases k with
        | zero => omega
        | succ k =>
          have : m = 2 ^ k := by rw [pow_succ] at hk; omega
          have := ihm.mpr ⟨k, this⟩
          omega
    · -- n = 2 * m + 1
      have h1 : n = Nat.bit true m := by simp [Nat.bit_val, hm]
      have h2 : n - 1 = Nat.bit false m := by simp [Nat.bit_val]; omega
      rw [h2]
      nth_rewrite 1 [h1]
      rw [Nat.land_bit]
      simp only [Bool.and_false, Nat.and_self, Nat.bit_false]
      constructor
      · intro h
        exact ⟨0, by omega⟩
      · rintro ⟨k, hk⟩
        cases k with
        | zero => omega
        | succ k => rw [pow_succ] at hk; omega

theorem IsPowerOfTwo_AbsOrMin_iff (imm : Int) (hlo : -9223372036854775808 ≤ imm)
    (hhi : imm < 9223372036854775808) (h0 : imm ≠ 0) :
    IsPowerOfTwo (AbsOrMin imm) = true ↔ ∃ k, imm.natAbs = 2 ^ k := by
  unfold AbsOrMin
  by_cases hmin : imm = -9223372036854775808
  · subst hmin
    simp only [if_true]
    constructor
    · intro _
      exact ⟨63, by decide⟩
    · intro _
      decide
  · rw [if_neg hmin]
    have hpos : 0 < imm.natAbs := Int.natAbs_pos.mpr h0
    have hlt : imm.natAbs < 9223372036854775808 := by omega
    unfold IsPowerOfTwo
    have hbits : ((Int.ofNat imm.natAbs) % 18446744073709551616).toNat = imm.natAbs := by
      have : (Int.ofNat imm.natAbs) % 18446744073709551616 = Int.ofNat imm.natAbs := by
        apply Int.emod_eq_of_lt
        · exact Int.ofNat_nonneg _
        · have : (imm.natAbs : Int) < 18446744073709551616 := by omega
          exact this
      rw [this]
      rfl
    simp only [hbits]
    have hpred : (imm.natAbs + 18446744073709551615) % 18446744073709551616
        = imm.natAbs - 1 := by
      omega
    rw [hpred, beq_iff_eq]
    exact land_pred_eq_zero_iff imm.natAbs hpos

theorem Accept_history (instruction : HInstruction) (kUseStringCompression : Bool)
    (v1 v2 : SchedulingLatencyVisitor) :
    instruction.Accept kUseStringCompression { v1 with last_visited_internal_latency_ := 0 }
      = instruction.Accept kUseStringCompression
          { v2 with last_visited_internal_latency_ := 0 } := by
  unfold HInstruction.Accept
  split
  case h_1 =>
    unfold SchedulingLatencyVisitorARM64.VisitArrayGet
    simp only []
    split <;> rfl
  case h_11 =>
    unfold SchedulingLatencyVisitorARM64.VisitNewInstance
    simp only []
    split <;> rfl
  case h_22 =>
    unfold SchedulingLatencyVisitorARM64.VisitVecNot
    simp only []
    split <;> rfl
  case h_39 =>
    unfold SchedulingLatencyVisitorARM64.VisitVecLoad
      SchedulingLatencyVisitorARM64.HandleVecAddress
    simp only []
    split <;> split <;> rfl
  case h_40 =>
    unfold SchedulingLatencyVisitorARM64.VisitVecStore
      SchedulingLatencyVisitorARM64.HandleVecAddress
    simp only []
    split <;> rfl
  all_goals rfl

theorem VisitDivChecked_eq (v : SchedulingLatencyVisitor) (instr : HInstruction) :
    SchedulingLatencyVisitorARM64.VisitDivChecked v instr
      = some (SchedulingLatencyVisitorARM64.VisitDiv v instr) := by
  unfold SchedulingLatencyVisitorARM64.VisitDivChecked SchedulingLatencyVisitorARM64.VisitDiv
  cases hc : instr.RightConstant with
  | none => cases hty : instr.GetResultType <;> rfl
  | some imm =>
    by_cases h0 : imm = 0
    · cases hty : instr.GetResultType <;> simp [h0]
    · by_cases h1 : imm = 1 ∨ imm = -1
      · cases hty : instr.GetResultType <;> simp [h0, h1]
      · have h2 : imm ≤ -2 ∨ imm ≥ 2 := by omega
        cases hp : IsPowerOfTwo (AbsOrMin imm) <;>
          cases hty : instr.GetResultType <;> simp [h0, h1, h2, hp]

theorem VisitRemChecked_eq (v : SchedulingLatencyVisitor) (instr : HInstruction) :
    SchedulingLatencyVisitorARM64.VisitRemChecked v instr
      = some (SchedulingLatencyVisitorARM64.VisitRem v instr) := by
  unfold SchedulingLatencyVisitorARM64.VisitRemChecked SchedulingLatencyVisitorARM64.VisitRem
  cases hfp : instr.GetResultType.IsFloatingPointType
  · cases hc : instr.RightConstant with
    | none => simp
    | some imm =>
      by_cases h0 : imm = 0
      · simp [h0]
      · by_cases h1 : imm = 1 ∨ imm = -1
        · simp [h0, h1]
        · have h2 : imm ≤ -2 ∨ imm ≥ 2 := by omega
          cases hp : IsPowerOfTwo (AbsOrMin imm) <;> simp [h0, h1, h2, hp]
  · simp

theorem nodup_insertEdge (d : Bool) (a : List SchedulingNode) (s p : Nat)
    (hd : ∀ i, (nodeAt a i).data_predecessors_.Nodup)
    (ho : ∀ i, (nodeAt a i).other_predecessors_.Nodup)
    (hnew : if d = true then p ∉ (nodeAt a s).data_predecessors_
      else p ∉ (nodeAt a s).other_predecessors_) :
    (∀ i, (nodeAt (insertEdge d a s p) i).data_predecessors_.Nodup)
      ∧ ∀ i, (nodeAt (insertEdge d a s p) i).other_predecessors_.Nodup := by
  constructor
  · intro i
    rw [data_insertEdge]
    by_cases hc : (s = i ∧ i < a.length) ∧ d = true
    · obtain ⟨⟨rfl, hs⟩, rfl⟩ := hc
      simp only [if_true] at hnew
      simp only [hs, and_self, if_true]
      exact List.Nodup.append (hd s) (List.nodup_singleton p)
        (by simpa [List.disjoint_singleton] using hnew)
    · simp only [hc, if_false, List.append_nil]
      exact hd i
  · intro i
    rw [other_insertEdge]
    by_cases hc : (s = i ∧ i < a.length) ∧ d = false
    · obtain ⟨⟨rfl, hs⟩, rfl⟩ := hc
      simp only [Bool.false_eq_true, if_false] at hnew
      simp only [hs, and_self, if_true]
      exact List.Nodup.append (ho s) (List.nodup_singleton p)
        (by simpa [List.disjoint_singleton] using hnew)
    · simp only [hc, if_false, List.append_nil]
      exact ho i

theorem nodup_run (a : List SchedulingNode) (c : PredecessorCall)
    (hd : ∀ i, (nodeAt a i).data_predecessors_.Nodup)
    (ho : ∀ i, (nodeAt a i).other_predecessors_.Nodup) :
    (∀ i, (nodeAt (c.run a) i).data_predecessors_.Nodup)
      ∧ ∀ i, (nodeAt (c.run a) i).other_predecessors_.Nodup := by
  by_cases hg : (if c.is_data = true then
      c.predecessor ∈ (nodeAt a c.self).data_predecessors_
      else c.predecessor ∈ (nodeAt a c.self).other_predecessors_
        ∨ c.predecessor ∈ (nodeAt a c.self).data_predecessors_)
  · rw [run_eq, if_pos hg]
    exact ⟨hd, ho⟩
  · rw [run_eq, if_neg hg]
    apply nodup_insertEdge c.is_data a c.self c.predecessor hd ho
    cases hdata : c.is_data
    · rw [hdata] at hg
      simp only [Bool.false_eq_true, if_false, not_or] at hg ⊢
      exact hg.1
    · rw [hdata] at hg
      simpa using hg

theorem nodup_RunCalls (calls : List PredecessorCall) :
    ∀ a : List SchedulingNode,
      (∀ i, (nodeAt a i).data_predecessors_.Nodup) →
      (∀ i, (nodeAt a i).other_predecessors_.Nodup) →
      (∀ i, (nodeAt (RunCalls a calls) i).data_predecessors_.Nodup)
        ∧ ∀ i, (nodeAt (RunCalls a calls) i).other_predecessors_.Nodup := by
  induction calls with
  | nil => intro a hd ho; exact ⟨hd, ho⟩
  | cons c t ih =>
    intro a hd ho
    unfold RunCalls
    rw [List.foldl_cons]
    obtain ⟨h1, h2⟩ := nodup_run a c hd ho
    exact ih (c.run a) h1 h2

theorem foldl_MaybeUpdateCriticalPath (xs : List Nat) :
    ∀ n : SchedulingNode,
      xs.foldl SchedulingNode.MaybeUpdateCriticalPath n
        = { n with critical_path_ := xs.foldl max n.critical_path_ } := by
  induction xs with
  | nil => intro n; rfl
  | cons x t ih =>
    intro n
    simp only [List.foldl_cons]
    rw [ih]
    rfl

theorem foldl_max_perm (xs ys : List Nat) (h : xs.Perm ys) :
    ∀ m : Nat, xs.foldl max m = ys.foldl max m := by
  induction h with
  | nil => intro m; rfl
  | cons x _ ih => intro m; simp only [List.foldl_cons]; exact ih _
  | swap x y l =>
    intro m
    simp only [List.foldl_cons]
    rw [Nat.max_assoc, Nat.max_comm y x, ← Nat.max_assoc]
  | trans _ _ ih1 ih2 => intro m; exact (ih1 m).trans (ih2 m)

theorem foldl_SetOnlyOptimizeLoopBlocks {σ : Type} (flags : List Bool) :
    ∀ self : HScheduler σ,
      (flags.foldl HScheduler.SetOnlyOptimizeLoopBlocks self).only_optimize_loop_blocks_
        = flags.getLastD self.only_optimize_loop_blocks_ := by
  induction flags with
  | nil => intro self; rfl
  | cons b t ih =>
    intro self
    simp only [List.foldl_cons]
    rw [ih]
    cases t <;> rfl

theorem foldl_max_ge (xs : List Nat) :
    ∀ m : Nat, m ≤ xs.foldl max m ∧ ∀ z, z ∈ xs → z ≤ xs.foldl max m := by
  induction xs with
  | nil => intro m; exact ⟨Nat.le_refl _, fun z hz => absurd hz (List.not_mem_nil _)⟩
  | cons x t ih =>
    intro m
    simp only [List.foldl_cons]
    obtain ⟨h1, h2⟩ := ih (max m x)
    refine ⟨Nat.le_trans (Nat.le_max_left _ _) h1, ?_⟩
    intro z hz
    rcases List.mem_cons.mp hz with rfl | ht
    · exact Nat.le_trans (Nat.le_max_right _ _) h1
    · exact h2 z ht

theorem foldl_max_mem (xs : List Nat) :
    ∀ m : Nat, xs.foldl max m = m ∨ xs.foldl max m ∈ xs := by
  induction xs with
  | nil => intro m; exact Or.inl rfl
  | cons x t ih =>
    intro m
    simp only [List.foldl_cons]
    rcases ih (max m x) with h | h
    · rw [h]
      rcases Nat.le_total m x with hle | hle
      · rw [Nat.max_eq_right hle]
        exact Or.inr (List.mem_cons_self _ _)
      · rw [Nat.max_eq_left hle]
        exact Or.inl rfl
    · exact Or.inr (List.mem_cons_of_mem _ h)

theorem ScheduleNode_visits {σ : Type} (st : ScheduleState σ) (c : Nat) :
    (ScheduleNode st c).graph.arena
        = ((PredecessorVisits st.graph.arena c).foldl
            (fun r q => VisitPredecessor q.1 r q.2) (st.graph.arena, st.candidates)).1
      ∧ (ScheduleNode st c).candidates
        = ((PredecessorVisits st.graph.arena c).foldl
            (fun r q => VisitPredecessor q.1 r q.2) (st.graph.arena, st.candidates)).2 := by
  unfold PredecessorVisits
  rw [← visit_two_folds]
  exact ⟨rfl, rfl⟩

theorem loopReaches_inv {σ : Type} (selector_ : SchedulingNodeSelector σ)
    (hsel : SelectorContract selector_) (a0 : List SchedulingNode) (hwf : ArenaWF a0)
    (hN : a0.length < 2147483648)
    (hinj : ∀ i j, i < a0.length → j < a0.length → instrAt a0 i = instrAt a0 j → i = j)
    (init : ScheduleState σ) (U0 : List Nat) (hinit : LoopInv a0 init U0)
    (st : ScheduleState σ) (hreach : LoopReaches selector_ init st) :
    ∃ U, LoopInv a0 st U := by
  induction hreach with
  | start => exact ⟨U0, hinit⟩
  | step st2 _ hne ih =>
    obtain ⟨U, hU⟩ := ih
    obtain ⟨c, _, hinv, _⟩ := ScheduleStep_inv selector_ hsel a0 hwf hN hinj st2 U hU hne
    exact ⟨U.erase c, hinv⟩

theorem visits_ready {σ : Type} (a0 : List SchedulingNode) (hwf : ArenaWF a0)
    (hN : a0.length < 2147483648) (st : ScheduleState σ) (U : List Nat)
    (hinv : LoopInv a0 st U) (c : Nat) (hc : c ∈ st.candidates) :
    (∀ q, q ∈ PredecessorVisits st.graph.arena c → q.2 < st.graph.arena.length)
      ∧ (∀ j, ((PredecessorVisits st.graph.arena c).map Prod.snd).count j
          ≤ nusAt st.graph.arena j)
      ∧ ∀ q, q ∈ PredecessorVisits st.graph.arena c →
          nusAt st.graph.arena q.2 < kUint32Modulus := by
  obtain ⟨hcU, _⟩ := (hinv.cands_iff c).mp hc
  have hUlt : ∀ x, x ∈ U → x < a0.length := fun x hx =>
    List.mem_range.mp (hinv.perm.mem_iff.mp (List.mem_append_left _ hx))
  have hcN : c < a0.length := hUlt c hcU
  have hlen : st.graph.arena.length = a0.length := hinv.links.length
  have hP : ∀ x, x ∈ predsAt a0 c → x < a0.length := fun x hx => (hwf.later c hcN x hx).2
  have hcount2 : ∀ i j, (predsAt a0 i).count j ≤ 2 := fun i j =>
    count_predecessors_le _ (hwf.nodup_data i) (hwf.nodup_other i) j
  have hUlen : U.length ≤ a0.length := by
    have := hinv.perm.length_eq
    simp only [List.length_append, List.length_range] at this
    omega
  have hnus_le : ∀ j, (predsAt a0 c).count j ≤ nusAt st.graph.arena j := by
    intro j
    by_cases hj : j < a0.length
    · rw [hinv.counts j hj, succCount_erase a0 c U j hcU]
      omega
    · rw [List.count_eq_zero_of_not_mem (fun h => hj (hP j h))]
      exact Nat.zero_le _
  have hbound : ∀ j, j < a0.length → nusAt st.graph.arena j < kUint32Modulus := by
    intro j hj
    rw [hinv.counts j hj]
    have := succCount_le a0 U j (fun i => hcount2 i j)
    unfold kUint32Modulus
    omega
  have hPL : (PredecessorVisits st.graph.arena c).map Prod.snd = predsAt a0 c := by
    unfold PredecessorVisits
    rw [hinv.links.data c, hinv.links.other c]
    simp [predsAt, SchedulingNode.predecessors, Function.comp_def]
  have hmem : ∀ q, q ∈ PredecessorVisits st.graph.arena c → q.2 ∈ predsAt a0 c := by
    intro q hq
    rw [← hPL]
    exact List.mem_map_of_mem _ hq
  refine ⟨?_, ?_, ?_⟩
  · intro q hq
    rw [hlen]
    exact hP _ (hmem q hq)
  · intro j
    rw [hPL]
    exact hnus_le j
  · intro q hq
    exact hbound _ (hP _ (hmem q hq))

theorem visit_prefix (PL : List (Option Nat × Nat)) (acc : List SchedulingNode × List Nat)
    (h1 : ∀ q, q ∈ PL → q.2 < acc.1.length)
    (h2 : ∀ j, (PL.map Prod.snd).count j ≤ nusAt acc.1 j)
    (h3 : ∀ q, q ∈ PL → nusAt acc.1 q.2 < kUint32Modulus)
    (pre : List (Option Nat × Nat)) (q : Option Nat × Nat) (post : List (Option Nat × Nat))
    (hsplit : PL = pre ++ q :: post) :
    q.2 < (pre.foldl (fun r q => VisitPredecessor q.1 r q.2) acc).1.length
      ∧ 1 ≤ nusAt (pre.foldl (fun r q => VisitPredecessor q.1 r q.2) acc).1 q.2
      ∧ nusAt (pre.foldl (fun r q => VisitPredecessor q.1 r q.2) acc).1 q.2
          < kUint32Modulus := by
  have hsub : ∀ x, x ∈ pre → x ∈ PL := fun x hx => by
    rw [hsplit]; exact List.mem_append_left _ hx
  have hq : q ∈ PL := by
    rw [hsplit]; exact List.mem_append_right _ (List.mem_cons_self _ _)
  have hcount : ∀ j, (pre.map Prod.snd).count j + (if j = q.2 then 1 else 0)
      ≤ (PL.map Prod.snd).count j := by
    intro j
    rw [hsplit]
    simp only [List.map_append, List.map_cons, List.count_append, List.count_cons]
    by_cases hj : j = q.2
    · subst hj
      simp
    · have : ¬ (q.2 = j) := fun h => hj h.symm
      simp [hj, this]
  obtain ⟨f1, f2, _⟩ := visitFold_spec pre acc (fun x hx => h1 x (hsub x hx))
    (fun j => by have := hcount j; have := h2 j; omega)
    (fun x hx => h3 x (hsub x hx))
  have hq2 := hcount q.2
  simp only [if_true] at hq2
  have hq3 := h2 q.2
  have hq4 := h3 q hq
  refine ⟨?_, ?_, ?_⟩
  · rw [f1.length]
    exact h1 q hq
  · rw [f2 q.2]
    omega
  · rw [f2 q.2]
    omega

theorem timesKept_refl (a : List SchedulingNode) : TimesKept a a :=
  ⟨fun _ => rfl, fun _ => rfl, fun _ => rfl⟩

theorem timesKept_trans {a1 a2 a3 : List SchedulingNode} (h12 : TimesKept a1 a2)
    (h23 : TimesKept a2 a3) : TimesKept a1 a3 :=
  ⟨fun i => (h23.latency i).trans (h12.latency i),
    fun i => (h23.internal i).trans (h12.internal i),
    fun i => (h23.critical i).trans (h12.critical i)⟩

theorem timesKept_insertEdge (d : Bool) (a : List SchedulingNode) (s p : Nat) :
    TimesKept a (insertEdge d a s p) := by
  refine ⟨?_, ?_, ?_⟩ <;> intro i <;> rw [nodeAt_insertEdge] <;>
    by_cases hi : i < a.length <;> by_cases hp : p = i <;> by_cases hs : s = i <;>
    cases d <;>
    simp [hi, hp, hs, SchedulingNode.IncrementNumberOfUnscheduledSuccessors,
      SchedulingNode.pushDataPredecessor, SchedulingNode.pushOtherPredecessor]

theorem timesKept_AddDependency (a : List SchedulingNode) (s p : Nat) (d : Bool) :
    TimesKept a (AddDependency a s p d) := by
  unfold AddDependency
  split
  · rw [AddDataPredecessor_eq]
    split
    · exact timesKept_refl a
    · exact timesKept_insertEdge true a s p
  · rw [AddOtherPredecessor_eq]
    split
    · exact timesKept_refl a
    · exact timesKept_insertEdge false a s p

theorem timesKept_cond (c : Bool) (a b : List SchedulingNode) (s p : Nat) (d : Bool)
    (h : TimesKept a b) : TimesKept a (if c then AddDependency b s p d else b) := by
  split
  · exact timesKept_trans h (timesKept_AddDependency b s p d)
  · exact h

theorem timesKept_dataFold (instruction node other : Nat) (ins : List Nat) :
    ∀ a b : List SchedulingNode, TimesKept a b →
      TimesKept a (ins.foldl
        (fun a input => if input = instruction then AddDataDependency a other node else a)
        b) := by
  induction ins with
  | nil => intro a b h; exact h
  | cons x t ih =>
    intro a b h
    simp only [List.foldl_cons]
    apply ih
    split
    · exact timesKept_trans h (timesKept_AddDependency b other node true)
    · exact h

theorem timesKept_AddDependenciesAgainst (ir : HGraph) (a : List SchedulingNode)
    (node other : Nat) (isb : Bool) :
    TimesKept a (AddDependenciesAgainst ir a node other isb) := by
  unfold AddDependenciesAgainst AddOtherDependency
  simp only []
  exact timesKept_cond _ a _ other node false
    (timesKept_cond _ a _ other node false
      (timesKept_cond _ a _ other node false
        (timesKept_dataFold _ node other _ a a (timesKept_refl a))))

theorem timesKept_addDepsFold (ir : HGraph) (node : Nat) (isb : Bool) (L : List Nat) :
    ∀ a : List SchedulingNode,
      TimesKept a (L.foldl (fun a o => AddDependenciesAgainst ir a node o isb) a) := by
  induction L with
  | nil => intro a; exact timesKept_refl a
  | cons x t ih =>
    intro a
    simp only [List.foldl_cons]
    exact timesKept_trans (timesKept_AddDependenciesAgainst ir a node x isb) (ih _)

theorem AddNode_arena (ir : HGraph) (g : SchedulingGraph) (instr : Nat) (isb : Bool) :
    (g.AddNode ir instr isb).2 = g.arena.length
      ∧ Extends (g.arena ++ [SchedulingNode.new instr isb]) (g.AddNode ir instr isb).1.arena
      ∧ TimesKept (g.arena ++ [SchedulingNode.new instr isb])
          (g.AddNode ir instr isb).1.arena := by
  unfold SchedulingGraph.AddNode SchedulingGraph.AddDependencies
  simp only [arena_insertNode]
  exact ⟨trivial, addDepsFold_extends ir g.arena.length isb _ _,
    timesKept_addDepsFold ir g.arena.length isb _ _⟩

theorem VisitorAfter_append
    (Accept : Nat → SchedulingLatencyVisitor → Option SchedulingLatencyVisitor)
    (l : List Nat) (x : Nat) :
    ∀ v w : SchedulingLatencyVisitor, VisitorAfter Accept v l = some w →
      VisitorAfter Accept v (l ++ [x])
        = w.CalculateLatency Accept (SchedulingNode.new x false) := by
  induction l with
  | nil =>
    intro v w h
    simp only [VisitorAfter, Option.some.injEq] at h
    subst h
    simp only [List.nil_append, VisitorAfter]
    cases v.CalculateLatency Accept (SchedulingNode.new x false) <;> rfl
  | cons y t ih =>
    intro v w h
    simp only [List.cons_append, VisitorAfter] at h ⊢
    cases hy : v.CalculateLatency Accept (SchedulingNode.new y false) with
    | none => rw [hy] at h; exact absurd h (by simp)
    | some u =>
      rw [hy] at h
      simp only [] at h ⊢
      exact ih u w h

theorem buildShape_nil (isB : Nat → Bool)
    (Accept : Nat → SchedulingLatencyVisitor → Option SchedulingLatencyVisitor)
    (v0 : SchedulingLatencyVisitor) :
    BuildShape isB Accept v0 [] SchedulingGraph.new [] v0 :=
  ⟨rfl, rfl, rfl, fun i hi => absurd hi (Nat.not_lt_zero i), rfl,
    fun i hi => absurd hi (Nat.not_lt_zero i)⟩

theorem buildShape_step (ir : HGraph) (isB : Nat → Bool)
    (Accept : Nat → SchedulingLatencyVisitor → Option SchedulingLatencyVisitor)
    (v0 : SchedulingLatencyVisitor) (done : List Nat) (g : SchedulingGraph)
    (nodes : List Nat) (v : SchedulingLatencyVisitor) (x : Nat)
    (visited : SchedulingLatencyVisitor)
    (hs : BuildShape isB Accept v0 done g nodes v) (hx : x ∉ done)
    (hv : v.CalculateLatency Accept
      (nodeAt (g.AddNode ir x (isB x)).1.arena (g.AddNode ir x (isB x)).2) = some visited) :
    BuildShape isB Accept v0 (done ++ [x])
      { (g.AddNode ir x (isB x)).1 with
        arena := List.modify
          (fun n => (n.SetLatency visited.last_visited_latency_).SetInternalLatency
            visited.last_visited_internal_latency_)
          (g.AddNode ir x (isB x)).2 (g.AddNode ir x (isB x)).1.arena }
      (nodes ++ [(g.AddNode ir x (isB x)).2]) visited := by
  obtain ⟨hA2, hAext, hAtimes⟩ := AddNode_arena ir g x (isB x)
  have hlen : g.arena.length = done.length := by
    rw [← hs.instrs, List.length_map]
  have hAlen : (g.AddNode ir x (isB x)).1.arena.length = done.length + 1 := by
    rw [hAext.length, List.length_append, List.length_singleton, hlen]
  have hv2 : v.CalculateLatency Accept (SchedulingNode.new x false) = some visited := by
    unfold SchedulingLatencyVisitor.CalculateLatency at hv ⊢
    rw [AddNode_instruction] at hv
    exact hv
  have hvis : VisitorAfter Accept v0 (done ++ [x]) = some visited := by
    rw [VisitorAfter_append Accept done x v0 v hs.visitor]
    exact hv2
  rw [hA2]
  refine ⟨?_, ?_, ?_, ?_, hvis, ?_⟩
  · show (List.modify _ _ _).map SchedulingNode.instruction_ = _
    rw [map_instruction_of_extends _ _
      (extends_trans hAext (extends_modify
        (fun n => (n.SetLatency visited.last_visited_latency_).SetInternalLatency
        visited.last_visited_internal_latency_)
        (fun _ => rfl) (fun _ => rfl) (fun _ => rfl) g.arena.length _))]
    rw [List.map_append, hs.instrs]
    rfl
  · rw [hs.nodes_eq, hlen, List.length_append, List.length_singleton, List.range_succ]
  · show (g.AddNode ir x (isB x)).1.nodes_map_ = _
    have hx2 : x ∉ g.nodes_map_.map Prod.fst := by
      rw [hs.map]
      intro hmem
      obtain ⟨kv, hkv, hk⟩ := List.mem_map.mp hmem
      rw [← hk] at hx
      exact hx (List.of_mem_zip hkv).1
    rw [nodes_map_AddNode ir g x (isB x) hx2, hs.map, hlen, List.length_append,
      List.length_singleton, List.range_succ, List.zip_append (by simp)]
    rfl
  · intro i hi
    show (nodeAt (List.modify _ _ _) i).is_scheduling_barrier_ = _
    rw [nodeAt_modify_field (fun n => n.is_scheduling_barrier_)
      (fun n => (n.SetLatency visited.last_visited_latency_).SetInternalLatency
        visited.last_visited_internal_latency_)
      (fun _ => rfl),
      hAext.barrier i, getD_append_singleton]
    simp only [List.length_append, List.length_singleton] at hi
    by_cases hlt : i < done.length
    · rw [if_pos hlt, nodeAt_append_left _ _ _ (by omega)]
      exact hs.barrier i hlt
    · have hie : i = done.length := by omega
      rw [if_neg hlt, if_pos hie, hie, ← hlen, nodeAt_append_singleton]
      rfl
  · intro i hi
    simp only [List.length_append, List.length_singleton] at hi
    by_cases hlt : i < done.length
    · obtain ⟨w, hw1, hw2, hw3⟩ := hs.latency i hlt
      refine ⟨w, ?_, ?_, ?_⟩
      · rw [List.take_append_of_le_length (by omega)]
        exact hw1
      · show (nodeAt (List.modify _ _ _) i).latency_ = _
        rw [nodeAt_modify, if_neg (by omega), hAtimes.latency i,
          nodeAt_append_left _ _ _ (by omega)]
        exact hw2
      · show (nodeAt (List.modify _ _ _) i).internal_latency_ = _
        rw [nodeAt_modify, if_neg (by omega), hAtimes.internal i,
          nodeAt_append_left _ _ _ (by omega)]
        exact hw3
    · have hie : i = done.length := by omega
      refine ⟨visited, ?_, ?_, ?_⟩
      · rw [List.take_of_length_le (by simp; omega)]
        exact hvis
      · show (nodeAt (List.modify _ _ _) i).latency_ = _
        rw [nodeAt_modify, if_pos ⟨by omega, by omega⟩]
        rfl
      · show (nodeAt (List.modify _ _ _) i).internal_latency_ = _
        rw [nodeAt_modify, if_pos ⟨by omega, by omega⟩]
        rfl

theorem BuildSchedulingGraphFrom_shape (ir : HGraph) (isB : Nat → Bool)
    (Accept : Nat → SchedulingLatencyVisitor → Option SchedulingLatencyVisitor) (bid : Nat)
    (v0 : SchedulingLatencyVisitor) (rest : List Nat) :
    ∀ (done : List Nat) (g : SchedulingGraph) (nodes : List Nat) (v : SchedulingLatencyVisitor)
      (r : SchedulingGraph × List Nat),
      BuildShape isB Accept v0 done g nodes v → (done ++ rest).Nodup →
      BuildSchedulingGraphFrom ir isB Accept bid rest g nodes v = Except.ok r →
      ∃ w, BuildShape isB Accept v0 (done ++ rest) r.1 r.2 w := by
  induction rest with
  | nil =>
    intro done g nodes v r hs _ hr
    simp only [BuildSchedulingGraphFrom, Except.ok.injEq] at hr
    subst hr
    exact ⟨v, by simpa using hs⟩
  | cons x t ih =>
    intro done g nodes v r hs hnd hr
    unfold BuildSchedulingGraphFrom at hr
    split at hr
    · exact absurd hr (by simp)
    · simp only [] at hr
      split at hr
      · exact absurd hr (by simp)
      · next visited hv =>
        have hx : x ∉ done := fun h =>
          (List.nodup_append.mp hnd).2.2 h (List.mem_cons_self _ _)
        have hstep := buildShape_step ir isB Accept v0 done g nodes v x visited hs hx hv
        obtain ⟨w, hw⟩ := ih (done ++ [x]) _ _ visited r hstep (by simpa using hnd) hr
        exact ⟨w, by simpa using hw⟩

theorem GetNode_zip (g : SchedulingGraph) (done : List Nat) (hnd : done.Nodup)
    (hmap : g.nodes_map_ = done.zip (List.range done.length)) (i : Nat)
    (hi : i < done.length) : g.GetNode (done.getD i 0) = some i := by
  unfold SchedulingGraph.GetNode
  rw [hmap, List.getD_eq_getElem _ _ hi]
  have hfind : (done.zip (List.range done.length)).find? (fun kv => kv.1 == done[i])
      = some (done[i], i) := by
    rw [List.find?_eq_some_iff_getElem]
    refine ⟨by simp, i, by simpa using hi, by simp, ?_⟩
    intro j hj
    have hne : done[j] ≠ done[i] := fun h => by
      have := (List.Nodup.getElem_inj_iff hnd).mp h
      omega
    simpa using hne
  rw [hfind]
  rfl

theorem GetNode_isSome (g : SchedulingGraph) (instr : Nat)
    (h : instr ∈ g.nodes_map_.map Prod.fst) : ∃ node, g.GetNode instr = some node := by
  unfold SchedulingGraph.GetNode
  obtain ⟨kv, hkv, hk⟩ := List.mem_map.mp h
  cases hf : g.nodes_map_.find? (fun kv => kv.1 == instr) with
  | none =>
    rw [List.find?_eq_none] at hf
    exact absurd (by simpa using hk) (hf kv hkv)
  | some r => exact ⟨r.2, rfl⟩

theorem nodes_map_AddNode_of_mem (ir : HGraph) (g : SchedulingGraph) (instr : Nat)
    (isb : Bool) (h : instr ∈ g.nodes_map_.map Prod.fst) :
    (g.AddNode ir instr isb).1.nodes_map_ = g.nodes_map_ := by
  unfold SchedulingGraph.AddNode SchedulingGraph.AddDependencies SchedulingGraph.insertNode
  simp only
  obtain ⟨node, hnode⟩ := GetNode_isSome
    { arena := g.arena ++ [SchedulingNode.new instr isb],
      contains_scheduling_barrier_ := g.contains_scheduling_barrier_,
      nodes_map_ := g.nodes_map_ } instr h
  rw [hnode]

theorem AddNodes_keys (ir : HGraph) (added : List (Nat × Bool)) :
    ∀ g : SchedulingGraph, (g.nodes_map_.map Prod.fst).Nodup →
      ((AddNodes ir g added).nodes_map_.map Prod.fst).Nodup
        ∧ ∀ x, x ∈ (AddNodes ir g added).nodes_map_.map Prod.fst ↔
            (x ∈ g.nodes_map_.map Prod.fst ∨ x ∈ added.map Prod.fst) := by
  induction added with
  | nil =>
    intro g h
    exact ⟨h, fun x => by simp [AddNodes]⟩
  | cons y t ih =>
    intro g h
    unfold AddNodes
    rw [List.foldl_cons]
    by_cases hy : y.1 ∈ g.nodes_map_.map Prod.fst
    · have hmap := nodes_map_AddNode_of_mem ir g y.1 y.2 hy
      obtain ⟨h1, h2⟩ := ih (g.AddNode ir y.1 y.2).1 (by rw [hmap]; exact h)
      refine ⟨h1, fun x => ?_⟩
      have := h2 x
      unfold AddNodes at this
      rw [this, hmap]
      simp only [List.map_cons, List.mem_cons]
      constructor
      · rintro (hx | hx)
        · exact Or.inl hx
        · exact Or.inr (Or.inr hx)
      · rintro (hx | hx | hx)
        · exact Or.inl hx
        · exact Or.inl (hx ▸ hy)
        · exact Or.inr hx
    · have hmap := nodes_map_AddNode ir g y.1 y.2 hy
      obtain ⟨h1, h2⟩ := ih (g.AddNode ir y.1 y.2).1 (by
        rw [hmap, List.map_append]
        exact List.Nodup.append h (List.nodup_singleton _)
          (by simpa [List.disjoint_singleton] using hy))
      refine ⟨h1, fun x => ?_⟩
      have := h2 x
      unfold AddNodes at this
      rw [this, hmap]
      simp only [List.map_append, List.map_cons, List.map_nil, List.mem_append,
        List.mem_singleton, List.mem_cons, List.not_mem_nil, or_false]
      constructor
      · rintro ((hx | hx) | hx)
        · exact Or.inl hx
        · exact Or.inr (Or.inl hx)
        · exact Or.inr (Or.inr hx)
      · rintro (hx | hx | hx)
        · exact Or.inl (Or.inl hx)
        · exact Or.inl (Or.inr hx)
        · exact Or.inr hx

theorem AddNodes_wf (ir : HGraph) (added : List (Nat × Bool)) :
    ∀ g : SchedulingGraph, ArenaWF g.arena → g.arena.length + added.length < 2147483648 →
      ArenaWF (AddNodes ir g added).arena
        ∧ (AddNodes ir g added).arena.length = g.arena.length + added.length := by
  induction added with
  | nil => intro g h _; exact ⟨h, rfl⟩
  | cons y t ih =>
    intro g h hN
    simp only [List.length_cons] at hN
    unfold AddNodes
    rw [List.foldl_cons]
    obtain ⟨_, hext, hwf, _⟩ := AddNode_spec ir g y.1 y.2 h (by omega)
    have hlen : (g.AddNode ir y.1 y.2).1.arena.length = g.arena.length + 1 := by
      rw [hext.length, List.length_append, List.length_singleton]
    obtain ⟨h1, h2⟩ := ih (g.AddNode ir y.1 y.2).1 hwf (by rw [hlen]; omega)
    refine ⟨h1, ?_⟩
    unfold AddNodes at h2
    rw [h2, hlen, List.length_cons]
    omega

theorem AddNode_fresh_node (ir : HGraph) (g : SchedulingGraph) (instr : Nat) (isb : Bool)
    (hwf : ArenaWF g.arena) (hN : g.arena.length + 1 < 2147483648) :
    nodeAt (g.AddNode ir instr isb).1.arena (g.AddNode ir instr isb).2
      = { SchedulingNode.new instr isb with
          num_unscheduled_successors_ :=
            TotalOccurrences (g.AddNode ir instr isb).1.arena
              (g.AddNode ir instr isb).2 } := by
  obtain ⟨h2, hext, htimes⟩ := AddNode_arena ir g instr isb
  obtain ⟨_, _, hwf2, _⟩ := AddNode_spec ir g instr isb hwf hN
  have hlen : (g.AddNode ir instr isb).1.arena.length = g.arena.length + 1 := by
    rw [hext.length, List.length_append, List.length_singleton]
  have hnew : nodeAt (g.arena ++ [SchedulingNode.new instr isb]) g.arena.length
      = SchedulingNode.new instr isb := nodeAt_append_singleton _ _
  have hpreds : predsAt (g.AddNode ir instr isb).1.arena g.arena.length = [] := by
    apply List.eq_nil_iff_forall_not_mem.mpr
    intro j hj
    have := hwf2.later g.arena.length (by omega) j hj
    omega
  have hdata : (nodeAt (g.AddNode ir instr isb).1.arena g.arena.length).data_predecessors_
      = [] := by
    unfold predsAt SchedulingNode.predecessors at hpreds
    exact (List.append_eq_nil.mp hpreds).1
  have hother : (nodeAt (g.AddNode ir instr isb).1.arena g.arena.length).other_predecessors_
      = [] := by
    unfold predsAt SchedulingNode.predecessors at hpreds
    exact (List.append_eq_nil.mp hpreds).2
  have hcount := hwf2.counts g.arena.length (by omega)
  rw [hlen] at hcount
  have htot := TotalOccurrences_eq (g.AddNode ir instr isb).1.arena g.arena.length
  rw [hlen] at htot
  have hl := htimes.latency g.arena.length
  have hi := htimes.internal g.arena.length
  have hc := htimes.critical g.arena.length
  have hins := hext.instruction g.arena.length
  have hbar := hext.barrier g.arena.length
  rw [hnew] at hl hi hc hins hbar
  rw [h2]
  cases hnode : nodeAt (g.AddNode ir instr isb).1.arena g.arena.length with
  | mk l il cp ins bar dp op nus =>
    rw [hnode] at hl hi hc hins hbar hdata hother hcount
    simp only at hl hi hc hins hbar hdata hother hcount
    subst hl hi hc hins hbar hdata hother
    rw [htot, ← hcount]
    rfl

theorem GetNode_AddNode (ir : HGraph) (g : SchedulingGraph) (instr : Nat) (isb : Bool)
    (h : instr ∉ g.nodes_map_.map Prod.fst) :
    (g.AddNode ir instr isb).1.GetNode instr = some (g.AddNode ir instr isb).2
      ∧ (g.AddNode ir instr isb).1.Size = g.Size + 1 := by
  have hmap := nodes_map_AddNode ir g instr isb h
  have h2 := (AddNode_arena ir g instr isb).1
  constructor
  · unfold SchedulingGraph.GetNode
    rw [hmap, h2, List.find?_append]
    have hnone : g.nodes_map_.find? (fun kv => kv.1 == instr) = none := by
      rw [List.find?_eq_none]
      intro kv hkv hk
      apply h
      have : kv.1 = instr := by simpa using hk
      rw [← this]
      exact List.mem_map_of_mem _ hkv
    rw [hnone]
    simp
  · unfold SchedulingGraph.Size
    rw [hmap, List.length_append, List.length_singleton]

/-! ## The graph, the configuration and the construction (C21 to C23) -/

/-- C21: in a graph built by `AddNode` calls, `Size()` is the number of distinct instructions
added, and `GetNode` of an instruction that was never added is null.  `AddNode(instr, b)`
for an instruction not yet in the graph makes `GetNode(instr)` the node that it returns
and `Size()` one larger.  That node is constructed with barrier flag `b` and with latency,
internal latency, critical path and successor count 0, and when `AddNode` returns it is
still so, but for the counter, which `AddDependencies` has raised once for each
predecessor entry that points at the node. -/
theorem add_node_registers (ir : HGraph) (added : List (Nat × Bool)) (instr : Nat) (b : Bool)
    (hN : added.length + 1 < 2147483648) :
    (AddNodes ir SchedulingGraph.new added).Size = (added.map Prod.fst).toFinset.card
    ∧ (∀ x, x ∉ added.map Prod.fst → (AddNodes ir SchedulingGraph.new added).GetNode x = none)
    ∧ SchedulingNode.new instr b
        = { latency_ := 0, internal_latency_ := 0, critical_path_ := 0, instruction_ := instr,
            is_scheduling_barrier_ := b, data_predecessors_ := [], other_predecessors_ := [],
            num_unscheduled_successors_ := 0 }
    ∧ (instr ∉ added.map Prod.fst →
        ((AddNodes ir SchedulingGraph.new added).AddNode ir instr b).1.GetNode instr
            = some ((AddNodes ir SchedulingGraph.new added).AddNode ir instr b).2
        ∧ ((AddNodes ir SchedulingGraph.new added).AddNode ir instr b).1.Size
            = (AddNodes ir SchedulingGraph.new added).Size + 1
        ∧ nodeAt ((AddNodes ir SchedulingGraph.new added).AddNode ir instr b).1.arena
              ((AddNodes ir SchedulingGraph.new added).AddNode ir instr b).2
            = { SchedulingNode.new instr b with
                num_unscheduled_successors_ :=
                  TotalOccurrences
                    ((AddNodes ir SchedulingGraph.new added).AddNode ir instr b).1.arena
                    ((AddNodes ir SchedulingGraph.new added).AddNode ir instr b).2 }) := by
  obtain ⟨hk1, hk2⟩ := AddNodes_keys ir added SchedulingGraph.new List.nodup_nil
  obtain ⟨hwf, hlen⟩ := AddNodes_wf ir added SchedulingGraph.new wf_nil
    (by simp [SchedulingGraph.new]; omega)
  have hkeys : ∀ x, x ∈ (AddNodes ir SchedulingGraph.new added).nodes_map_.map Prod.fst ↔
      x ∈ added.map Prod.fst := by
    intro x
    rw [hk2 x]
    simp [SchedulingGraph.new]
  refine ⟨?_, ?_, rfl, ?_⟩
  · unfold SchedulingGraph.Size
    have hl : (AddNodes ir SchedulingGraph.new added).nodes_map_.length
        = ((AddNodes ir SchedulingGraph.new added).nodes_map_.map Prod.fst).length := by
      simp
    rw [hl, ← List.toFinset_card_of_nodup hk1]
    apply congrArg
    ext x
    simp only [List.mem_toFinset]
    exact hkeys x
  · intro x hx
    exact GetNode_eq_none _ x (fun h => hx ((hkeys x).mp h))
  · intro hfresh
    obtain ⟨g1, g2⟩ := GetNode_AddNode ir (AddNodes ir SchedulingGraph.new added) instr b
      (fun h => hfresh ((hkeys instr).mp h))
    refine ⟨g1, g2, ?_⟩
    apply AddNode_fresh_node ir _ instr b hwf
    rw [hlen]
    simp [SchedulingGraph.new]
    omega

/-- The header example after `AddNode(i3)`: `AddNode(i2)` registers a node for `i2`, on which
the node of `i3` depends, so that its counter is 1 when `AddNode` returns. -/
theorem add_node_registers_witness :
    (2 : Nat) ∉ ([(3, false)] : List (Nat × Bool)).map Prod.fst
    ∧ ((AddNodes exampleIR SchedulingGraph.new [(3, false)]).AddNode exampleIR 2 false).1.GetNode
          2 = some 1
    ∧ ((AddNodes exampleIR SchedulingGraph.new [(3, false)]).AddNode exampleIR 2 false).1.Size
        = 2
    ∧ nodeAt ((AddNodes exampleIR SchedulingGraph.new [(3, false)]).AddNode exampleIR 2
          false).1.arena 1
        = { SchedulingNode.new 2 false with num_unscheduled_successors_ := 1 } := by
  obtain ⟨_, _, _, h⟩ := add_node_registers exampleIR [(3, false)] 2 false (by decide)
  obtain ⟨h1, h2, h3⟩ := h (by decide)
  exact ⟨by decide, h1.trans (by decide), h2.trans (by decide), h3.trans (by decide)⟩

/-- C22: a newly constructed `HScheduler` has `only_optimize_loop_blocks_` set, and it stays
so until `SetOnlyOptimizeLoopBlocks` is called: after any sequence of such calls the flag
is the argument of the last call, and the other members are those of the construction.
`HInstructionScheduling::Run()` is `Run(true, false)`, whatever the two-argument `Run` is. -/
theorem default_configuration {σ : Type} (selector : SchedulingNodeSelector σ)
    (IsSchedulingBarrier : Nat → Bool)
    (Accept : Nat → SchedulingLatencyVisitor → Option SchedulingLatencyVisitor)
    (flags : List Bool) (Run2 : Bool → Bool → Bool) :
    (HScheduler.new selector IsSchedulingBarrier Accept).only_optimize_loop_blocks_ = true
    ∧ (flags.foldl HScheduler.SetOnlyOptimizeLoopBlocks
          (HScheduler.new selector IsSchedulingBarrier Accept)).only_optimize_loop_blocks_
        = flags.getLastD true
    ∧ (∀ (self : HScheduler σ) (loop_only : Bool),
        self.SetOnlyOptimizeLoopBlocks loop_only
          = { self with only_optimize_loop_blocks_ := loop_only })
    ∧ HInstructionScheduling.Run Run2 = Run2 true false := by
  refine ⟨rfl, ?_, fun _ _ => rfl, rfl⟩
  rw [foldl_SetOnlyOptimizeLoopBlocks]
  rfl

/-- C23: for a block of distinct instructions, `BuildSchedulingGraph(block, ..., visitor)`
returns when every instruction reports the block and the visitor returns on each; and
when it returns, the node list and `Size()` both have the instruction count of the
block, and the `i`-th entry of the list is the node of the `i`-th instruction counted
from the end of the block: the graph finds it under that instruction, its barrier flag is
`IsSchedulingBarrier(instruction)`, and its latency and internal latency are what the
visitor holds after `CalculateLatency` on the instructions visited up to it. -/
theorem build_returns_nodes (ir : HGraph) (isB : Nat → Bool)
    (Accept : Nat → SchedulingLatencyVisitor → Option SchedulingLatencyVisitor)
    (block : HBasicBlock) (v : SchedulingLatencyVisitor)
    (hnodup : block.instructions.Nodup) :
    ((∀ x, x ∈ block.instructions → ir.GetBlock x = block.block_id) →
      (∀ x, x ∈ block.instructions → ∀ w, (Accept x w).isSome = true) →
      ∃ built, BuildSchedulingGraph ir isB Accept block v = some built)
    ∧ ∀ built, BuildSchedulingGraph ir isB Accept block v = some built →
      built.2.length = block.instructions.length
      ∧ built.1.Size = block.instructions.length
      ∧ ∀ i, i < block.instructions.length →
          ∃ node instruction w,
            built.2[i]? = some node
            ∧ block.instructions[block.instructions.length - 1 - i]? = some instruction
            ∧ (nodeAt built.1.arena node).instruction_ = instruction
            ∧ built.1.GetNode instruction = some node
            ∧ (nodeAt built.1.arena node).is_scheduling_barrier_ = isB instruction
            ∧ VisitorAfter Accept v (block.instructions.reverse.take (i + 1)) = some w
            ∧ (nodeAt built.1.arena node).latency_ = w.last_visited_latency_
            ∧ (nodeAt built.1.arena node).internal_latency_
                = w.last_visited_internal_latency_ := by
  constructor
  · intro hblock hreturns
    obtain ⟨h1, h2⟩ := BuildSchedulingGraphFrom_check ir isB Accept block.block_id
      block.instructions.reverse SchedulingGraph.new [] v
      (fun x hx => hreturns x (List.mem_reverse.mp hx))
    unfold BuildSchedulingGraph BuildSchedulingGraphOutcome
    cases hout : BuildSchedulingGraphFrom ir isB Accept block.block_id
        block.instructions.reverse SchedulingGraph.new [] v with
    | ok built => exact ⟨built, rfl⟩
    | error e =>
      cases e
      · obtain ⟨x, hx, hne⟩ := h1.mp hout
        exact absurd (hblock x (List.mem_reverse.mp hx)) hne
      · exact absurd hout h2
  · intro built hbuild
    rw [BuildSchedulingGraph_eq_some] at hbuild
    unfold BuildSchedulingGraphOutcome at hbuild
    obtain ⟨w0, hs⟩ := BuildSchedulingGraphFrom_shape ir isB Accept block.block_id v
      block.instructions.reverse [] SchedulingGraph.new [] v built
      (buildShape_nil isB Accept v) (by simpa using hnodup) hbuild
    simp only [List.nil_append] at hs
    have hrl : block.instructions.reverse.length = block.instructions.length :=
      List.length_reverse _
    refine ⟨?_, ?_, ?_⟩
    · rw [hs.nodes_eq, List.length_range, hrl]
    · unfold SchedulingGraph.Size
      rw [hs.map, List.length_zip, List.length_range, hrl, Nat.min_self]
    · intro i hi
      have hir : i < block.instructions.reverse.length := by rw [hrl]; exact hi
      obtain ⟨w, hw1, hw2, hw3⟩ := hs.latency i hir
      have hget : block.instructions.reverse.getD i 0 = block.instructions.reverse[i] :=
        List.getD_eq_getElem _ _ hir
      refine ⟨i, block.instructions.reverse[i], w, ?_, ?_, ?_, ?_, ?_, hw1, hw2, hw3⟩
      · rw [hs.nodes_eq, List.getElem?_range hir]
      · rw [List.getElem_reverse, List.getElem?_eq_getElem]
      · rw [instruction_eq_getD _ _ hs.instrs, hget]
      · rw [← hget]
        exact GetNode_zip built.1 _ (List.nodup_reverse.mpr hnodup) hs.map i hir
      · rw [hs.barrier i hir, hget]

/-- The header example under the ARM64 visitor: the first entry of the node list is the node
of `i3`, the last instruction, with the latency 2 of an integer binary operation. -/
theorem build_returns_nodes_witness :
    exampleBlock.instructions.Nodup
    ∧ BuildSchedulingGraph exampleIR (fun _ => false)
        (SchedulingLatencyVisitorARM64.Accept exampleCode true) exampleBlock
        SchedulingLatencyVisitor.new = some arm64Built
    ∧ arm64Built.2.length = 3 ∧ arm64Built.1.Size = 3
    ∧ arm64Built.1.GetNode 3 = arm64Built.2[0]?
    ∧ (nodeAt arm64Built.1.arena 0).latency_ = 2 :=
  ⟨by decide, by decide,
    ((build_returns_nodes exampleIR (fun _ => false)
      (SchedulingLatencyVisitorARM64.Accept exampleCode true) exampleBlock
      SchedulingLatencyVisitor.new (by decide)).2 arm64Built (by decide)).1,
    ((build_returns_nodes exampleIR (fun _ => false)
      (SchedulingLatencyVisitorARM64.Accept exampleCode true) exampleBlock
      SchedulingLatencyVisitor.new (by decide)).2 arm64Built (by decide)).2.1,
    by decide, by decide⟩

/-! ## The division latencies, the critical path and the counter (C24 to C26) -/

/-- C24: the ARM64 latencies of `HDiv`, as (latency, internal latency) after
`CalculateLatency`.  Float32 gives latency 15, Float64 latency 30.  For an integer
division, a divisor that is not a constant gives (5, 0), the constant 0 gives (0, 0),
1 or -1 gives (2, 0), any other 64-bit constant whose absolute value is a power of two
gives (2, 8), every remaining 64-bit constant gives (6, 8); so no constant divisor
receives the pair of a variable divisor. -/
theorem div_latency_table (code : Nat → HInstruction) (kUseStringCompression : Bool)
    (v : SchedulingLatencyVisitor) (node : SchedulingNode)
    (hkind : (code node.instruction_).GetKind = InstructionKind.kDiv) :
    ((code node.instruction_).GetResultType = DataType.kFloat32 →
      v.CalculateLatency (SchedulingLatencyVisitorARM64.Accept code kUseStringCompression)
          node
        = some { last_visited_latency_ := 15, last_visited_internal_latency_ := 0 })
    ∧ ((code node.instruction_).GetResultType = DataType.kFloat64 →
      v.CalculateLatency (SchedulingLatencyVisitorARM64.Accept code kUseStringCompression)
          node
        = some { last_visited_latency_ := 30, last_visited_internal_latency_ := 0 })
    ∧ ((code node.instruction_).GetResultType.IsFloatingPointType = false →
      ((code node.instruction_).RightConstant = none →
        v.CalculateLatency (SchedulingLatencyVisitorARM64.Accept code kUseStringCompression)
            node
          = some { last_visited_latency_ := 5, last_visited_internal_latency_ := 0 })
      ∧ ∀ imm : Int, (code node.instruction_).RightConstant = some imm →
          -9223372036854775808 ≤ imm → imm < 9223372036854775808 →
          (imm = 0 →
            v.CalculateLatency
                (SchedulingLatencyVisitorARM64.Accept code kUseStringCompression) node
              = some { last_visited_latency_ := 0, last_visited_internal_latency_ := 0 })
          ∧ (imm = 1 ∨ imm = -1 →
            v.CalculateLatency
                (SchedulingLatencyVisitorARM64.Accept code kUseStringCompression) node
              = some { last_visited_latency_ := 2, last_visited_internal_latency_ := 0 })
          ∧ (imm ≠ 0 → imm ≠ 1 → imm ≠ -1 → (∃ k, imm.natAbs = 2 ^ k) →
            v.CalculateLatency
                (SchedulingLatencyVisitorARM64.Accept code kUseStringCompression) node
              = some { last_visited_latency_ := 2, last_visited_internal_latency_ := 8 })
          ∧ (imm ≠ 0 → imm ≠ 1 → imm ≠ -1 → (¬ ∃ k, imm.natAbs = 2 ^ k) →
            v.CalculateLatency
                (SchedulingLatencyVisitorARM64.Accept code kUseStringCompression) node
              = some { last_visited_latency_ := 6, last_visited_internal_latency_ := 8 })
          ∧ v.CalculateLatency
                (SchedulingLatencyVisitorARM64.Accept code kUseStringCompression) node
              ≠ some { last_visited_latency_ := 5, last_visited_internal_latency_ := 0 }) := by
  have hacc : v.CalculateLatency
      (SchedulingLatencyVisitorARM64.Accept code kUseStringCompression) node
      = some (SchedulingLatencyVisitorARM64.VisitDiv
          { v with last_visited_internal_latency_ := 0 } (code node.instruction_)) := by
    unfold SchedulingLatencyVisitor.CalculateLatency SchedulingLatencyVisitorARM64.Accept
      HInstruction.Accept
    rw [hkind]
  rw [hacc]
  unfold SchedulingLatencyVisitorARM64.VisitDiv
  refine ⟨?_, ?_, ?_⟩
  · intro h
    rw [h]
    rfl
  · intro h
    rw [h]
    rfl
  · intro hfp
    obtain ⟨hn32, hn64⟩ := IsFloatingPointType_false _ hfp
    constructor
    · intro hc
      split
      · next h => exact absurd h hn32
      · next h => exact absurd h hn64
      · rw [hc]
        rfl
    · intro imm hc hlo hhi
      have hcases : (imm = 0 ∨ imm = 1 ∨ imm = -1)
          ∨ (imm ≠ 0 ∧ imm ≠ 1 ∧ imm ≠ -1 ∧ IsPowerOfTwo (AbsOrMin imm) = true)
          ∨ (imm ≠ 0 ∧ imm ≠ 1 ∧ imm ≠ -1 ∧ IsPowerOfTwo (AbsOrMin imm) = false) := by
        by_cases h0 : imm = 0
        · exact Or.inl (Or.inl h0)
        by_cases h1 : imm = 1
        · exact Or.inl (Or.inr (Or.inl h1))
        by_cases h2 : imm = -1
        · exact Or.inl (Or.inr (Or.inr h2))
        cases hp : IsPowerOfTwo (AbsOrMin imm)
        · exact Or.inr (Or.inr ⟨h0, h1, h2, rfl⟩)
        · exact Or.inr (Or.inl ⟨h0, h1, h2, rfl⟩)
      split
      · next h => exact absurd h hn32
      · next h => exact absurd h hn64
      · rw [hc]
        simp only []
        rcases hcases with (h | h | h) | ⟨h0, h1, h2, hp⟩ | ⟨h0, h1, h2, hp⟩
        · subst h
          simp [kArm64IntegerOpLatency]
        · subst h
          simp [kArm64IntegerOpLatency]
        · subst h
          simp [kArm64IntegerOpLatency]
        · have hk := (IsPowerOfTwo_AbsOrMin_iff imm hlo hhi h0).mp hp
          simp [h0, h1, h2, hp, hk, kArm64IntegerOpLatency]
        · have hk : ¬ ∃ k, imm.natAbs = 2 ^ k := fun h =>
            by rw [(IsPowerOfTwo_AbsOrMin_iff imm hlo hhi h0).mpr h] at hp; simp at hp
          simp [h0, h1, h2, hp, hk, kArm64IntegerOpLatency, kArm64MulIntegerLatency]

/-- An integer division by the constant 8: latency 2, internal latency 8. -/
theorem div_latency_table_witness :
    (constantDivisor InstructionKind.kDiv 8).GetKind = InstructionKind.kDiv
    ∧ SchedulingLatencyVisitor.new.CalculateLatency
        (SchedulingLatencyVisitorARM64.Accept
          (fun _ => constantDivisor InstructionKind.kDiv 8) true)
        (SchedulingNode.new 1 false)
      = some { last_visited_latency_ := 2, last_visited_internal_latency_ := 8 } :=
  ⟨rfl, ((div_latency_table (fun _ => constantDivisor InstructionKind.kDiv 8) true
    SchedulingLatencyVisitor.new (SchedulingNode.new 1 false) rfl).2.2 rfl).2
      8 rfl (by decide) (by decide) |>.2.2.1 (by decide) (by decide) (by decide)
      ⟨3, by decide⟩⟩

/-- C25: `MaybeUpdateCriticalPath(x)` sets `critical_path_` to the maximum of its old value
and `x` and changes no other field; the critical path never decreases, the update is
idempotent and two updates commute; after the updates `xs` on a fresh node the critical
path is the maximum of 0 and the elements of `xs`, in whatever order they come. -/
theorem maybe_update_critical_path (n : SchedulingNode) (x y : Nat) (xs ys : List Nat)
    (instr : Nat) (is_scheduling_barrier : Bool) :
    n.MaybeUpdateCriticalPath x = { n with critical_path_ := max n.critical_path_ x }
    ∧ n.critical_path_ ≤ (n.MaybeUpdateCriticalPath x).critical_path_
    ∧ (n.MaybeUpdateCriticalPath x).MaybeUpdateCriticalPath x = n.MaybeUpdateCriticalPath x
    ∧ (n.MaybeUpdateCriticalPath x).MaybeUpdateCriticalPath y
        = (n.MaybeUpdateCriticalPath y).MaybeUpdateCriticalPath x
    ∧ xs.foldl SchedulingNode.MaybeUpdateCriticalPath
          (SchedulingNode.new instr is_scheduling_barrier)
        = { SchedulingNode.new instr is_scheduling_barrier with
            critical_path_ := xs.foldl max 0 }
    ∧ (∀ z, z ∈ xs → z ≤ xs.foldl max 0)
    ∧ (xs.foldl max 0 = 0 ∨ xs.foldl max 0 ∈ xs)
    ∧ (xs.Perm ys →
        xs.foldl SchedulingNode.MaybeUpdateCriticalPath
            (SchedulingNode.new instr is_scheduling_barrier)
          = ys.foldl SchedulingNode.MaybeUpdateCriticalPath
              (SchedulingNode.new instr is_scheduling_barrier)) := by
  refine ⟨rfl, Nat.le_max_left _ _, ?_, ?_, ?_, ?_, ?_, ?_⟩
  · unfold SchedulingNode.MaybeUpdateCriticalPath
    simp
  · unfold SchedulingNode.MaybeUpdateCriticalPath
    simp only [SchedulingNode.mk.injEq, and_true, true_and]
    omega
  · rw [foldl_MaybeUpdateCriticalPath]
    rfl
  · exact (foldl_max_ge xs 0).2
  · exact foldl_max_mem xs 0
  · intro hp
    rw [foldl_MaybeUpdateCriticalPath, foldl_MaybeUpdateCriticalPath,
      foldl_max_perm xs ys hp]

/-- C26: in every state of the scheduling loop the candidates are exactly the unscheduled
nodes whose counter is zero.  An iteration runs the predecessor visits of the popped
node in order, and at each visit the counter of the visited node is at least 1 before
`DecrementNumberOfUnscheduledSuccessors`, so that the `uint32_t` does not wrap; the
visit lowers it by exactly one, leaves the other counters, and adds the node to the
candidates exactly when its counter has reached zero. -/
theorem decrement_never_wraps {σ : Type} (self : HScheduler σ) (ir : HGraph)
    (block : HBasicBlock) (s : σ) (built : SchedulingGraph × List Nat)
    (hbuild : BuildSchedulingGraph ir self.IsSchedulingBarrier self.Accept block
      SchedulingLatencyVisitor.new = some built)
    (hnodup : block.instructions.Nodup) (hN : block.instructions.length < 2147483648)
    (hsel : SelectorContract self.selector_) (st : ScheduleState σ)
    (hreach : LoopReaches self.selector_
      (InitialScheduleState self.selector_ block s built) st) :
    (∀ c, c ∈ st.candidates ↔
      (c < block.instructions.length ∧ c ∉ st.scheduled ∧ nusAt st.graph.arena c = 0))
    ∧ (st.candidates ≠ [] →
      ((ScheduleStep self.selector_ st).graph.arena,
          (ScheduleStep self.selector_ st).candidates)
        = RunVisits
            (PredecessorVisits st.graph.arena
              (self.selector_.PopHighestPriorityNode st.selector_state st.candidates
                st.graph).1)
            (st.graph.arena,
              (self.selector_.PopHighestPriorityNode st.selector_state st.candidates
                st.graph).2.1)
      ∧ ∀ (pre : List (Option Nat × Nat)) (q : Option Nat × Nat)
          (post : List (Option Nat × Nat)),
          PredecessorVisits st.graph.arena
              (self.selector_.PopHighestPriorityNode st.selector_state st.candidates
                st.graph).1 = pre ++ q :: post →
          1 ≤ nusAt (RunVisits pre (st.graph.arena,
              (self.selector_.PopHighestPriorityNode st.selector_state st.candidates
                st.graph).2.1)).1 q.2
          ∧ nusAt (RunVisits (pre ++ [q]) (st.graph.arena,
              (self.selector_.PopHighestPriorityNode st.selector_state st.candidates
                st.graph).2.1)).1 q.2 + 1
            = nusAt (RunVisits pre (st.graph.arena,
              (self.selector_.PopHighestPriorityNode st.selector_state st.candidates
                st.graph).2.1)).1 q.2
          ∧ (∀ i, i ≠ q.2 →
            nusAt (RunVisits (pre ++ [q]) (st.graph.arena,
              (self.selector_.PopHighestPriorityNode st.selector_state st.candidates
                st.graph).2.1)).1 i
            = nusAt (RunVisits pre (st.graph.arena,
              (self.selector_.PopHighestPriorityNode st.selector_state st.candidates
                st.graph).2.1)).1 i)
          ∧ (RunVisits (pre ++ [q]) (st.graph.arena,
              (self.selector_.PopHighestPriorityNode st.selector_state st.candidates
                st.graph).2.1)).2
            = (RunVisits pre (st.graph.arena,
              (self.selector_.PopHighestPriorityNode st.selector_state st.candidates
                st.graph).2.1)).2
              ++ (if nusAt (RunVisits (pre ++ [q]) (st.graph.arena,
                  (self.selector_.PopHighestPriorityNode st.selector_state st.candidates
                    st.graph).2.1)).1 q.2 = 0 then [q.2] else [])) := by
  have hb := BuildSchedulingGraph_spec ir self.IsSchedulingBarrier self.Accept block
    SchedulingLatencyVisitor.new built hN hbuild
  have hlen : built.1.arena.length = block.instructions.length := by
    have := congrArg List.length hb.instrs
    simpa using this
  have hinj := instrAt_inj ir self.IsSchedulingBarrier block built hb hnodup
  have hinit := initial_inv self.selector_ ir self.IsSchedulingBarrier block s built hb
  have hN2 : built.1.arena.length < 2147483648 := by rw [hlen]; exact hN
  obtain ⟨U, hinv⟩ := loopReaches_inv self.selector_ hsel built.1.arena hb.wf hN2 hinj _ _
    hinit st hreach
  have hnd : (U ++ st.scheduled).Nodup := hinv.perm.nodup_iff.mpr (List.nodup_range _)
  have hU : ∀ c, c ∈ U ↔ (c < block.instructions.length ∧ c ∉ st.scheduled) := by
    intro c
    constructor
    · intro hc
      refine ⟨?_, fun hs => (List.nodup_append.mp hnd).2.2 hc hs⟩
      rw [← hlen]
      exact List.mem_range.mp (hinv.perm.mem_iff.mp (List.mem_append_left _ hc))
    · rintro ⟨hc, hs⟩
      rw [← hlen] at hc
      rcases List.mem_append.mp (hinv.perm.mem_iff.mpr (List.mem_range.mpr hc)) with h | h
      · exact h
      · exact absurd h hs
  constructor
  · intro c
    rw [hinv.cands_iff c, hU c, and_assoc]
  · intro hne
    have hperm := hsel st.selector_state st.candidates st.graph hne
    have hpop : (self.selector_.PopHighestPriorityNode st.selector_state st.candidates
        st.graph).1 ∈ st.candidates := hperm.mem_iff.mpr (List.mem_cons_self _ _)
    obtain ⟨r1, r2, r3⟩ := visits_ready built.1.arena hb.wf hN2 st U hinv _ hpop
    constructor
    · obtain ⟨e1, e2⟩ := ScheduleNode_visits
        { st with
          candidates := (self.selector_.PopHighestPriorityNode st.selector_state
            st.candidates st.graph).2.1
          selector_state := (self.selector_.PopHighestPriorityNode st.selector_state
            st.candidates st.graph).2.2 }
        (self.selector_.PopHighestPriorityNode st.selector_state st.candidates st.graph).1
      unfold ScheduleStep RunVisits
      exact Prod.ext e1 e2
    · intro pre q post hsplit
      obtain ⟨p1, p2, p3⟩ := visit_prefix _
        (st.graph.arena, (self.selector_.PopHighestPriorityNode st.selector_state
          st.candidates st.graph).2.1) r1 r2 r3 pre q post hsplit
      unfold RunVisits
      simp only [List.foldl_append, List.foldl_cons, List.foldl_nil]
      generalize List.foldl (fun r q => VisitPredecessor q.1 r q.2)
        (st.graph.arena, (self.selector_.PopHighestPriorityNode st.selector_state
          st.candidates st.graph).2.1) pre = before at p1 p2 p3 ⊢
      obtain ⟨b1, b2⟩ := before
      simp only [] at p1 p2 p3 ⊢
      obtain ⟨_, v2, v3⟩ := VisitPredecessor_spec q.1 b1 b2 q.2 p1 p2 p3
      refine ⟨p2, ?_, ?_, ?_⟩
      · rw [v2 q.2]
        simp only [if_true]
        omega
      · intro i hi
        rw [v2 i, if_neg hi]
      · rw [v3, v2 q.2]
        simp only [if_true]
        by_cases h1 : nusAt b1 q.2 = 1
        · rw [if_pos h1, if_pos (by omega)]
        · rw [if_neg h1, if_neg (by omega)]

/-- The first iteration on the header example under the critical-path selector: the node
of `i3` is the candidate, its visits are those of the nodes of `i2` and `i1`, and the
first visit finds the counter of the node of `i2` at 1 or more. -/
theorem decrement_never_wraps_witness :
    (InitialScheduleState (CriticalPathSchedulingNodeSelector exampleIR) exampleBlock none
        exampleBuilt).candidates = [0]
    ∧ PredecessorVisits
        (InitialScheduleState (CriticalPathSchedulingNodeSelector exampleIR) exampleBlock
          none exampleBuilt).graph.arena 0 = [(some 1, 1), (some 1, 2)]
    ∧ 1 ≤ nusAt (RunVisits []
        ((InitialScheduleState (CriticalPathSchedulingNodeSelector exampleIR) exampleBlock
          none exampleBuilt).graph.arena,
          ((CriticalPathSchedulingNodeSelector exampleIR).PopHighestPriorityNode
            (InitialScheduleState (CriticalPathSchedulingNodeSelector exampleIR) exampleBlock
              none exampleBuilt).selector_state
            (InitialScheduleState (CriticalPathSchedulingNodeSelector exampleIR) exampleBlock
              none exampleBuilt).candidates
            (InitialScheduleState (CriticalPathSchedulingNodeSelector exampleIR) exampleBlock
              none exampleBuilt).graph).2.1)).1 1 :=
  ⟨by decide, by decide,
    (((decrement_never_wraps
      (exampleScheduler (CriticalPathSchedulingNodeSelector exampleIR))
      exampleIR exampleBlock none exampleBuilt exampleBuilt_eq (by decide) (by decide)
      (critical_path_contract exampleIR) _ LoopReaches.start).2 (by decide)).2
        [] (some 1, 1) [(some 1, 2)] (by decide)).1⟩

/-! ## Schedulable kinds, predecessor lists and history independence (C27 to C30) -/

/-- C27: `HSchedulerARM64::IsSchedulable` returns true for every kind of the scheduled-common
and of the scheduled-shared list, and for every other kind what the base
`HScheduler::IsSchedulable` returns; the kinds of the two lists are exactly the kinds that
have a latency case of their own in the ARM64 visitor. -/
theorem arm64_is_schedulable (baseIsSchedulable : HInstruction → Bool)
    (instruction : HInstruction) :
    (instruction.GetKind ∈ kScheduledCommonInstructions ++ kScheduledSharedInstructions →
      HSchedulerARM64.IsSchedulable baseIsSchedulable instruction = true)
    ∧ (instruction.GetKind ∉ kScheduledCommonInstructions ++ kScheduledSharedInstructions →
      HSchedulerARM64.IsSchedulable baseIsSchedulable instruction
        = baseIsSchedulable instruction)
    ∧ (instruction.GetKind ∈ kScheduledCommonInstructions ++ kScheduledSharedInstructions ↔
      instruction.GetKind ∉ [InstructionKind.kOtherBinaryOperation,
        InstructionKind.kOtherInvoke, InstructionKind.kOther]) := by
  unfold HSchedulerARM64.IsSchedulable
  cases instruction.GetKind <;> simp [kScheduledCommonInstructions, kScheduledSharedInstructions]

/-- C28: from freshly constructed nodes and after any sequence of `AddDataPredecessor` and
`AddOtherPredecessor` calls, no predecessor list holds the same node twice: the elements
of `data_predecessors_` are pairwise distinct, and so are those of `other_predecessors_`. -/
theorem predecessor_lists_nodup (instructions : List (Nat × Bool))
    (calls : List PredecessorCall) :
    ∀ n, n ∈ RunCalls (FreshNodes instructions) calls →
      n.data_predecessors_.Nodup ∧ n.other_predecessors_.Nodup := by
  intro n hn
  obtain ⟨i, hi, rfl⟩ := List.getElem_of_mem hn
  obtain ⟨h1, h2⟩ := nodup_RunCalls calls (FreshNodes instructions)
    (fun i => by rw [(nodeAt_FreshNodes instructions i).1]; exact List.nodup_nil)
    (fun i => by rw [(nodeAt_FreshNodes instructions i).2.1]; exact List.nodup_nil)
  have h1i := h1 i
  have h2i := h2 i
  unfold nodeAt at h1i h2i
  rw [List.getElem?_eq_getElem hi] at h1i h2i
  exact ⟨h1i, h2i⟩

/-- The same `AddDataPredecessor(n1)` twice on `n0`, then an `AddOtherPredecessor(n1)`: the
data list of `n0` holds `n1` once. -/
theorem predecessor_lists_nodup_witness :
    nodeAt (RunCalls (FreshNodes [(3, false), (1, false)])
        [⟨0, true, 1⟩, ⟨0, true, 1⟩, ⟨0, false, 1⟩]) 0
      ∈ RunCalls (FreshNodes [(3, false), (1, false)])
        [⟨0, true, 1⟩, ⟨0, true, 1⟩, ⟨0, false, 1⟩]
    ∧ (nodeAt (RunCalls (FreshNodes [(3, false), (1, false)])
        [⟨0, true, 1⟩, ⟨0, true, 1⟩, ⟨0, false, 1⟩]) 0).data_predecessors_ = [1]
    ∧ (nodeAt (RunCalls (FreshNodes [(3, false), (1, false)])
        [⟨0, true, 1⟩, ⟨0, true, 1⟩, ⟨0, false, 1⟩]) 0).data_predecessors_.Nodup :=
  ⟨by decide, by decide,
    (predecessor_lists_nodup [(3, false), (1, false)]
      [⟨0, true, 1⟩, ⟨0, true, 1⟩, ⟨0, false, 1⟩] _ (by decide)).1⟩

/-- C29: the ARM64 latency assignment is history-independent.  For every instruction
`CalculateLatency` returns, and the visitor that it leaves, the pair of
`last_visited_latency_` and `last_visited_internal_latency_`, is the same for every two
prior states of the visitor. -/
theorem arm64_latency_history_independent (code : Nat → HInstruction)
    (kUseStringCompression : Bool) (v1 v2 : SchedulingLatencyVisitor)
    (node : SchedulingNode) :
    v1.CalculateLatency (SchedulingLatencyVisitorARM64.Accept code kUseStringCompression) node
      = v2.CalculateLatency (SchedulingLatencyVisitorARM64.Accept code kUseStringCompression)
          node
    ∧ ∃ visited,
        v1.CalculateLatency (SchedulingLatencyVisitorARM64.Accept code kUseStringCompression)
          node = some visited := by
  constructor
  · unfold SchedulingLatencyVisitor.CalculateLatency SchedulingLatencyVisitorARM64.Accept
    rw [Accept_history (code node.instruction_) kUseStringCompression v1 v2]
  · exact ⟨_, rfl⟩

/-- C30: an integer `HDiv` and an integer `HRem` with the same constant as right operand
leave the same latency and the same internal latency, whatever the two visitors held
before; and in `VisitDiv` as in `VisitRem` the `DCHECK(imm <= -2 || imm >= 2)` of the last
branch fails on no instruction: a build that checks it returns what a build without it
returns. -/
theorem div_rem_constant_tables_coincide (kUseStringCompression : Bool)
    (v1 v2 : SchedulingLatencyVisitor) (div rem : HInstruction) (imm : Int)
    (hdk : div.GetKind = InstructionKind.kDiv) (hrk : rem.GetKind = InstructionKind.kRem)
    (hdt : div.GetResultType.IsFloatingPointType = false)
    (hrt : rem.GetResultType.IsFloatingPointType = false)
    (hdc : div.RightConstant = some imm) (hrc : rem.RightConstant = some imm) :
    div.Accept kUseStringCompression v1 = rem.Accept kUseStringCompression v2
    ∧ (∀ (v : SchedulingLatencyVisitor) (instr : HInstruction),
        SchedulingLatencyVisitorARM64.VisitDivChecked v instr
          = some (SchedulingLatencyVisitorARM64.VisitDiv v instr))
    ∧ ∀ (v : SchedulingLatencyVisitor) (instr : HInstruction),
        SchedulingLatencyVisitorARM64.VisitRemChecked v instr
          = some (SchedulingLatencyVisitorARM64.VisitRem v instr) := by
  obtain ⟨hn32, hn64⟩ := IsFloatingPointType_false _ hdt
  refine ⟨?_, VisitDivChecked_eq, VisitRemChecked_eq⟩
  unfold HInstruction.Accept
  rw [hdk, hrk]
  simp only []
  unfold SchedulingLatencyVisitorARM64.VisitDiv SchedulingLatencyVisitorARM64.VisitRem
  by_cases h0 : imm = 0
  · cases hty : div.GetResultType <;> rw [hty] at hn32 hn64 <;>
      simp [hdc, hrc, hrt, h0] at hn32 hn64 ⊢
  · by_cases h1 : imm = 1 ∨ imm = -1
    · cases hty : div.GetResultType <;> rw [hty] at hn32 hn64 <;>
        simp [hdc, hrc, hrt, h0, h1] at hn32 hn64 ⊢
    · cases hp : IsPowerOfTwo (AbsOrMin imm) <;>
        cases hty : div.GetResultType <;> rw [hty] at hn32 hn64 <;>
          simp [hdc, hrc, hrt, h0, h1, hp] at hn32 hn64 ⊢

/-- A division and a remainder by 7: both get latency 6 and internal latency 8. -/
theorem div_rem_constant_tables_coincide_witness :
    (constantDivisor InstructionKind.kDiv 7).Accept true SchedulingLatencyVisitor.new
        = { last_visited_latency_ := 6, last_visited_internal_latency_ := 8 }
    ∧ (constantDivisor InstructionKind.kDiv 7).Accept true SchedulingLatencyVisitor.new
        = (constantDivisor InstructionKind.kRem 7).Accept true
            { last_visited_latency_ := 30, last_visited_internal_latency_ := 10 } :=
  ⟨by decide,
    (div_rem_constant_tables_coincide true SchedulingLatencyVisitor.new
      { last_visited_latency_ := 30, last_visited_internal_latency_ := 10 }
      (constantDivisor InstructionKind.kDiv 7) (constantDivisor InstructionKind.kRem 7) 7
      rfl rfl rfl rfl rfl rfl).1⟩

end Art
